import Mathlib

/-!
# coro: stackful coroutines on top of `ucontext`

A shallow embedding of `coro.c` (object model, reference counting, the five
control-transfer operations, the entry trampoline, the stack inspector) and of
the client program `tests.c`, followed by the properties proved about them.

Conventions of the embedding.

* A pointer is a `Nat`; `0` is `NULL`.  Memory is a map from addresses to
  coroutine objects (`heap`) and to raw `calloc` blocks (`bufs`); the addresses
  `1 .. brk` are mapped, and `calloc`, which is taken to succeed, hands out the
  block that starts at `brk + 1` and moves `brk` to its last byte.
* `unsigned long`, `size_t`, `ptrdiff_t`, `long long` and pointers are 64 bits
  wide (LP64); `int` and `unsigned int` are 32 bits wide.  Arithmetic on them
  is written on `Nat`/`Int` with an explicit reduction modulo `2 ^ 64` or
  `2 ^ 32`.
* A saved machine context is either zeroed memory, the context built by
  `coro_setup` (`getcontext` + `makecontext`), or the suspended flow written
  by `swapcontext`.  A suspended flow is named by the program point at which
  the client resumes, with the frame of `coro_run` on top when the flow was
  suspended inside `coro_run`.
* Undefined behaviour (access through a null, freed or unmapped pointer, a
  call through a null function pointer, resuming a zeroed context) is the
  fault `invalid_access`; `abort()` after the diagnostic of
  `coro_yieldto_context` is the fault `yield_error`, which records the memory
  at that moment.
* `CORO_TRACK_ALLOCATIONS` is undefined in `coro.c`, so `CORO_ALLOC` and
  `CORO_DEALLOC` expand to nothing and the globals `coro_allocs`,
  `coro_deallocs` stay `0`.  The embedding records the invocations of
  `coro_alloc` and `coro_dealloc` in two traces instead.
-/

namespace Coro

/-! ## Machine words -/

/-- Number of values of a 64-bit word (`unsigned long`, `size_t`, a pointer). -/
def WORD : Nat := 2 ^ 64

/-- Number of values of a 32-bit word (`int`, `unsigned int`). -/
def HALF : Nat := 2 ^ 32

/-- `#define CORO_DEFAULT_STACK_SIZE (128*1024)` -/
def CORO_DEFAULT_STACK_SIZE : Nat := 128 * 1024

/-- Constants of the target that `coro.c` depends on but does not define. -/
structure Platform where
  /-- whether `__x86_64__` is defined -/
  x86_64 : Bool
  /-- `sizeof(coro)` -/
  sizeof_coro : Nat
  sizeof_pos : 0 < sizeof_coro

/-! ## Pointer marshalling through `makecontext` (x86_64) -/

/-- `(unsigned int)((long long)self >> 32)` in `coro_setup`. -/
def selfHi (self : Nat) : Nat := (self % WORD / HALF) % HALF

/-- `(unsigned int)((long long)self & 0xFFFFFFFF)` in `coro_setup`. -/
def selfLo (self : Nat) : Nat := self % WORD % HALF

/-- The 64-bit pattern of `(long long)x` for `int x` holding the 32-bit
pattern `x`: sign extension. -/
def sext32 (x : Nat) : Nat :=
  if x % HALF < 2 ^ 31 then x % HALF else x % HALF + (WORD - HALF)

/-- The pointer computed by `coro_entry_64(int selfHi, int selfLo)`:
`((long long)selfHi << 32) | (long long)selfLo`, as a 64-bit pattern. -/
def coro_entry_64 (selfHi selfLo : Nat) : Nat :=
  ((sext32 selfHi <<< 32) % WORD) ||| sext32 selfLo

/-! ## Data model -/

/-- The two functions `coro_setup` passes to `makecontext`. -/
inductive EntryFn
  | coro_entry
  | coro_entry_64
  deriving DecidableEq, Repr

/-- A suspended flow of control: what runs when the context is resumed.
`user u`: the transfer was called by client code, which continues at `u`.
`in_coro_run caller u`: the transfer is the `coro_call` inside `coro_run`;
on resumption `coro_run` executes `coro_release(caller)` and returns to the
client at `u`. -/
inductive Flow (υ : Type)
  | user (u : υ)
  | in_coro_run (caller : Nat) (u : υ)
  deriving DecidableEq, Repr

/-- The contents of a `ucontext_t`. -/
inductive ucontext (υ : Type)
  /-- memory as returned by `calloc`, never initialised -/
  | zeroed
  /-- after `getcontext`, the assignments to `uc_stack`/`uc_link` and
  `makecontext(ucp, func, argc, args...)` -/
  | made (ss_sp : Nat) (ss_size : Nat) (ss_flags : Nat) (uc_link : Nat)
      (func : EntryFn) (args : List Nat)
  /-- written by `swapcontext`: the flow that was running -/
  | saved (k : Flow υ)
  deriving DecidableEq, Repr

/-- `struct coro`. -/
structure coro (υ : Type) where
  refcount : Nat
  caller : Nat
  context : Nat
  stack : Nat
  stack_size : Nat
  env : ucontext υ
  start : Nat
  deriving DecidableEq, Repr

/-- An object as `calloc(1, sizeof(coro))` returns it. -/
def coro.zero {υ : Type} : coro υ :=
  { refcount := 0, caller := 0, context := 0, stack := 0, stack_size := 0,
    env := .zeroed, start := 0 }

/-- Memory.  `client` is the data of the client program (what the opaque
contexts point to); the engine never reads or writes it. -/
structure State (υ δ : Type) where
  heap : Nat → Option (coro υ)
  bufs : Nat → Option Nat
  brk : Nat
  alloc_trace : List Nat
  dealloc_trace : List Nat
  client : δ

/-- Faults of the engine functions. -/
inductive Fault (υ δ : Type)
  /-- `coro_yieldto_context`: diagnostic, `coro_yield_error()`, `abort()` -/
  | yield_error (s : State υ δ)
  /-- undefined behaviour -/
  | invalid_access
  /-- the recursion bound of the embedding was reached -/
  | out_of_fuel

variable {υ δ : Type}

/-- The object at address `a`, when `a` is a mapped coroutine. -/
def State.obj (s : State υ δ) (a : Nat) : Option (coro υ) :=
  if 0 < a ∧ a ≤ s.brk then s.heap a else none

/-- Write the object at address `a`. -/
def State.store (s : State υ δ) (a : Nat) (c : coro υ) : State υ δ :=
  { s with heap := Function.update s.heap a (some c) }

/-- The result of `swapcontext`: memory, the coroutine whose context was
activated, and the context that was activated. -/
structure Transfer (υ δ : Type) where
  state : State υ δ
  target : Nat
  resume : ucontext υ

/-! ## General coro object -/

/-- `coro_alloc`: `calloc(1, sizeof(coro))`. -/
def coro_alloc (P : Platform) (s : State υ δ) : Nat × State υ δ :=
  (s.brk + 1,
   { s with
     heap := Function.update s.heap (s.brk + 1) (some coro.zero)
     brk := s.brk + P.sizeof_coro
     alloc_trace := s.alloc_trace ++ [s.brk + 1] })

/-- `calloc(1, size)` for a raw block. -/
def calloc (size : Nat) (s : State υ δ) : Nat × State υ δ :=
  (s.brk + 1,
   { s with
     bufs := Function.update s.bufs (s.brk + 1) (some size)
     brk := s.brk + max size 1 })

/-- `free(p)` for a raw block; `free(NULL)` does nothing. -/
def free (p : Nat) (s : State υ δ) : Except (Fault υ δ) (State υ δ) :=
  if p = 0 then .ok s
  else match s.bufs p with
    | none => .error .invalid_access
    | some _ => .ok { s with bufs := Function.update s.bufs p none }

/-- The context `coro_setup` builds for the coroutine at `self`:
`getcontext`, the assignments to `uc_stack` and `uc_link`, and
`makecontext` with `coro_entry_64` and the two halves of `self` when
`__x86_64__` is defined, with `coro_entry` and `self` otherwise. -/
def entry_context (P : Platform) (self stack stack_size : Nat) : ucontext υ :=
  if P.x86_64 then
    .made stack stack_size 0 0 .coro_entry_64 [selfHi self, selfLo self]
  else
    .made stack stack_size 0 0 .coro_entry [self]

/-- `coro_setup`.  `makecontext` builds the first frame of the entry function
on the stack `uc_stack`; for a coroutine without stack (`self->stack` is
`NULL` and `self->stack_size` is `0` in a bare coroutine) that is a write
through a null pointer. -/
def coro_setup (P : Platform) (self : Nat) (s : State υ δ) :
    Except (Fault υ δ) (State υ δ) :=
  match s.obj self with
  | none => .error .invalid_access
  | some c =>
    if c.stack = 0 then .error .invalid_access
    else .ok (s.store self { c with env := entry_context P self c.stack c.stack_size })

/-- `coro_new`. -/
def coro_new (P : Platform) (start context : Nat) (s : State υ δ) :
    Except (Fault υ δ) (Nat × State υ δ) :=
  let (self, s1) := coro_alloc P s
  match s1.obj self with
  | none => .error .invalid_access
  | some c =>
    let s2 := s1.store self { c with refcount := 1 }
    if start ≠ 0 then
      match s2.obj self with
      | none => .error .invalid_access
      | some c2 =>
        let (stack, s3) := calloc CORO_DEFAULT_STACK_SIZE s2
        let s4 := s3.store self
          { c2 with context := context, start := start,
                    stack_size := CORO_DEFAULT_STACK_SIZE, stack := stack }
        match coro_setup P self s4 with
        | .error e => .error e
        | .ok s5 => .ok (self, s5)
    else .ok (self, s2)

/-- `coro_retain`; the returned pointer is `self`. -/
def coro_retain (self : Nat) (s : State υ δ) : Except (Fault υ δ) (State υ δ) :=
  if self = 0 then .ok s
  else match s.obj self with
    | none => .error .invalid_access
    | some c => .ok (s.store self { c with refcount := (c.refcount + 1) % WORD })

/-- `coro_dealloc`, with the `coro_release` it calls as a parameter. -/
def coro_dealloc_with (release : Nat → State υ δ → Except (Fault υ δ) (State υ δ))
    (self : Nat) (s : State υ δ) : Except (Fault υ δ) (State υ δ) :=
  match s.obj self with
  | none => .error .invalid_access
  | some c =>
    match release c.caller s with
    | .error e => .error e
    | .ok s1 =>
      match s1.obj self with
      | none => .error .invalid_access
      | some c1 =>
        match free c1.stack s1 with
        | .error e => .error e
        | .ok s2 =>
          .ok { s2 with
                heap := Function.update s2.heap self none
                dealloc_trace := s2.dealloc_trace ++ [self] }

/-- `coro_release` with a bound on the depth of the recursion through
`coro_dealloc`. -/
def coro_release_fuel : Nat → Nat → State υ δ → Except (Fault υ δ) (State υ δ)
  | 0, self, s => if self = 0 then .ok s else .error .out_of_fuel
  | fuel + 1, self, s =>
    if self = 0 then .ok s
    else match s.obj self with
      | none => .error .invalid_access
      | some c =>
        let r := (c.refcount + WORD - 1) % WORD
        let s1 := s.store self { c with refcount := r }
        if r ≤ 0 then coro_dealloc_with (coro_release_fuel fuel) self s1
        else .ok s1

/-- `coro_release`.  The recursion visits a coroutine whose count drops to
zero at most once, so `brk + 2` levels are always enough
(`coro_release_fuel_ne_out_of_fuel`). -/
def coro_release (self : Nat) (s : State υ δ) : Except (Fault υ δ) (State υ δ) :=
  coro_release_fuel (s.brk + 2) self s

/-- `coro_dealloc`. -/
def coro_dealloc (self : Nat) (s : State υ δ) : Except (Fault υ δ) (State υ δ) :=
  coro_dealloc_with coro_release self s

/-- `coro_set_caller`. -/
def coro_set_caller (self caller : Nat) (s : State υ δ) :
    Except (Fault υ δ) (State υ δ) :=
  if self = 0 then .ok s
  else match s.obj self with
    | none => .error .invalid_access
    | some c =>
      if c.caller ≠ caller then
        match coro_release c.caller s with
        | .error e => .error e
        | .ok s1 =>
          match coro_retain caller s1 with
          | .error e => .error e
          | .ok s2 =>
            match s2.obj self with
            | none => .error .invalid_access
            | some c2 => .ok (s2.store self { c2 with caller := caller })
      else .ok s

/-! ## Control flow -/

/-- Where `swapcontext` saves the running flow: `&self->env`, or a variable
with automatic storage in the frame of the caller (`current` in
`coro_return`), which nothing reads afterwards. -/
inductive CtxLoc
  | env_of (self : Nat)
  | automatic
  deriving DecidableEq, Repr

/-- `swapcontext(context, &next->env)`: the running flow `k` is saved in
`*context`, then the context stored in `next->env` is activated. -/
def swapcontext (context : CtxLoc) (next : Nat) (k : Flow υ) (s : State υ δ) :
    Except (Fault υ δ) (Transfer υ δ) :=
  let saved : Except (Fault υ δ) (State υ δ) :=
    match context with
    | .env_of self =>
      match s.obj self with
      | none => .error .invalid_access
      | some c => .ok (s.store self { c with env := .saved k })
    | .automatic => .ok s
  match saved with
  | .error e => .error e
  | .ok s1 =>
    match s1.obj next with
    | none => .error .invalid_access
    | some n => .ok { state := s1, target := next, resume := n.env }

/-- `coro_yieldto_context`.  The parameter `self` is not used by the body. -/
def coro_yieldto_context (_self next caller : Nat) (context : CtxLoc) (k : Flow υ)
    (s : State υ δ) : Except (Fault υ δ) (Transfer υ δ) :=
  if next = 0 then .error (.yield_error s)
  else
    let linked : Except (Fault υ δ) (State υ δ) :=
      if caller ≠ 0 then coro_set_caller next caller s else .ok s
    match linked with
    | .error e => .error e
    | .ok s1 => swapcontext context next k s1

/-- `coro_call`. -/
def coro_call (self next : Nat) (k : Flow υ) (s : State υ δ) :
    Except (Fault υ δ) (Transfer υ δ) :=
  coro_yieldto_context self next self (.env_of self) k s

/-- `coro_yieldto`. -/
def coro_yieldto (self next : Nat) (k : Flow υ) (s : State υ δ) :
    Except (Fault υ δ) (Transfer υ δ) :=
  coro_yieldto_context self next 0 (.env_of self) k s

/-- `coro_yield`. -/
def coro_yield (self : Nat) (k : Flow υ) (s : State υ δ) :
    Except (Fault υ δ) (Transfer υ δ) :=
  match s.obj self with
  | none => .error .invalid_access
  | some c => coro_yieldto_context self c.caller 0 (.env_of self) k s

/-- `coro_return`. -/
def coro_return (P : Platform) (self : Nat) (k : Flow υ) (s : State υ δ) :
    Except (Fault υ δ) (Transfer υ δ) :=
  match s.obj self with
  | none => .error .invalid_access
  | some c =>
    let next := c.caller
    match coro_setup P self s with
    | .error e => .error e
    | .ok s1 => coro_yieldto_context self next 0 .automatic k s1

/-- `coro_run` up to and including its `coro_call`; the flow that is saved
is the one inside `coro_run`, which continues with `coro_run_resumed`. -/
def coro_run (P : Platform) (next : Nat) (u : υ) (s : State υ δ) :
    Except (Fault υ δ) (Transfer υ δ) :=
  match coro_new P 0 0 s with
  | .error e => .error e
  | .ok (caller, s1) => coro_call caller next (.in_coro_run caller u) s1

/-- The rest of `coro_run`, executed when its flow is resumed:
`coro_release(caller)`. -/
def coro_run_resumed (caller : Nat) (s : State υ δ) : Except (Fault υ δ) (State υ δ) :=
  coro_release caller s

/-! ## Context handling -/

/-- What a call of a client function does up to the point where it leaves
the flow: it transfers control away, it returns to its caller, or it calls
`abort()` itself. -/
inductive Outcome (υ δ : Type)
  | transfer (t : Transfer υ δ)
  | returned (s : State υ δ)
  | aborted (s : State υ δ)

/-- Ways in which the program stops. -/
inductive Halt (υ δ : Type)
  | fault (f : Fault υ δ)
  /-- `coro_entry`: diagnostic, `coro_return_error()`, `abort()` -/
  | return_error (s : State υ δ)
  /-- `abort()` called by client code -/
  | client_abort (s : State υ δ)

/-- `coro_entry`.  `call f self context s` is the behaviour of the call
`f(self, context)` of the client function at address `f`. -/
def coro_entry
    (call : Nat → Nat → Nat → State υ δ → Except (Fault υ δ) (Outcome υ δ))
    (self : Nat) (s : State υ δ) : Except (Halt υ δ) (Transfer υ δ) :=
  match s.obj self with
  | none => .error (.fault .invalid_access)
  | some c =>
    if c.start = 0 then .error (.fault .invalid_access)
    else match call c.start self c.context s with
      | .error f => .error (.fault f)
      | .ok (.transfer t) => .ok t
      | .ok (.returned s1) => .error (.return_error s1)
      | .ok (.aborted s1) => .error (.client_abort s1)

/-- Activation of a context built by `makecontext`: the entry function is
called with the stored arguments. -/
def enter_made
    (call : Nat → Nat → Nat → State υ δ → Except (Fault υ δ) (Outcome υ δ))
    (func : EntryFn) (args : List Nat) (s : State υ δ) :
    Except (Halt υ δ) (Transfer υ δ) :=
  match func, args with
  | .coro_entry, [self] => coro_entry call self s
  | .coro_entry_64, [hi, lo] => coro_entry call (coro_entry_64 hi lo) s
  | _, _ => .error (.fault .invalid_access)

/-! ## Debugging information -/

/-- A pointer converted to `ptrdiff_t`. -/
def to_ptrdiff (a : Nat) : Int :=
  if a % WORD < 2 ^ 63 then (a % WORD : Nat) else (a % WORD : Nat) - (WORD : Int)

/-- A 64-bit pattern (of a `size_t`) converted to `ptrdiff_t`. -/
def wrap_ptrdiff (x : Int) : Int :=
  if x % (WORD : Int) < 2 ^ 63 then x % (WORD : Int) else x % (WORD : Int) - (WORD : Int)

/-- `coro_stack_remaining`.  `dummy` is the address of the local `dummy`,
`sp` the pointer returned by `coro_current_sp()`, the address of an object
of the frame of that deeper call. -/
def coro_stack_remaining (dummy sp : Nat) (self : Nat) (s : State υ δ) :
    Except (Fault υ δ) Nat :=
  match s.obj self with
  | none => .error .invalid_access
  | some c =>
    let p1 : Int := to_ptrdiff dummy
    let p2 : Int := to_ptrdiff sp
    let start : Int := to_ptrdiff c.stack
    let stack_end : Int := wrap_ptrdiff (start + (c.stack_size % WORD : Nat))
    let stackMovesUp : Bool := decide (p2 > p1)
    if stackMovesUp then .ok ((stack_end - p1) % (WORD : Int)).toNat
    else .ok ((p1 - start) % (WORD : Int)).toNat

/-! ## Initial memory and targets -/

/-- Memory before the first allocation; the first block will start at
`base + 1`. -/
def State.init (base : Nat) (d : δ) : State υ δ :=
  { heap := fun _ => none, bufs := fun _ => none, brk := base,
    alloc_trace := [], dealloc_trace := [], client := d }

/-- A target with `__x86_64__` defined. -/
def linux_x86_64 : Platform :=
  { x86_64 := true, sizeof_coro := 984, sizeof_pos := by decide }

/-- A target without `__x86_64__`. -/
def other_target : Platform :=
  { x86_64 := false, sizeof_coro := 400, sizeof_pos := by decide }

/-! ## tests.c -/

/-- An `int` result: the value reduced to the 32-bit signed range. -/
def wrap_int (x : Int) : Int := (x + 2 ^ 31) % 2 ^ 32 - 2 ^ 31

/-- The constants `k_fibonnaci_max` and `k_two_coro_max`. -/
structure TestParams where
  k_fibonnaci_max : Int
  k_two_coro_max : Int

/-- The values of the constants in `tests.c`. -/
def tests_c : TestParams := { k_fibonnaci_max := 20, k_two_coro_max := 5 }

/-- Where the locals of `coro_stack_remaining` and of `coro_current_sp` lie
when `coro_stack_remaining` is called by the start function of a coroutine
whose stack is the block `stack` of `stack_size` bytes. -/
structure StackModel where
  dummy : Nat → Nat → Nat
  sp : Nat → Nat → Nat

/-- A stack that grows toward lower addresses. -/
def downward : StackModel :=
  { dummy := fun stack size => stack + size - 160
    sp := fun stack size => stack + size - 208 }

/-- A stack that grows toward higher addresses. -/
def upward : StackModel :=
  { dummy := fun stack _ => stack + 160
    sp := fun stack _ => stack + 208 }

/-- The global `coro_allocs`, which `coro.c` never writes
(`CORO_TRACK_ALLOCATIONS` is undefined). -/
def coro_allocs : Nat := 0

/-- The global `coro_deallocs`, which `coro.c` never writes. -/
def coro_deallocs : Nat := 0

/-- `task_context`. -/
structure task_context where
  main : Nat
  first : Nat
  second : Nat
  deriving DecidableEq, Repr

/-- What the program wrote to `stdout`, one entry per `printf`. -/
inductive Out
  /-- `"simple coro\n"` -/
  | simple_coro
  /-- `"fibonacci: %i\n"` -/
  | fibonacci (number : Int)
  /-- `"outer coro, two inners: "` -/
  | outer_begin
  /-- `"."` -/
  | dot
  /-- `"\nouter coro, complete\n"` -/
  | outer_complete
  /-- `"coro one: %d\n"` -/
  | coro_one (num : Int)
  /-- `"coro two: %d\n"` -/
  | coro_two (num : Int)
  /-- `"coros cleaned up (%i/%i)\n"` -/
  | cleaned_up (deallocs allocs : Nat)
  /-- `"tests successful\n"` -/
  | tests_successful
  deriving DecidableEq, Repr

/-- The data of `tests.c` outside the coroutine objects: the `int number`
and the `task_context` of `main`, and the output. -/
structure TestData where
  number : Int
  context : task_context
  out : List Out

/-- Address of `number` in the frame of `main`. -/
def addr_number : Nat := 0x7FFD1000

/-- Address of the `task_context` in the frame of `main`. -/
def addr_context : Nat := 0x7FFD1010

/-- Addresses of the start functions. -/
def fn_simple_coro : Nat := 0x401000
def fn_fibonacci_coro : Nat := 0x401100
def fn_nest_inner_coro : Nat := 0x401200
def fn_nest_outer_coro : Nat := 0x401300
def fn_first_coro : Nat := 0x401400
def fn_second_coro : Nat := 0x401500

/-- The points of `tests.c` at which a suspended flow continues, with the
values of the locals that are live there. -/
inductive Pt
  /-- the beginning of `main` -/
  | main_entry
  /-- after `coro_run(simple)` -/
  | main_ran_simple (self simple : Nat)
  /-- after `coro_call(self, simple)` -/
  | main_called_simple (self simple : Nat)
  /-- after `coro_run(fib)` -/
  | main_ran_fib (self fib : Nat)
  /-- after `coro_run(nest)` -/
  | main_ran_nest (self nest : Nat)
  /-- after `coro_call(context->main, context->first)` -/
  | main_called_first (self : Nat)
  /-- `simple_coro`, after `coro_return(self)` -/
  | simple_returned
  /-- `fibonacci_coro`, after the first `coro_yield(self)` -/
  | fib_yielded_first (self result : Nat) (previous current : Int)
  /-- `fibonacci_coro`, after the `coro_yield(self)` of the loop -/
  | fib_yielded (self result : Nat) (previous current : Int)
  /-- `nest_inner_coro`, after `coro_return(self)` -/
  | inner_returned
  /-- `nest_outer_coro`, after `coro_call(self, inner)` -/
  | outer_called_inner (self inner : Nat)
  /-- `nest_outer_coro`, after `coro_run(inner)` -/
  | outer_ran_inner (self inner : Nat)
  /-- `nest_outer_coro`, after `coro_yield(self)` -/
  | outer_yielded (self : Nat)
  /-- `first_coro`, after `coro_yieldto(self, context->second)` -/
  | first_yielded_second (self context : Nat) (num stack : Int)
  /-- `first_coro`, after `coro_yieldto(self, context->main)` -/
  | first_yielded_main (self context : Nat) (num stack : Int)
  /-- `second_coro`, after `coro_yieldto(self, context->first)` -/
  | second_yielded_first (self context : Nat) (num stack : Int)
  /-- `second_coro`, after `coro_yieldto(self, context->main)` -/
  | second_yielded_main (self context : Nat) (num stack : Int)
  deriving DecidableEq, Repr

/-- Memory of the test program. -/
abbrev Mem := State Pt TestData

/-- Result of a piece of client code. -/
abbrev Run := Except (Fault Pt TestData) (Outcome Pt TestData)

/-- `printf`. -/
def printf (o : Out) (s : Mem) : Mem :=
  { s with client := { s.client with out := s.client.out ++ [o] } }

/-- A transfer ends the piece of client code. -/
def leave (r : Except (Fault Pt TestData) (Transfer Pt TestData)) : Run :=
  match r with
  | .error e => .error e
  | .ok t => .ok (.transfer t)

/-- Read of `*context` for a `task_context *context`. -/
def read_context (context : Nat) (s : Mem) : Except (Fault Pt TestData) task_context :=
  if context = addr_context then .ok s.client.context else .error .invalid_access

/-- `simple_coro`. -/
def simple_coro (P : Platform) (self : Nat) (s : Mem) : Run :=
  leave (coro_return P self (.user .simple_returned) (printf .simple_coro s))

/-- The loop body of `fibonacci_coro`. -/
def fibonacci_loop (self result : Nat) (previous current : Int) (s : Mem) : Run :=
  if result = addr_number then
    let s1 : Mem := { s with client := { s.client with number := wrap_int (current + previous) } }
    let previous1 := current
    let current1 := s1.client.number
    leave (coro_yield self (.user (.fib_yielded self result previous1 current1)) s1)
  else .error .invalid_access

/-- `fibonacci_coro`. -/
def fibonacci_coro (self result : Nat) (s : Mem) : Run :=
  if result = addr_number then
    let s1 : Mem := { s with client := { s.client with number := 1 } }
    leave (coro_yield self (.user (.fib_yielded_first self result 0 1)) s1)
  else .error .invalid_access

/-- `nest_inner_coro`. -/
def nest_inner_coro (P : Platform) (self : Nat) (s : Mem) : Run :=
  leave (coro_return P self (.user .inner_returned) (printf .dot s))

/-- The loop body of `nest_outer_coro` up to `coro_call(self, inner)`. -/
def nest_outer_loop (P : Platform) (self : Nat) (s : Mem) : Run :=
  match coro_new P fn_nest_inner_coro 0 (printf .outer_begin s) with
  | .error e => .error e
  | .ok (inner, s1) => leave (coro_call self inner (.user (.outer_called_inner self inner)) s1)

/-- `STACK_CHECK(coro)` followed by the rest of the loop body of
`first_coro` (`one = true`) or `second_coro`; `probed` is `context->coro`. -/
def alternate_loop (S : StackModel) (one : Bool) (self context : Nat) (num stack : Int)
    (s : Mem) : Run :=
  match read_context context s with
  | .error e => .error e
  | .ok tc =>
    match s.obj self with
    | none => .error .invalid_access
    | some c =>
      match coro_stack_remaining (S.dummy c.stack c.stack_size) (S.sp c.stack c.stack_size)
          (if one then tc.first else tc.second) s with
      | .error e => .error e
      | .ok remaining =>
        if (stack % (WORD : Int)).toNat ≠ remaining then .ok (.aborted s)
        else
          let s1 := printf (if one then .coro_one num else .coro_two num) s
          let num1 := wrap_int (num + 1)
          if one then
            leave (coro_yieldto self tc.second
              (.user (.first_yielded_second self context num1 stack)) s1)
          else
            leave (coro_yieldto self tc.first
              (.user (.second_yielded_first self context num1 stack)) s1)

/-- `first_coro` (`one = true`) and `second_coro`. -/
def alternate_coro (S : StackModel) (one : Bool) (self context : Nat) (s : Mem) : Run :=
  match read_context context s with
  | .error e => .error e
  | .ok tc =>
    match s.obj self with
    | none => .error .invalid_access
    | some c =>
      match coro_stack_remaining (S.dummy c.stack c.stack_size) (S.sp c.stack c.stack_size)
          (if one then tc.first else tc.second) s with
      | .error e => .error e
      | .ok remaining => alternate_loop S one self context 1 (wrap_int remaining) s

/-- `first_coro` and `second_coro` after `coro_yieldto(self, context->second)`
(resp. `context->first`) has returned. -/
def alternate_resumed (T : TestParams) (S : StackModel) (one : Bool) (self context : Nat)
    (num stack : Int) (s : Mem) : Run :=
  if num > T.k_two_coro_max then
    match read_context context s with
    | .error e => .error e
    | .ok tc =>
      if one then
        leave (coro_yieldto self tc.main (.user (.first_yielded_main self context num stack)) s)
      else
        leave (coro_yieldto self tc.main (.user (.second_yielded_main self context num stack)) s)
  else alternate_loop S one self context num stack s

/-- `main` from the head of the `while` loop of the fibonacci test. -/
def main_fib_loop (P : Platform) (T : TestParams) (self fib : Nat) (s : Mem) : Run :=
  if s.client.number < T.k_fibonnaci_max then
    leave (coro_run P fib (.main_ran_fib self fib) s)
  else
    match coro_release fib s with
    | .error e => .error e
    | .ok s1 =>
      match coro_new P fn_nest_outer_coro 0 s1 with
      | .error e => .error e
      | .ok (nest, s2) => leave (coro_run P nest (.main_ran_nest self nest) s2)

/-- `main` from its beginning. -/
def main_begin (P : Platform) (s : Mem) : Run :=
  match coro_new P 0 0 s with
  | .error e => .error e
  | .ok (self, s1) =>
    match coro_new P fn_simple_coro 0 s1 with
    | .error e => .error e
    | .ok (simple, s2) => leave (coro_run P simple (.main_ran_simple self simple) s2)

/-- `main` after `coro_call(self, simple)`. -/
def main_after_simple (P : Platform) (T : TestParams) (self simple : Nat) (s : Mem) : Run :=
  match coro_release simple s with
  | .error e => .error e
  | .ok s1 =>
    let s2 : Mem := { s1 with client := { s1.client with number := 0 } }
    match coro_new P fn_fibonacci_coro addr_number s2 with
    | .error e => .error e
    | .ok (fib, s3) => main_fib_loop P T self fib s3

/-- `main` after `coro_run(nest)`. -/
def main_after_nest (P : Platform) (self nest : Nat) (s : Mem) : Run :=
  match coro_release nest s with
  | .error e => .error e
  | .ok s1 =>
    let s2 : Mem := { s1 with client := { s1.client with context := ⟨0, 0, 0⟩ } }
    match coro_retain self s2 with
    | .error e => .error e
    | .ok s3 =>
      let s4 : Mem := { s3 with client := { s3.client with
        context := { s3.client.context with main := self } } }
      match coro_new P fn_first_coro addr_context s4 with
      | .error e => .error e
      | .ok (first, s5) =>
        let s6 : Mem := { s5 with client := { s5.client with
          context := { s5.client.context with first := first } } }
        match coro_new P fn_second_coro addr_context s6 with
        | .error e => .error e
        | .ok (second, s7) =>
          let s8 : Mem := { s7 with client := { s7.client with
            context := { s7.client.context with second := second } } }
          leave (coro_call s8.client.context.main s8.client.context.first
            (.user (.main_called_first self)) s8)

/-- `main` after `coro_call(context->main, context->first)`. -/
def main_after_alternate (self : Nat) (s : Mem) : Run :=
  match coro_release s.client.context.main s with
  | .error e => .error e
  | .ok s1 =>
    match coro_release s1.client.context.first s1 with
    | .error e => .error e
    | .ok s2 =>
      match coro_release s2.client.context.second s2 with
      | .error e => .error e
      | .ok s3 =>
        match coro_release self s3 with
        | .error e => .error e
        | .ok s4 =>
          if coro_allocs ≠ 0 then
            .ok (.returned (printf .tests_successful
              (printf (.cleaned_up coro_deallocs coro_allocs) s4)))
          else .ok (.returned (printf .tests_successful s4))

/-- The client code that runs when the flow suspended at a program point is
resumed. -/
def resume_at (P : Platform) (T : TestParams) (S : StackModel) (u : Pt) (s : Mem) : Run :=
  match u with
  | .main_entry => main_begin P s
  | .main_ran_simple self simple =>
    leave (coro_call self simple (.user (.main_called_simple self simple)) s)
  | .main_called_simple self simple => main_after_simple P T self simple s
  | .main_ran_fib self fib =>
    main_fib_loop P T self fib (printf (.fibonacci s.client.number) s)
  | .main_ran_nest self nest => main_after_nest P self nest s
  | .main_called_first self => main_after_alternate self s
  | .simple_returned => .ok (.returned s)
  | .fib_yielded_first self result previous current =>
    fibonacci_loop self result previous current s
  | .fib_yielded self result previous current =>
    fibonacci_loop self result previous current s
  | .inner_returned => .ok (.returned s)
  | .outer_called_inner self inner =>
    leave (coro_run P inner (.outer_ran_inner self inner) s)
  | .outer_ran_inner self inner =>
    match coro_release inner s with
    | .error e => .error e
    | .ok s1 => leave (coro_yield self (.user (.outer_yielded self)) (printf .outer_complete s1))
  | .outer_yielded self => nest_outer_loop P self s
  | .first_yielded_second self context num stack =>
    alternate_resumed T S true self context num stack s
  | .first_yielded_main self context num stack =>
    alternate_loop S true self context num stack s
  | .second_yielded_first self context num stack =>
    alternate_resumed T S false self context num stack s
  | .second_yielded_main self context num stack =>
    alternate_loop S false self context num stack s

/-- Whether the program point lies in `main` (otherwise it lies in a start
function, called by `coro_entry`). -/
def Pt.in_main : Pt → Bool
  | .main_entry => true
  | .main_ran_simple _ _ => true
  | .main_called_simple _ _ => true
  | .main_ran_fib _ _ => true
  | .main_ran_nest _ _ => true
  | .main_called_first _ => true
  | _ => false

/-- The call `f(self, context)` of the function at address `f`. -/
def call_start (P : Platform) (S : StackModel) (f self context : Nat) (s : Mem) : Run :=
  if f = fn_simple_coro then simple_coro P self s
  else if f = fn_fibonacci_coro then fibonacci_coro self context s
  else if f = fn_nest_inner_coro then nest_inner_coro P self s
  else if f = fn_nest_outer_coro then nest_outer_loop P self s
  else if f = fn_first_coro then alternate_coro S true self context s
  else if f = fn_second_coro then alternate_coro S false self context s
  else .error .invalid_access

/-- The program between two transfers: a context has just been activated,
or the program has stopped. -/
inductive Config
  | active (resume : ucontext Pt) (s : Mem)
  /-- `main` returned -/
  | exited (s : Mem)
  | halted (h : Halt Pt TestData)

/-- Client code continues at `u` until it leaves the flow. -/
def continue_at (P : Platform) (T : TestParams) (S : StackModel) (u : Pt) (s : Mem) :
    Config :=
  match resume_at P T S u s with
  | .error f => .halted (.fault f)
  | .ok (.transfer t) => .active t.resume t.state
  | .ok (.aborted s1) => .halted (.client_abort s1)
  | .ok (.returned s1) =>
    if u.in_main then .exited s1 else .halted (.return_error s1)

/-- One activation: the activated context runs until the next transfer. -/
def step (P : Platform) (T : TestParams) (S : StackModel) : Config → Config
  | .active .zeroed _ => .halted (.fault .invalid_access)
  | .active (.made _ _ _ _ func args) s =>
    match enter_made (call_start P S) func args s with
    | .error h => .halted h
    | .ok t => .active t.resume t.state
  | .active (.saved (.user u)) s => continue_at P T S u s
  | .active (.saved (.in_coro_run caller u)) s =>
    match coro_run_resumed caller s with
    | .error f => .halted (.fault f)
    | .ok s1 => continue_at P T S u s1
  | c => c

/-- `n` activations. -/
def run (P : Platform) (T : TestParams) (S : StackModel) : Nat → Config → Config
  | 0, c => c
  | n + 1, c => run P T S n (step P T S c)

/-- The program before `main` is entered. -/
def boot (base : Nat) : Config :=
  .active (.saved (.user .main_entry))
    (State.init base { number := 0, context := ⟨0, 0, 0⟩, out := [] })

/-- The memory of a configuration. -/
def Config.mem : Config → Option Mem
  | .active _ s => some s
  | .exited s => some s
  | .halted _ => none

/-- The output of a configuration in which the program has not stopped
abnormally. -/
def Config.out (c : Config) : Option (List Out) := c.mem.map (fun s => s.client.out)

/-- Whether `main` has returned. -/
def Config.has_exited : Config → Bool
  | .exited _ => true
  | _ => false

/-- The context that has just been activated. -/
def Config.resume : Config → Option (ucontext Pt)
  | .active r _ => some r
  | _ => none

/-! ## Vocabulary of the statements -/

/-- Whether a mapped coroutine with a non-zero count lives at `a`. -/
def State.counted (s : State υ δ) (a : Nat) : Bool :=
  match s.obj a with
  | some c => decide (c.refcount % WORD ≠ 0)
  | none => false

/-- The number of mapped coroutines with a non-zero count. -/
def State.num_counted (s : State υ δ) : Nat :=
  ((Finset.range (s.brk + 1)).filter (fun a => s.counted a = true)).card

/-- The count of the coroutine at `a`, when one is mapped there. -/
def State.refcount_at (s : State υ δ) (a : Nat) : Option Nat :=
  (s.obj a).map (fun c => c.refcount)

/-- The caller link of the coroutine at `a`, when one is mapped there. -/
def State.caller_at (s : State υ δ) (a : Nat) : Option Nat :=
  (s.obj a).map (fun c => c.caller)

/-- The saved context of the coroutine at `a`, when one is mapped there. -/
def State.env_at (s : State υ δ) (a : Nat) : Option (ucontext υ) :=
  (s.obj a).map (fun c => c.env)

/-- A bare coroutine that has already been suspended once. -/
def bare (refcount caller : Nat) : coro Unit :=
  { refcount := refcount, caller := caller, context := 0, stack := 0, stack_size := 0,
    env := .saved (.user ()), start := 0 }

/-- Three bare coroutines: `Z` at 16 (one outside reference and the caller
link of `Y`), `Y` at 32 (held only by the caller link of `X`, its caller is
`Z`), `X` at 48 (one outside reference, its caller is `Y`). -/
def chain_state : State Unit Unit :=
  { heap := fun a =>
      if a = 16 then some (bare 2 0)
      else if a = 32 then some (bare 1 16)
      else if a = 48 then some (bare 1 32)
      else none
    bufs := fun _ => none
    brk := 63
    alloc_trace := [16, 32, 48]
    dealloc_trace := []
    client := () }

/-- Memory of a transfer that succeeded. -/
def state_after {α : Type} (r : Except α (Transfer υ δ)) : Option (State υ δ) :=
  match r with
  | .ok t => some t.state
  | .error _ => none

/-- The call stopped in `abort()` after the diagnostic of
`coro_yieldto_context`. -/
def aborts {α : Type} (r : Except (Fault υ δ) α) : Prop :=
  ∃ s, r = .error (.yield_error s)

/-- Whether the call stopped in undefined behaviour. -/
def faults {α : Type} (r : Except (Fault υ δ) α) : Bool :=
  match r with
  | .error .invalid_access => true
  | _ => false

/-- On a target with `__x86_64__`, `self` is a 64-bit address whose bit 31 is
clear. -/
def Platform.decodes (P : Platform) (self : Nat) : Prop :=
  P.x86_64 = true → self < WORD ∧ self % HALF < 2 ^ 31

/-- Activation of a context that `makecontext` built; `none` for the other
contexts (zeroed memory, and a suspended flow, which continues in client
code). -/
def enter_context
    (call : Nat → Nat → Nat → State υ δ → Except (Fault υ δ) (Outcome υ δ))
    (ctx : ucontext υ) (s : State υ δ) : Option (Except (Halt υ δ) (Transfer υ δ)) :=
  match ctx with
  | .made _ _ _ _ func args => some (enter_made call func args s)
  | _ => none

/-- A coroutine object with its count masked. -/
def coro.uncounted (c : coro υ) : coro υ := { c with refcount := 0 }

/-- From `s` to `s2` no coroutine was created, and the coroutines of `s2`
are coroutines of `s` whose fields other than the count are as in `s`. -/
def State.only_counts (s s2 : State υ δ) : Prop :=
  s2.brk = s.brk ∧ s2.alloc_trace = s.alloc_trace ∧ s2.client = s.client
    ∧ ∀ a c2, s2.obj a = some c2 → ∃ c, s.obj a = some c ∧ c2.uncounted = c.uncounted

/-- The lines written by `n` rounds of the alternating test. -/
def alternating : Nat → List Out
  | 0 => []
  | n + 1 => alternating n ++ [.coro_one ((n + 1 : Nat) : Int), .coro_two ((n + 1 : Nat) : Int)]

/-- The memory of the alternating test between two activations: the
`task_context` names `A`, `B`, `C`; the three objects are `cA`, `cB`, `cC`
up to their saved contexts; the suspended flow of `A` continues at `u0`, the
saved contexts of `B` and `C` are `envB` and `envC`. -/
structure Alternating (u0 : Pt) (A B C : Nat) (cA cB cC : coro Pt)
    (envB envC : ucontext Pt) (out : List Out) (s : Mem) : Prop where
  context_eq : s.client.context = ⟨A, B, C⟩
  out_eq : s.client.out = out
  objA : s.obj A = some { cA with env := .saved (.user u0) }
  objB : s.obj B = some { cB with env := envB }
  objC : s.obj C = some { cC with env := envC }

/-- The memory in which `main` starts the alternating test: `A`, `B`, `C` are
three distinct mapped coroutines named by the `task_context`; `B` and `C`
have no caller and have not run (their saved context is the entry context),
their start functions are `first_coro` and `second_coro` with the
`task_context` as opaque context; on x86_64 their pointers are marshalled
faithfully into the trampoline; and the value `coro_stack_remaining` returns
in their start function is representable in the `int stack`. -/
structure AlternatingStart (P : Platform) (S : StackModel) (A B C : Nat)
    (cA cB cC : coro Pt) (s : Mem) : Prop where
  objA : s.obj A = some cA
  objB : s.obj B = some cB
  objC : s.obj C = some cC
  neAB : A ≠ B
  neAC : A ≠ C
  neBC : B ≠ C
  context_eq : s.client.context = ⟨A, B, C⟩
  callerB : cB.caller = 0
  callerC : cC.caller = 0
  envB : cB.env = entry_context P B cB.stack cB.stack_size
  envC : cC.env = entry_context P C cC.stack cC.stack_size
  startB : cB.start = fn_first_coro
  startC : cC.start = fn_second_coro
  contextB : cB.context = addr_context
  contextC : cC.context = addr_context
  marshalB : P.x86_64 = true → coro_entry_64 (selfHi B) (selfLo B) = B
  marshalC : P.x86_64 = true → coro_entry_64 (selfHi C) (selfLo C) = C
  fitB : ∀ v, coro_stack_remaining (S.dummy cB.stack cB.stack_size)
    (S.sp cB.stack cB.stack_size) B s = .ok v → (wrap_int v % (WORD : Int)).toNat = v
  fitC : ∀ v, coro_stack_remaining (S.dummy cC.stack cC.stack_size)
    (S.sp cC.stack cC.stack_size) C s = .ok v → (wrap_int v % (WORD : Int)).toNat = v

/-- A root `A` and two coroutines `B`, `C` as `main` creates them for the
alternating test. -/
def alternate_state (P : Platform) : Mem :=
  let d : TestData := { number := 21, context := ⟨0, 0, 0⟩, out := [] }
  match coro_new P 0 0 (State.init 0x602000 d) with
  | .error _ => State.init 0 d
  | .ok (a, s1) =>
    match coro_new P fn_first_coro addr_context s1 with
    | .error _ => State.init 0 d
    | .ok (b, s2) =>
      match coro_new P fn_second_coro addr_context s2 with
      | .error _ => State.init 0 d
      | .ok (c, s3) => { s3 with client := { s3.client with context := ⟨a, b, c⟩ } }

/-- The root of `alternate_state linux_x86_64`, at `0x602001`. -/
def example_A : coro Pt := { (coro.zero : coro Pt) with refcount := 1 }

/-- The coroutine for `first_coro` of `alternate_state linux_x86_64`, at
`0x6023D9`. -/
def example_B : coro Pt :=
  { refcount := 1, caller := 0, context := addr_context, stack := 6301617,
    stack_size := CORO_DEFAULT_STACK_SIZE,
    env := entry_context linux_x86_64 6300633 6301617 CORO_DEFAULT_STACK_SIZE,
    start := fn_first_coro }

/-- The coroutine for `second_coro` of `alternate_state linux_x86_64`, at
`0x6227B1`. -/
def example_C : coro Pt :=
  { refcount := 1, caller := 0, context := addr_context, stack := 6433673,
    stack_size := CORO_DEFAULT_STACK_SIZE,
    env := entry_context linux_x86_64 6432689 6433673 CORO_DEFAULT_STACK_SIZE,
    start := fn_second_coro }

/-- A bare coroutine without caller, as `coro_run` creates its anchor, with
the given count and saved context. -/
def coro.anchor (refcount : Nat) (env : ucontext υ) : coro υ :=
  { (coro.zero : coro υ) with refcount := refcount, env := env }

/-- The memory of the fibonacci test between two activations: the caller of
`fib` is the anchor of the `coro_run` in which `main` is, which is bare, has
no caller and is referenced by `coro_run` and by the caller link; the saved
context of `fib` is `envF`; the result cell holds `number`. -/
structure GeneratorWaiting (u : Pt) (fib anchor : Nat) (cF : coro Pt) (envF : ucontext Pt)
    (number : Int) (out : List Out) (s : Mem) : Prop where
  objF : s.obj fib = some { cF with caller := anchor, env := envF }
  objA : s.obj anchor = some (coro.anchor 2 (.saved (.in_coro_run anchor u)))
  ne : anchor ≠ fib
  number_eq : s.client.number = number
  out_eq : s.client.out = out

/-- The memory in which `main` enters the loop of the fibonacci test: `fib`
is mapped, has no caller and has not run, its start function is
`fibonacci_coro` with the address of `number` as opaque context, on x86_64
bit 31 of its address is clear, and `number` is `0`. -/
structure GeneratorStart (P : Platform) (fib : Nat) (cF : coro Pt) (s : Mem) : Prop where
  objF : s.obj fib = some cF
  callerF : cF.caller = 0
  envF : cF.env = entry_context P fib cF.stack cF.stack_size
  startF : cF.start = fn_fibonacci_coro
  contextF : cF.context = addr_number
  marshalF : P.decodes fib
  number_eq : s.client.number = 0

/-- The program points of `fibonacci_coro` at which it is suspended with
the locals `previous` and `current`. -/
def FibPoint (fib : Nat) (previous current : Int) (pt : Pt) : Prop :=
  pt = .fib_yielded_first fib addr_number previous current
    ∨ pt = .fib_yielded fib addr_number previous current

/-- The lines written by the loop of the fibonacci test after `n` passes. -/
def fibonacci_lines (n : Nat) : List Out :=
  (List.range n).map (fun i => Out.fibonacci (Nat.fib (i + 1) : Nat))

/-- A generator as `main` creates it for the fibonacci test, at `0x602001`,
with `number = 0`. -/
def generator_state (P : Platform) : Mem :=
  let d : TestData := { number := 0, context := ⟨0, 0, 0⟩, out := [] }
  match coro_new P fn_fibonacci_coro addr_number (State.init 0x602000 d) with
  | .error _ => State.init 0 d
  | .ok (_, s1) => s1

/-- The generator of `generator_state linux_x86_64`. -/
def example_fib : coro Pt :=
  { refcount := 1, caller := 0, context := addr_number, stack := 6300633,
    stack_size := CORO_DEFAULT_STACK_SIZE,
    env := entry_context linux_x86_64 6299649 6300633 CORO_DEFAULT_STACK_SIZE,
    start := fn_fibonacci_coro }

/-- The output of `tests.c`. -/
def expected_output : List Out :=
  [.simple_coro, .simple_coro,
   .fibonacci 1, .fibonacci 1, .fibonacci 2, .fibonacci 3, .fibonacci 5, .fibonacci 8,
   .fibonacci 13, .fibonacci 21,
   .outer_begin, .dot, .dot, .outer_complete,
   .coro_one 1, .coro_two 1, .coro_one 2, .coro_two 2, .coro_one 3, .coro_two 3,
   .coro_one 4, .coro_two 4, .coro_one 5, .coro_two 5,
   .tests_successful]

/-! ### Ownership -/

/-- The operations of a client that touch counts and caller links, in
program order.  `run next u` is `coro_run(next)` up to and including its
`coro_call`; the `coro_release(caller)` with which `coro_run` ends is the
`release` of the anchor later in the sequence. -/
inductive Op (υ : Type)
  | new (start context : Nat)
  | retain (h : Nat)
  | release (h : Nat)
  | call (self next : Nat) (k : Flow υ)
  | run (next : Nat) (u : υ)

/-- The references the client holds: for each address, the creations and
retains minus the releases performed by the client so far. -/
abbrev Held := Nat → Int

/-- One operation, on memory and on the references held. -/
def exec_op (P : Platform) (op : Op υ) (m : State υ δ × Held) :
    Except (Fault υ δ) (State υ δ × Held) :=
  match op with
  | .new start context =>
    match coro_new P start context m.1 with
    | .error e => .error e
    | .ok (a, s1) => .ok (s1, Function.update m.2 a (m.2 a + 1))
  | .retain h =>
    match coro_retain h m.1 with
    | .error e => .error e
    | .ok s1 => .ok (s1, if h = 0 then m.2 else Function.update m.2 h (m.2 h + 1))
  | .release h =>
    match coro_release h m.1 with
    | .error e => .error e
    | .ok s1 => .ok (s1, if h = 0 then m.2 else Function.update m.2 h (m.2 h - 1))
  | .call self next k =>
    match coro_call self next k m.1 with
    | .error e => .error e
    | .ok t => .ok (t.state, m.2)
  | .run next u =>
    match coro_new P 0 0 m.1 with
    | .error e => .error e
    | .ok (caller, s1) =>
      match coro_call caller next (.in_coro_run caller u) s1 with
      | .error e => .error e
      | .ok t => .ok (t.state, Function.update m.2 caller (m.2 caller + 1))

/-- A sequence of operations. -/
def exec_ops (P : Platform) : List (Op υ) → State υ δ × Held →
    Except (Fault υ δ) (State υ δ × Held)
  | [], m => .ok m
  | op :: ops, m =>
    match exec_op P op m with
    | .error e => .error e
    | .ok m1 => exec_ops P ops m1

/-- Whether the chain of caller links that starts at `a` leaves the mapped
coroutines within `fuel` links. -/
def chain_ends (s : State υ δ) : Nat → Nat → Bool
  | 0, _ => false
  | fuel + 1, a =>
    match s.obj a with
    | none => true
    | some c => chain_ends s fuel c.caller

/-- The caller graph has no cycle: from every coroutine that was created,
the chain of caller links leaves the mapped coroutines; it then does so
within as many links as coroutines were created. -/
def State.acyclic (s : State υ δ) : Prop :=
  ∀ a ∈ s.alloc_trace, chain_ends s (s.alloc_trace.length + 1) a = true

/-- `1` when `g` is a mapped coroutine outside `Z` whose caller link is `a`. -/
def link (s : State υ δ) (Z : Finset Nat) (g a : Nat) : Int :=
  match s.obj g with
  | some c => if g ∉ Z ∧ c.caller = a then 1 else 0
  | none => 0

/-- The number of mapped coroutines outside `Z` whose caller link is `a`. -/
def links (s : State υ δ) (Z : Finset Nat) (a : Nat) : Int :=
  ∑ g in Finset.range (s.brk + 1), link s Z g a

/-- Every mapped coroutine outside `Z` is referenced, and its count is the
number of its references modulo `2 ^ 64`: the references `w` held from
outside plus the caller links from coroutines outside `Z`. -/
structure Counted (s : State υ δ) (w : Held) (Z : Finset Nat) : Prop where
  count : ∀ a c, s.obj a = some c → a ∉ Z →
    1 ≤ w a + links s Z a ∧ (c.refcount : Int) = (w a + links s Z a) % (WORD : Int)

/-- The coroutines in `Z` (those `coro_dealloc` is destroying) have count
zero. -/
def Zombies (s : State υ δ) (Z : Finset Nat) : Prop :=
  ∀ a c, s.obj a = some c → a ∈ Z → c.refcount = 0

/-- Bookkeeping of the allocator and of the two traces. -/
structure Tidy (s : State υ δ) : Prop where
  heap_above : ∀ a, s.brk < a → s.heap a = none
  alloc_nodup : s.alloc_trace.Nodup
  dealloc_nodup : s.dealloc_trace.Nodup
  dealloc_dead : ∀ a ∈ s.dealloc_trace, a ∈ s.alloc_trace ∧ s.obj a = none
  live_alloc : ∀ a c, s.obj a = some c → a ∈ s.alloc_trace
  dead_dealloc : ∀ a ∈ s.alloc_trace, s.obj a = none → a ∈ s.dealloc_trace
  alloc_le : ∀ a ∈ s.alloc_trace, a ≤ s.brk
  caller_le : ∀ a c, s.obj a = some c → c.caller ≤ s.brk

/-- The invariant of a run of ownership operations. -/
structure Owned (s : State υ δ) (w : Held) : Prop where
  tidy : Tidy s
  counted : Counted s w ∅
  held_zero : ∀ a, a ∉ s.alloc_trace → w a = 0

/-- The simple test of `main`: `coro_new`, `coro_run(simple)` with the
anchor `a` that `coro_run` creates and releases, `coro_call(self, simple)`,
`coro_release(simple)`. -/
def simple_ops (self simple a : Nat) : List (Op Pt) :=
  [Op.new fn_simple_coro 0,
   Op.run simple (Pt.main_ran_simple self simple), Op.release a,
   Op.call self simple (Flow.user (Pt.main_called_simple self simple)),
   Op.release simple]

/-- The fibonacci test of `main`: `coro_new`, one `coro_run(fib)` for each
anchor, `coro_release(fib)`. -/
def fib_ops (self fib : Nat) (anchors : List Nat) : List (Op Pt) :=
  [Op.new fn_fibonacci_coro addr_number]
    ++ anchors.flatMap (fun a => [Op.run fib (Pt.main_ran_fib self fib), Op.release a])
    ++ [Op.release fib]

/-- The depth test of `main`: `coro_new`, `coro_run(nest)` with the anchor
`a`; in `nest_outer_coro` the `coro_new` of `inner`, `coro_call(self, inner)`,
`coro_run(inner)` with the anchor `b`, `coro_release(inner)`; then the end of
the `coro_run` of `main` and `coro_release(nest)`. -/
def nest_ops (self nest a inner b : Nat) : List (Op Pt) :=
  [Op.new fn_nest_outer_coro 0,
   Op.run nest (Pt.main_ran_nest self nest),
   Op.new fn_nest_inner_coro 0,
   Op.call nest inner (Flow.user (Pt.outer_called_inner nest inner)),
   Op.run inner (Pt.outer_ran_inner nest inner), Op.release b,
   Op.release inner,
   Op.release a,
   Op.release nest]

/-- The alternating test of `main`, followed by the `coro_release(self)` with
which `main` ends. -/
def alternate_ops (self first second : Nat) : List (Op Pt) :=
  [Op.retain self,
   Op.new fn_first_coro addr_context,
   Op.new fn_second_coro addr_context,
   Op.call self first (Flow.user (Pt.main_called_first self)),
   Op.release self,
   Op.release first,
   Op.release second,
   Op.release self]

/-- The operations of `main` and of the coroutines it runs that touch counts
and caller links, in the order in which the program performs them, with the
addresses the allocator hands out from `0x602000` on `linux_x86_64`. -/
def main_ops : List (Op Pt) :=
  [Op.new 0 0]
    ++ simple_ops 6299649 6300633 6432689
    ++ fib_ops 6299649 6433673
        [6565729, 6566713, 6567697, 6568681, 6569665, 6570649, 6571633, 6572617]
    ++ nest_ops 6299649 6573601 6705657 6706641 6838697
    ++ alternate_ops 6299649 6839681 6971737

/-- The memory in which `main` starts. -/
def main_start : Mem := State.init 0x602000 { number := 0, context := ⟨0, 0, 0⟩, out := [] }

/-- Memory and references held after `main_ops`. -/
def main_final : Mem × Held :=
  match exec_ops linux_x86_64 main_ops (main_start, fun _ => 0) with
  | .ok m => m
  | .error _ => (main_start, fun _ => 0)

/-- A generator as `main` creates it for the fibonacci test, at `base + 1`,
with `number = 0`. -/
def generator_at (P : Platform) (base : Nat) : Mem :=
  let d : TestData := { number := 0, context := ⟨0, 0, 0⟩, out := [] }
  match coro_new P fn_fibonacci_coro addr_number (State.init base d) with
  | .error _ => State.init base d
  | .ok (_, s1) => s1

/-- In `generator_at P base`: the first `coro_run(fib)` of the loop of `main`
(whose own coroutine only names the program point at which `main` continues,
and is written `0`), then the activation of the context it transfers to. -/
def generator_entered (P : Platform) (S : StackModel) (base : Nat) :
    Option (Except (Halt Pt TestData) (Transfer Pt TestData)) :=
  match main_fib_loop P tests_c 0 (base + 1) (generator_at P base) with
  | .ok (.transfer t) => enter_context (call_start P S) t.resume t.state
  | _ => none

/-- The addresses at which the test program creates coroutines, in order. -/
def main_allocs : List Nat :=
  [6299649, 6300633, 6432689, 6433673, 6565729, 6566713, 6567697, 6568681, 6569665, 6570649,
   6571633, 6572617, 6573601, 6705657, 6706641, 6838697, 6839681, 6971737]

/-- The addresses of the coroutines the test program destroys, in order. -/
def main_deallocs : List Nat :=
  [6432689, 6300633, 6565729, 6566713, 6567697, 6568681, 6569665, 6570649, 6571633, 6572617,
   6433673, 6838697, 6706641, 6705657, 6573601, 6839681, 6971737, 6299649]

/-- The constants of `tests.c` with `k_two_coro_max` set to `INT_MAX`. -/
def tests_int_max : TestParams := { k_fibonnaci_max := 20, k_two_coro_max := 2147483647 }

/-! # Properties -/

/-! ## Pointer marshalling -/

theorem sext32_of_lt {x : Nat} (h : x < 2 ^ 31) : sext32 x = x := by
  have h1 : x % HALF = x := Nat.mod_eq_of_lt (by unfold HALF; omega)
  unfold sext32
  rw [h1, if_pos h]

theorem sext32_shift (x : Nat) (hx : x < HALF) :
    (sext32 x <<< 32) % WORD = 2 ^ 32 * x := by
  unfold sext32
  have h1 : x % HALF = x := Nat.mod_eq_of_lt hx
  rw [h1, Nat.shiftLeft_eq]
  unfold WORD HALF at *
  split <;> omega

/-- The halves are reassembled to the pointer when bit 31 of the pointer is
clear. -/
theorem coro_entry_64_of_bit31_clear (p : Nat) (hp : p < WORD)
    (h31 : p % HALF < 2 ^ 31) :
    coro_entry_64 (selfHi p) (selfLo p) = p := by
  have hhi : selfHi p < HALF := by unfold selfHi; exact Nat.mod_lt _ (by unfold HALF; omega)
  have hlo : selfLo p = p % HALF := by unfold selfLo; rw [Nat.mod_eq_of_lt hp]
  unfold coro_entry_64
  rw [sext32_shift _ hhi, hlo, sext32_of_lt h31]
  have hlt : p % HALF < 2 ^ 32 := by unfold HALF; omega
  rw [← Nat.mul_add_lt_is_or hlt (selfHi p)]
  unfold selfHi WORD HALF at *
  omega

/-- C9 (failing input): for the pointer `0x55D5C8A312A0`, whose bit 31 is
set, `coro_entry_64` applied to the halves computed by `coro_setup` yields
`0xFFFFFFFFC8A312A0`, not the pointer.  When the allocator of the test
program starts at that address on x86_64, `simple` lies at `0x55D5C8A31679`;
`coro_run(simple)` activates the entry context with the two halves of that
address, and the activation faults in `coro_entry` before `simple_coro` has
written its line.  Without `__x86_64__` the same program, from the same
address, writes the expected output. -/
theorem coro_entry_64_sign_extends :
    coro_entry_64 (selfHi 0x55D5C8A312A0) (selfLo 0x55D5C8A312A0) = 0xFFFFFFFFC8A312A0
      ∧ coro_entry_64 (selfHi 0x55D5C8A312A0) (selfLo 0x55D5C8A312A0) ≠ 0x55D5C8A312A0
      ∧ (run linux_x86_64 tests_c downward 1 (boot 0x55D5C8A312A0)).resume
          = some (.made 0x55D5C8A31A51 CORO_DEFAULT_STACK_SIZE 0 0 .coro_entry_64
              [selfHi 0x55D5C8A31679, selfLo 0x55D5C8A31679])
      ∧ coro_entry_64 (selfHi 0x55D5C8A31679) (selfLo 0x55D5C8A31679) = 0xFFFFFFFFC8A31679
      ∧ (run linux_x86_64 tests_c downward 2 (boot 0x55D5C8A312A0)).out = none
      ∧ (run other_target tests_c downward 39 (boot 0x55D5C8A312A0)).out
          = some expected_output :=
  ⟨by decide, by decide, by decide, by decide, by decide, by decide⟩

/-! ## Memory -/

theorem obj_range {s : State υ δ} {a : Nat} {c : coro υ} (h : s.obj a = some c) :
    0 < a ∧ a ≤ s.brk := by
  unfold State.obj at h
  split at h
  · assumption
  · cases h

theorem obj_eq_heap {s : State υ δ} {a : Nat} {c : coro υ} (h : s.obj a = some c) :
    s.heap a = some c := by
  have hr := obj_range h
  unfold State.obj at h
  rwa [if_pos hr] at h

theorem obj_ne_zero {s : State υ δ} {a : Nat} {c : coro υ} (h : s.obj a = some c) :
    a ≠ 0 := by
  have := obj_range h
  omega

@[simp] theorem store_brk (s : State υ δ) (a : Nat) (c : coro υ) :
    (s.store a c).brk = s.brk := rfl

@[simp] theorem store_bufs (s : State υ δ) (a : Nat) (c : coro υ) :
    (s.store a c).bufs = s.bufs := rfl

@[simp] theorem store_alloc_trace (s : State υ δ) (a : Nat) (c : coro υ) :
    (s.store a c).alloc_trace = s.alloc_trace := rfl

@[simp] theorem store_dealloc_trace (s : State υ δ) (a : Nat) (c : coro υ) :
    (s.store a c).dealloc_trace = s.dealloc_trace := rfl

@[simp] theorem store_client (s : State υ δ) (a : Nat) (c : coro υ) :
    (s.store a c).client = s.client := rfl

theorem obj_store_self {s : State υ δ} {a : Nat} (c : coro υ) (h : 0 < a ∧ a ≤ s.brk) :
    (s.store a c).obj a = some c := by
  unfold State.obj State.store
  simp [h]

theorem obj_store_of_obj {s : State υ δ} {a : Nat} {c0 : coro υ} (c : coro υ)
    (h : s.obj a = some c0) : (s.store a c).obj a = some c :=
  obj_store_self c (obj_range h)

theorem obj_store_ne {s : State υ δ} {a b : Nat} (c : coro υ) (h : b ≠ a) :
    (s.store a c).obj b = s.obj b := by
  unfold State.obj State.store
  simp [Function.update_noteq h]

theorem obj_store (s : State υ δ) (a b : Nat) (c c0 : coro υ) (h : s.obj a = some c0) :
    (s.store a c).obj b = if b = a then some c else s.obj b := by
  by_cases hb : b = a
  · subst hb; simp [obj_store_of_obj c h]
  · simp [hb, obj_store_ne c hb]

theorem obj_store_some {s : State υ δ} {a b : Nat} {c0 cb : coro υ} (c : coro υ)
    (h : s.obj a = some c0) (hb : s.obj b = some cb) :
    ∃ c2, (s.store a c).obj b = some c2 := by
  rw [obj_store _ _ _ _ _ h]
  by_cases hba : b = a
  · exact ⟨c, by simp [hba]⟩
  · exact ⟨cb, by simp [hba, hb]⟩

/-! ## The recursion of `coro_release` ends -/

theorem num_counted_le (s : State υ δ) : s.num_counted ≤ s.brk + 1 := by
  unfold State.num_counted
  calc ((Finset.range (s.brk + 1)).filter _).card ≤ (Finset.range (s.brk + 1)).card :=
        Finset.card_filter_le _ _
    _ = s.brk + 1 := Finset.card_range _

theorem num_counted_store_lt {s : State υ δ} {a : Nat} {c0 c : coro υ}
    (h : s.obj a = some c0) (h0 : c0.refcount % WORD ≠ 0) (h1 : c.refcount % WORD = 0) :
    (s.store a c).num_counted < s.num_counted := by
  unfold State.num_counted
  apply Finset.card_lt_card
  rw [Finset.ssubset_iff_of_subset]
  · refine ⟨a, ?_, ?_⟩
    · simp [State.counted, h, h0, Nat.lt_succ_of_le (obj_range h).2]
    · simp [State.counted, obj_store_of_obj c h, h1]
  · intro b hb
    simp only [Finset.mem_filter, Finset.mem_range, store_brk] at hb ⊢
    refine ⟨hb.1, ?_⟩
    by_cases hba : b = a
    · subst hba; simp [State.counted, h, h0]
    · have := hb.2
      simpa [State.counted, obj_store_ne c hba] using this

theorem pred_mod_eq_zero {r : Nat} (h : (r + WORD - 1) % WORD ≤ 0) : r % WORD = 1 := by
  unfold WORD at *
  omega

theorem coro_dealloc_with_congr
    {f g : Nat → State υ δ → Except (Fault υ δ) (State υ δ)} {self : Nat} {s : State υ δ}
    (h : ∀ c, s.obj self = some c → f c.caller s = g c.caller s) :
    coro_dealloc_with f self s = coro_dealloc_with g self s := by
  unfold coro_dealloc_with
  cases hc : s.obj self with
  | none => rfl
  | some c => simp only [h c hc]

theorem free_ne_out_of_fuel (p : Nat) (s : State υ δ) :
    free p s ≠ .error .out_of_fuel := by
  unfold free
  split
  · simp
  · split <;> simp

theorem coro_dealloc_with_ne_out_of_fuel
    {f : Nat → State υ δ → Except (Fault υ δ) (State υ δ)} {self : Nat} {s : State υ δ}
    (h : ∀ c, s.obj self = some c → f c.caller s ≠ .error .out_of_fuel) :
    coro_dealloc_with f self s ≠ .error .out_of_fuel := by
  unfold coro_dealloc_with
  cases hc : s.obj self with
  | none => simp
  | some c =>
    have hf := h c hc
    simp only
    cases hr : f c.caller s with
    | error e =>
      simp only
      intro he
      apply hf
      rw [hr, he]
    | ok s1 =>
      simp only
      cases hc1 : s1.obj self with
      | none => simp
      | some c1 =>
        simp only
        have := free_ne_out_of_fuel c1.stack s1
        cases hfr : free c1.stack s1 with
        | error e => simp only; rw [hfr] at this; exact this
        | ok s2 => simp

/-- The result of `coro_release_fuel` does not depend on the bound once the
bound exceeds the number of coroutines with a non-zero count. -/
theorem coro_release_fuel_irrel (fuel : Nat) :
    ∀ (fuel2 self : Nat) (s : State υ δ), s.num_counted < fuel → s.num_counted < fuel2 →
      coro_release_fuel fuel self s = coro_release_fuel fuel2 self s := by
  induction fuel with
  | zero => intro fuel2 self s h; omega
  | succ n ih =>
    intro fuel2 self s h h2
    cases fuel2 with
    | zero => omega
    | succ m =>
      unfold coro_release_fuel
      by_cases h0 : self = 0
      · simp [h0]
      · simp only [h0, if_false]
        cases hc : s.obj self with
        | none => rfl
        | some c =>
          simp only
          split
          · rename_i hr
            apply coro_dealloc_with_congr
            intro c1 _
            have hlt := num_counted_store_lt
              (c := { c with refcount := (c.refcount + WORD - 1) % WORD }) hc
              (by rw [pred_mod_eq_zero hr]; decide)
              (by have : (c.refcount + WORD - 1) % WORD = 0 := by omega
                  simp [this])
            apply ih <;> omega
          · rfl

/-- The bound of `coro_release_fuel` is never reached when it exceeds the
number of coroutines with a non-zero count. -/
theorem coro_release_fuel_ne_out_of_fuel (fuel : Nat) :
    ∀ (self : Nat) (s : State υ δ), s.num_counted < fuel →
      coro_release_fuel fuel self s ≠ .error .out_of_fuel := by
  induction fuel with
  | zero => intro self s h; omega
  | succ n ih =>
    intro self s h
    unfold coro_release_fuel
    by_cases h0 : self = 0
    · simp [h0]
    · simp only [h0, if_false]
      cases hc : s.obj self with
      | none => simp
      | some c =>
        simp only
        split
        · rename_i hr
          apply coro_dealloc_with_ne_out_of_fuel
          intro c1 _
          have hlt := num_counted_store_lt
            (c := { c with refcount := (c.refcount + WORD - 1) % WORD }) hc
            (by rw [pred_mod_eq_zero hr]; decide)
            (by have : (c.refcount + WORD - 1) % WORD = 0 := by omega
                simp [this])
          apply ih; omega
        · simp

/-- `coro_release` never reaches the bound of the embedding. -/
theorem coro_release_ne_out_of_fuel (self : Nat) (s : State υ δ) :
    coro_release self s ≠ .error .out_of_fuel :=
  coro_release_fuel_ne_out_of_fuel _ _ _ (by have := num_counted_le s; omega)

theorem coro_release_fuel_eq (fuel : Nat) (self : Nat) (s : State υ δ)
    (h : s.num_counted < fuel) : coro_release_fuel fuel self s = coro_release self s :=
  coro_release_fuel_irrel _ _ _ _ h (by have := num_counted_le s; omega)

/-! ## `coro_release` and `coro_dealloc` -/

/-- Memory after `free(self)` at the end of `coro_dealloc`. -/
theorem coro_dealloc_with_ok
    {f : Nat → State υ δ → Except (Fault υ δ) (State υ δ)} {self : Nat} {s s2 : State υ δ}
    (h : coro_dealloc_with f self s = .ok s2) :
    ∃ c sa c1 sb, s.obj self = some c ∧ f c.caller s = .ok sa ∧ sa.obj self = some c1 ∧
      free c1.stack sa = .ok sb ∧
      s2 = { sb with heap := Function.update sb.heap self none
                     dealloc_trace := sb.dealloc_trace ++ [self] } := by
  unfold coro_dealloc_with at h
  cases hc : s.obj self with
  | none => simp [hc] at h
  | some c =>
    simp only [hc] at h
    cases hr : f c.caller s with
    | error e => simp [hr] at h
    | ok sa =>
      simp only [hr] at h
      cases hc1 : sa.obj self with
      | none => simp [hc1] at h
      | some c1 =>
        simp only [hc1] at h
        cases hfr : free c1.stack sa with
        | error e => simp [hfr] at h
        | ok sb =>
          simp only [hfr, Except.ok.injEq] at h
          exact ⟨c, sa, c1, sb, rfl, hr, hc1, hfr, h.symm⟩

theorem coro_release_null (s : State υ δ) : coro_release 0 s = .ok s := by
  unfold coro_release coro_release_fuel
  simp

theorem coro_release_unfold {s : State υ δ} {self : Nat} {c : coro υ}
    (hc : s.obj self = some c) :
    coro_release self s =
      if (c.refcount + WORD - 1) % WORD ≤ 0 then
        coro_dealloc self (s.store self { c with refcount := (c.refcount + WORD - 1) % WORD })
      else .ok (s.store self { c with refcount := (c.refcount + WORD - 1) % WORD }) := by
  have h0 : self ≠ 0 := obj_ne_zero hc
  unfold coro_release coro_release_fuel
  simp only [h0, if_false, hc]
  split
  · rename_i hr
    unfold coro_dealloc
    apply coro_dealloc_with_congr
    intro c1 _
    apply coro_release_fuel_eq
    have hlt := num_counted_store_lt
      (c := { c with refcount := (c.refcount + WORD - 1) % WORD }) hc
      (by rw [pred_mod_eq_zero hr]; decide)
      (by have : (c.refcount + WORD - 1) % WORD = 0 := by omega
          simp [this])
    have := num_counted_le s
    omega
  · rfl

/-- C10: `coro_release(NULL)` does nothing.  For a mapped `h` whose count is
`r` (a 64-bit value) the count stored is `(r - 1) mod 2 ^ 64`; when `r ≠ 1`
that store is the whole effect (`r = 0` stores `2 ^ 64 - 1`, nothing is
detected), when `r = 1` the call continues as `coro_dealloc(h)`: one
`coro_release` of the caller, `free` of the stack, `free` of the object.
`h` is destroyed iff `r = 1`.  A result is produced whenever `r ≠ 1`, and
for `r = 1` when `h` has no caller and its stack is null or a live block. -/
theorem coro_release_spec (s : State υ δ) (h : Nat) (c : coro υ)
    (hc : s.obj h = some c) (hr : c.refcount < WORD) :
    coro_release 0 s = .ok s
    ∧ (c.refcount ≠ 1 →
        coro_release h s = .ok (s.store h { c with refcount := (c.refcount + WORD - 1) % WORD }))
    ∧ (c.refcount = 0 → (c.refcount + WORD - 1) % WORD = 2 ^ 64 - 1)
    ∧ (2 ≤ c.refcount → (c.refcount + WORD - 1) % WORD = c.refcount - 1)
    ∧ (c.refcount = 1 →
        coro_release h s = coro_dealloc h (s.store h { c with refcount := 0 }))
    ∧ (∀ s2, c.refcount = 1 → coro_release h s = .ok s2 →
        ∃ sa c1 sb, coro_release c.caller (s.store h { c with refcount := 0 }) = .ok sa
          ∧ sa.obj h = some c1 ∧ free c1.stack sa = .ok sb
          ∧ s2 = { sb with heap := Function.update sb.heap h none
                           dealloc_trace := sb.dealloc_trace ++ [h] })
    ∧ (∀ s2, coro_release h s = .ok s2 → (s2.obj h = none ↔ c.refcount = 1))
    ∧ (c.refcount = 1 → c.caller = 0 → (c.stack = 0 ∨ s.bufs c.stack ≠ none) →
        ∃ s2, coro_release h s = .ok s2) := by
  have hne : c.refcount ≠ 1 →
      coro_release h s = .ok (s.store h { c with refcount := (c.refcount + WORD - 1) % WORD }) := by
    intro h1
    rw [coro_release_unfold hc, if_neg]
    unfold WORD at *
    omega
  have heq : c.refcount = 1 →
      coro_release h s = coro_dealloc h (s.store h { c with refcount := 0 }) := by
    intro h1
    rw [coro_release_unfold hc]
    have : (c.refcount + WORD - 1) % WORD = 0 := by rw [h1]; decide
    rw [this, if_pos (Nat.le_refl 0)]
  have hdestroy : ∀ s2, c.refcount = 1 → coro_release h s = .ok s2 →
        ∃ sa c1 sb, coro_release c.caller (s.store h { c with refcount := 0 }) = .ok sa
          ∧ sa.obj h = some c1 ∧ free c1.stack sa = .ok sb
          ∧ s2 = { sb with heap := Function.update sb.heap h none
                           dealloc_trace := sb.dealloc_trace ++ [h] } := by
    intro s2 h1 hok
    rw [heq h1] at hok
    obtain ⟨c0, sa, c1, sb, hc0, hrel, hc1, hfr, hs2⟩ := coro_dealloc_with_ok hok
    rw [obj_store_of_obj _ hc] at hc0
    cases hc0
    exact ⟨sa, c1, sb, hrel, hc1, hfr, hs2⟩
  refine ⟨coro_release_null s, hne, ?_, ?_, heq, hdestroy, ?_, ?_⟩
  · intro h0; rw [h0]; decide
  · intro h2; unfold WORD at *; omega
  · intro s2 hok
    constructor
    · intro hnone
      by_contra h1
      rw [hne h1] at hok
      cases hok
      rw [obj_store_of_obj _ hc] at hnone
      cases hnone
    · intro h1
      obtain ⟨sa, c1, sb, _, _, _, hs2⟩ := hdestroy s2 h1 hok
      rw [hs2]
      unfold State.obj
      simp
  · intro h1 hcaller hstack
    rw [heq h1]
    unfold coro_dealloc coro_dealloc_with
    rw [obj_store_of_obj _ hc]
    simp only [hcaller, coro_release_null, obj_store_of_obj _ hc]
    unfold free
    rcases hstack with h0 | hlive
    · simp [h0]
    · by_cases h0 : c.stack = 0
      · simp [h0]
      · simp only [h0, if_false, store_bufs]
        cases hb : s.bufs c.stack with
        | none => exact absurd hb hlive
        | some n => simp

/-! ## The stack inspector -/

theorem to_ptrdiff_range (a : Nat) :
    -9223372036854775808 ≤ to_ptrdiff a ∧ to_ptrdiff a < 9223372036854775808 := by
  unfold to_ptrdiff WORD
  split <;> omega

/-- C8: `coro_stack_remaining(self)` returns `p1 - start` when `p2 ≤ p1`
and `end - p1` when `p2 > p1`, where `p1` is the address of its local, `p2`
the address obtained in the deeper call, `start = self->stack` and
`end = start + self->stack_size`.  When `start ≤ p1 ≤ end` the result is
that difference without wrap-around, it is at most `stack_size`, and the
result plus the bytes on the other side of `p1` is `stack_size`.  The
result is the same for any other call with the same `p1`, the same
direction and a coroutine with the same `stack` and `stack_size`. -/
theorem coro_stack_remaining_spec (s : State υ δ) (self : Nat) (c : coro υ)
    (dummy sp : Nat) (hc : s.obj self = some c) (hsize : c.stack_size < WORD) :
    (to_ptrdiff sp ≤ to_ptrdiff dummy →
      coro_stack_remaining dummy sp self s =
        .ok ((to_ptrdiff dummy - to_ptrdiff c.stack) % (WORD : Int)).toNat)
    ∧ (to_ptrdiff sp > to_ptrdiff dummy →
      coro_stack_remaining dummy sp self s =
        .ok ((wrap_ptrdiff (to_ptrdiff c.stack + (c.stack_size % WORD : Nat))
              - to_ptrdiff dummy) % (WORD : Int)).toNat)
    ∧ (to_ptrdiff c.stack ≤ to_ptrdiff dummy →
       to_ptrdiff dummy ≤ wrap_ptrdiff (to_ptrdiff c.stack + (c.stack_size % WORD : Nat)) →
        wrap_ptrdiff (to_ptrdiff c.stack + (c.stack_size % WORD : Nat))
          = to_ptrdiff c.stack + c.stack_size
        ∧ ∃ r : Nat, coro_stack_remaining dummy sp self s = .ok r
          ∧ (r : Int) = (if to_ptrdiff sp > to_ptrdiff dummy
                          then to_ptrdiff c.stack + c.stack_size - to_ptrdiff dummy
                          else to_ptrdiff dummy - to_ptrdiff c.stack)
          ∧ r ≤ c.stack_size
          ∧ (r : Int) + (if to_ptrdiff sp > to_ptrdiff dummy
                          then to_ptrdiff dummy - to_ptrdiff c.stack
                          else to_ptrdiff c.stack + c.stack_size - to_ptrdiff dummy)
              = c.stack_size)
    ∧ (∀ (s2 : State υ δ) (self2 : Nat) (c2 : coro υ) (sp2 : Nat),
        s2.obj self2 = some c2 → c2.stack = c.stack → c2.stack_size = c.stack_size →
        (to_ptrdiff sp2 > to_ptrdiff dummy ↔ to_ptrdiff sp > to_ptrdiff dummy) →
        coro_stack_remaining dummy sp2 self2 s2 = coro_stack_remaining dummy sp self s) := by
  refine ⟨?_, ?_, ?_, ?_⟩
  · intro h
    unfold coro_stack_remaining
    simp only [hc, gt_iff_lt]
    rw [if_neg]
    simp only [decide_eq_true_eq]
    omega
  · intro h
    unfold coro_stack_remaining
    simp only [hc, gt_iff_lt]
    rw [if_pos]
    simp only [decide_eq_true_eq]
    exact h
  · intro h1 h2
    have hW : (WORD : Int) = 18446744073709551616 := by unfold WORD; norm_num
    have hs : (c.stack_size : Int) < 18446744073709551616 := by
      have := hsize; unfold WORD at this; omega
    have hr1 := to_ptrdiff_range c.stack
    have hr2 := to_ptrdiff_range dummy
    have hw : wrap_ptrdiff (to_ptrdiff c.stack + (c.stack_size % WORD : Nat))
          = to_ptrdiff c.stack + c.stack_size := by
      rw [Nat.mod_eq_of_lt hsize] at h2 ⊢
      revert h1 h2 hr1 hr2
      generalize to_ptrdiff c.stack = st
      generalize to_ptrdiff dummy = d
      unfold wrap_ptrdiff
      rw [hW]
      intro h1 h2 hr1 hr2
      split at h2 <;> split <;> omega
    refine ⟨hw, ?_⟩
    rw [hw] at h2
    unfold coro_stack_remaining
    simp only [hc, gt_iff_lt, hw, hW]
    by_cases hup : to_ptrdiff dummy < to_ptrdiff sp
    · simp only [hup, decide_True, if_true]
      refine ⟨_, rfl, ?_, ?_, ?_⟩ <;> omega
    · simp only [hup, decide_False, if_false]
      refine ⟨_, rfl, ?_, ?_, ?_⟩ <;> omega
  · intro s2 self2 c2 sp2 hc2 hst hsz hdir
    unfold coro_stack_remaining
    simp only [hc, hc2, hst, hsz, gt_iff_lt] at hdir ⊢
    by_cases hup : to_ptrdiff dummy < to_ptrdiff sp
    · simp [hup, hdir.mpr hup]
    · have : ¬ to_ptrdiff dummy < to_ptrdiff sp2 := fun h => hup (hdir.mp h)
      simp [hup, this]

/-! ## Transfers -/

theorem coro_retain_live {s : State υ δ} {a : Nat} {c : coro υ} (h : s.obj a = some c) :
    coro_retain a s = .ok (s.store a { c with refcount := (c.refcount + 1) % WORD }) := by
  unfold coro_retain
  simp [obj_ne_zero h, h]

theorem swapcontext_env_of {s : State υ δ} {self next : Nat} {cs cn : coro υ}
    (k : Flow υ) (hs : s.obj self = some cs) (hn : s.obj next = some cn) :
    swapcontext (.env_of self) next k s =
      .ok { state := s.store self { cs with env := .saved k }
            target := next
            resume := if next = self then .saved k else cn.env } := by
  unfold swapcontext
  simp only [hs]
  by_cases h : next = self
  · subst h
    simp [obj_store_of_obj _ hs]
  · simp [obj_store_ne _ h, hn, h]

theorem swapcontext_automatic {s : State υ δ} {next : Nat} {cn : coro υ}
    (k : Flow υ) (hn : s.obj next = some cn) :
    swapcontext .automatic next k s =
      .ok { state := s, target := next, resume := cn.env } := by
  unfold swapcontext
  simp [hn]

theorem coro_set_caller_same {s : State υ δ} {self caller : Nat} {c : coro υ}
    (h : s.obj self = some c) (hc : c.caller = caller) :
    coro_set_caller self caller s = .ok s := by
  unfold coro_set_caller
  simp [obj_ne_zero h, h, hc]

theorem coro_set_caller_change {s s1 s2 : State υ δ} {self caller : Nat} {c c2 : coro υ}
    (h : s.obj self = some c) (hc : c.caller ≠ caller)
    (hrel : coro_release c.caller s = .ok s1) (hret : coro_retain caller s1 = .ok s2)
    (h2 : s2.obj self = some c2) :
    coro_set_caller self caller s = .ok (s2.store self { c2 with caller := caller }) := by
  unfold coro_set_caller
  simp [obj_ne_zero h, h, hc, hrel, hret, h2]

theorem coro_set_caller_ok {s s3 : State υ δ} {self caller : Nat} {c : coro υ}
    (h : s.obj self = some c) (hc : c.caller ≠ caller)
    (hok : coro_set_caller self caller s = .ok s3) :
    ∃ s1 s2 c2, coro_release c.caller s = .ok s1 ∧ coro_retain caller s1 = .ok s2 ∧
      s2.obj self = some c2 ∧ s3 = s2.store self { c2 with caller := caller } := by
  unfold coro_set_caller at hok
  simp only [obj_ne_zero h, if_false, h, ne_eq, hc, not_false_eq_true, if_true] at hok
  cases hrel : coro_release c.caller s with
  | error e => simp [hrel] at hok
  | ok s1 =>
    simp only [hrel] at hok
    cases hret : coro_retain caller s1 with
    | error e => simp [hret] at hok
    | ok s2 =>
      simp only [hret] at hok
      cases h2 : s2.obj self with
      | none => simp [h2] at hok
      | some c2 =>
        simp only [h2, Except.ok.injEq] at hok
        exact ⟨s1, s2, c2, rfl, hret, h2, hok.symm⟩

/-! ## Where `abort()` is reached -/

theorem not_aborts_ok {α : Type} (a : α) : ¬ aborts (Except.ok a : Except (Fault υ δ) α) := by
  rintro ⟨s, h⟩; cases h

theorem not_aborts_invalid {α : Type} :
    ¬ aborts (Except.error .invalid_access : Except (Fault υ δ) α) := by
  rintro ⟨s, h⟩; cases h

theorem aborts_yield_error {α : Type} (s : State υ δ) :
    aborts (Except.error (.yield_error s) : Except (Fault υ δ) α) := ⟨s, rfl⟩

theorem free_not_aborts (p : Nat) (s : State υ δ) : ¬ aborts (free p s) := by
  unfold free
  split
  · exact not_aborts_ok _
  · split
    · exact not_aborts_invalid
    · exact not_aborts_ok _

theorem coro_dealloc_with_not_aborts
    {f : Nat → State υ δ → Except (Fault υ δ) (State υ δ)} {self : Nat} {s : State υ δ}
    (h : ∀ a s1, ¬ aborts (f a s1)) : ¬ aborts (coro_dealloc_with f self s) := by
  unfold coro_dealloc_with
  cases hc : s.obj self with
  | none => exact not_aborts_invalid
  | some c =>
    simp only
    cases hr : f c.caller s with
    | error e =>
      simp only
      have := h c.caller s
      rw [hr] at this
      exact this
    | ok s1 =>
      simp only
      cases hc1 : s1.obj self with
      | none => exact not_aborts_invalid
      | some c1 =>
        simp only
        have := free_not_aborts c1.stack s1
        cases hfr : free c1.stack s1 with
        | error e => simp only; rw [hfr] at this; exact this
        | ok s2 => exact not_aborts_ok _

theorem coro_release_fuel_not_aborts (fuel : Nat) :
    ∀ (self : Nat) (s : State υ δ), ¬ aborts (coro_release_fuel fuel self s) := by
  induction fuel with
  | zero =>
    intro self s
    unfold coro_release_fuel
    split
    · exact not_aborts_ok _
    · rintro ⟨s1, h⟩; cases h
  | succ n ih =>
    intro self s
    unfold coro_release_fuel
    split
    · exact not_aborts_ok _
    · cases hc : s.obj self with
      | none => exact not_aborts_invalid
      | some c =>
        simp only
        split
        · exact coro_dealloc_with_not_aborts ih
        · exact not_aborts_ok _

theorem coro_release_not_aborts (self : Nat) (s : State υ δ) :
    ¬ aborts (coro_release self s) :=
  coro_release_fuel_not_aborts _ _ _

theorem coro_retain_not_aborts (self : Nat) (s : State υ δ) :
    ¬ aborts (coro_retain self s) := by
  unfold coro_retain
  split
  · exact not_aborts_ok _
  · split
    · exact not_aborts_invalid
    · exact not_aborts_ok _

theorem coro_set_caller_not_aborts (self caller : Nat) (s : State υ δ) :
    ¬ aborts (coro_set_caller self caller s) := by
  unfold coro_set_caller
  split
  · exact not_aborts_ok _
  · cases hc : s.obj self with
    | none => exact not_aborts_invalid
    | some c =>
      simp only
      split
      · have h1 := coro_release_not_aborts c.caller s
        cases hrel : coro_release c.caller s with
        | error e => simp only; rw [hrel] at h1; exact h1
        | ok s1 =>
          simp only
          have h2 := coro_retain_not_aborts caller s1
          cases hret : coro_retain caller s1 with
          | error e => simp only; rw [hret] at h2; exact h2
          | ok s2 =>
            simp only
            split
            · exact not_aborts_invalid
            · exact not_aborts_ok _
      · exact not_aborts_ok _

theorem swapcontext_not_aborts (context : CtxLoc) (next : Nat) (k : Flow υ) (s : State υ δ) :
    ¬ aborts (swapcontext context next k s) := by
  unfold swapcontext
  cases context with
  | env_of self =>
    simp only
    cases hs : s.obj self with
    | none => exact not_aborts_invalid
    | some c =>
      simp only
      split
      · exact not_aborts_invalid
      · exact not_aborts_ok _
  | automatic =>
    simp only
    split
    · exact not_aborts_invalid
    · exact not_aborts_ok _

/-- `coro_yieldto_context` reaches `abort()` exactly when `next` is null, and
then memory is as it was at the call. -/
theorem coro_yieldto_context_aborts (self next caller : Nat) (context : CtxLoc)
    (k : Flow υ) (s : State υ δ) :
    (aborts (coro_yieldto_context self next caller context k s) ↔ next = 0)
    ∧ (next = 0 →
        coro_yieldto_context self next caller context k s = .error (.yield_error s)) := by
  have h0 : next = 0 →
      coro_yieldto_context self next caller context k s = .error (.yield_error s) := by
    intro h; unfold coro_yieldto_context; simp [h]
  refine ⟨⟨?_, fun h => ⟨s, h0 h⟩⟩, h0⟩
  intro hab
  by_contra hne
  unfold coro_yieldto_context at hab
  simp only [hne, if_false] at hab
  by_cases hc : caller = 0
  · simp only [hc, ne_eq, not_true_eq_false, if_false] at hab
    exact swapcontext_not_aborts _ _ _ _ hab
  · simp only [ne_eq, hc, not_false_eq_true, if_true] at hab
    have h1 := coro_set_caller_not_aborts next caller s
    cases hset : coro_set_caller next caller s with
    | error e =>
      rw [hset] at hab h1
      obtain ⟨s1, hs1⟩ := hab
      simp only [Except.error.injEq] at hs1
      exact h1 ⟨s1, by rw [hs1]⟩
    | ok s1 => rw [hset] at hab; exact swapcontext_not_aborts _ _ _ _ hab

theorem coro_setup_live (P : Platform) {s : State υ δ} {self : Nat} {c : coro υ}
    (h : s.obj self = some c) (hstack : c.stack ≠ 0) :
    coro_setup P self s =
      .ok (s.store self { c with env := entry_context P self c.stack c.stack_size }) := by
  unfold coro_setup
  simp [h, hstack]

/-- `coro_setup` of a coroutine without stack. -/
theorem coro_setup_bare (P : Platform) {s : State υ δ} {self : Nat} {c : coro υ}
    (h : s.obj self = some c) (hstack : c.stack = 0) :
    coro_setup P self s = .error .invalid_access := by
  unfold coro_setup
  simp [h, hstack]

/-- `coro_return` of a coroutine without stack: `coro_setup` faults before
`coro_yieldto_context` is reached. -/
theorem coro_return_bare (P : Platform) {s : State υ δ} {self : Nat} {c : coro υ}
    (k : Flow υ) (h : s.obj self = some c) (hstack : c.stack = 0) :
    coro_return P self k s = .error .invalid_access := by
  unfold coro_return
  simp [h, coro_setup_bare P h hstack]

/-- `coro_new(NULL, NULL)`: the new object is at `brk + 1`, bare, with count
one; the coroutines that existed are as they were. -/
theorem coro_new_bare (P : Platform) (s : State υ δ) :
    ∃ s1, coro_new P 0 0 s = .ok (s.brk + 1, s1)
      ∧ s1.obj (s.brk + 1) = some { (coro.zero : coro υ) with refcount := 1 }
      ∧ (∀ b, b ≠ s.brk + 1 → s1.heap b = s.heap b)
      ∧ (∀ b, s.obj b ≠ none → s1.obj b = s.obj b)
      ∧ s1.brk = s.brk + P.sizeof_coro
      ∧ s1.bufs = s.bufs
      ∧ s1.alloc_trace = s.alloc_trace ++ [s.brk + 1]
      ∧ s1.dealloc_trace = s.dealloc_trace
      ∧ s1.client = s.client := by
  have hpos := P.sizeof_pos
  have hin : 0 < s.brk + 1 ∧ s.brk + 1 ≤ s.brk + P.sizeof_coro := by omega
  refine ⟨(coro_alloc P s).2.store (s.brk + 1) { (coro.zero : coro υ) with refcount := 1 },
    ?_, ?_, ?_, ?_, rfl, rfl, rfl, rfl, rfl⟩
  · unfold coro_new coro_alloc
    simp [State.obj, hin]
  · unfold State.obj State.store coro_alloc
    simp [hin]
  · intro b hb
    unfold State.store coro_alloc
    simp [Function.update_noteq hb]
  · intro b hb
    have hr : 0 < b ∧ b ≤ s.brk := by
      unfold State.obj at hb
      by_contra hcon
      simp [hcon] at hb
    have hne : b ≠ s.brk + 1 := by omega
    have hr2 : 0 < b ∧ b ≤ s.brk + P.sizeof_coro := by omega
    unfold State.obj State.store coro_alloc
    simp [hr, hr2, Function.update_noteq hne]

theorem coro_setup_not_aborts (P : Platform) (self : Nat) (s : State υ δ) :
    ¬ aborts (coro_setup P self s) := by
  unfold coro_setup
  cases s.obj self with
  | none => exact not_aborts_invalid
  | some c =>
    simp only
    split
    · exact not_aborts_invalid
    · exact not_aborts_ok _

theorem coro_new_not_aborts (P : Platform) (start context : Nat) (s : State υ δ) :
    ¬ aborts (coro_new P start context s) := by
  rintro ⟨s1, h⟩
  unfold coro_new at h
  simp only at h
  split at h
  · cases h
  · split at h
    · split at h
      · cases h
      · split at h
        · rename_i e hsetup
          cases h
          exact coro_setup_not_aborts P _ _ ⟨s1, hsetup⟩
        · cases h
    · cases h

theorem coro_stack_remaining_not_aborts (dummy sp self : Nat) (s : State υ δ) :
    ¬ aborts (coro_stack_remaining dummy sp self s) := by
  rintro ⟨s1, h⟩
  unfold coro_stack_remaining at h
  cases hc : s.obj self with
  | none => simp [hc] at h
  | some c =>
    simp only [hc] at h
    split at h <;> cases h

/-- C4 (amended): `coro_call`, `coro_yieldto` and `coro_run` reach the
`abort()` of `coro_yieldto_context` iff `next` is null; `coro_yield` of a
mapped coroutine reaches it iff its caller link is null, and so does
`coro_return` of a mapped coroutine that has a stack.  `coro_return` of a
coroutine without stack (a bare one) never reaches it: `coro_setup`, which
runs before the test of the caller link, faults.  With a null target, memory
at the abort is the memory at the call (`coro_call`, `coro_yieldto`,
`coro_yield`), that memory with the context of `self` reset (`coro_return`),
or that memory with the new anchor, the coroutines that existed being as they
were (`coro_run`).  `coro_entry` reaches its `abort()` iff the call of the
start function returns.  `coro_new`, `coro_retain`, `coro_release` and
`coro_stack_remaining` never reach an `abort()`. -/
theorem abort_spec (P : Platform) (s : State υ δ) (self next : Nat) (k : Flow υ) (u : υ)
    (call : Nat → Nat → Nat → State υ δ → Except (Fault υ δ) (Outcome υ δ)) :
    ((aborts (coro_call self next k s) ↔ next = 0)
      ∧ (next = 0 → coro_call self next k s = .error (.yield_error s)))
    ∧ ((aborts (coro_yieldto self next k s) ↔ next = 0)
      ∧ (next = 0 → coro_yieldto self next k s = .error (.yield_error s)))
    ∧ ((aborts (coro_run P next u s) ↔ next = 0)
      ∧ (next = 0 → ∃ s1, coro_new P 0 0 s = .ok (s.brk + 1, s1)
          ∧ coro_run P next u s = .error (.yield_error s1)
          ∧ ∀ b, s.obj b ≠ none → s1.obj b = s.obj b))
    ∧ (∀ c, s.obj self = some c →
        (aborts (coro_yield self k s) ↔ c.caller = 0)
        ∧ (c.caller = 0 → coro_yield self k s = .error (.yield_error s)))
    ∧ (∀ c, s.obj self = some c → c.stack ≠ 0 →
        (aborts (coro_return P self k s) ↔ c.caller = 0)
        ∧ (c.caller = 0 → coro_return P self k s = .error (.yield_error
            (s.store self { c with env := entry_context P self c.stack c.stack_size }))))
    ∧ (∀ c, s.obj self = some c → c.stack = 0 →
        coro_return P self k s = .error .invalid_access
        ∧ ¬ aborts (coro_return P self k s))
    ∧ (∀ s1, coro_entry call self s = .error (.return_error s1) ↔
        ∃ c, s.obj self = some c ∧ c.start ≠ 0
          ∧ call c.start self c.context s = .ok (.returned s1))
    ∧ (∀ start context, ¬ aborts (coro_new P start context s))
    ∧ (∀ h, ¬ aborts (coro_retain h s) ∧ ¬ aborts (coro_release h s))
    ∧ (∀ dummy sp h, ¬ aborts (coro_stack_remaining dummy sp h s)) := by
  refine ⟨?_, ?_, ?_, ?_, ?_, ?_, ?_, fun _ _ => coro_new_not_aborts P _ _ s,
    fun h => ⟨coro_retain_not_aborts h s, coro_release_not_aborts h s⟩,
    fun _ _ _ => coro_stack_remaining_not_aborts _ _ _ s⟩
  · exact coro_yieldto_context_aborts _ _ _ _ _ _
  · exact coro_yieldto_context_aborts _ _ _ _ _ _
  · obtain ⟨s1, hnew, _, _, hsame, _⟩ := coro_new_bare P s
    have hrun : coro_run P next u s
        = coro_call (s.brk + 1) next (.in_coro_run (s.brk + 1) u) s1 := by
      unfold coro_run
      simp [hnew]
    rw [hrun]
    have := coro_yieldto_context_aborts (s.brk + 1) next (s.brk + 1)
      (.env_of (s.brk + 1)) (.in_coro_run (s.brk + 1) u) s1
    refine ⟨this.1, fun h => ⟨s1, hnew, this.2 h, hsame⟩⟩
  · intro c hc
    have hy : coro_yield self k s
        = coro_yieldto_context self c.caller 0 (.env_of self) k s := by
      unfold coro_yield
      simp [hc]
    rw [hy]
    exact coro_yieldto_context_aborts _ _ _ _ _ _
  · intro c hc hstack
    have hy : coro_return P self k s
        = coro_yieldto_context self c.caller 0 .automatic k
            (s.store self { c with env := entry_context P self c.stack c.stack_size }) := by
      unfold coro_return
      simp [hc, coro_setup_live P hc hstack]
    rw [hy]
    exact coro_yieldto_context_aborts _ _ _ _ _ _
  · intro c hc hstack
    rw [coro_return_bare P k hc hstack]
    exact ⟨rfl, not_aborts_invalid⟩
  · intro s1
    unfold coro_entry
    cases hc : s.obj self with
    | none => simp
    | some c =>
      simp only [Option.some.injEq, exists_eq_left']
      by_cases h0 : c.start = 0
      · simp [h0]
      · simp only [h0, if_false, ne_eq, not_false_eq_true, true_and]
        cases hcall : call c.start self c.context s with
        | error f => simp
        | ok o =>
          cases o with
          | transfer t => simp
          | returned s2 => simp
          | aborted s2 => simp

/-- C4 (counterexample): the root `A` of the alternating test is bare and
has no caller; `coro_return(A)` does not reach the `abort()` of
`coro_yieldto_context`, it faults in `coro_setup`. -/
theorem coro_return_bare_no_abort :
    (alternate_state linux_x86_64).obj 6299649 = some example_A
    ∧ example_A.caller = 0
    ∧ example_A.stack = 0
    ∧ coro_return linux_x86_64 6299649 (.user (.main_called_first 6299649))
        (alternate_state linux_x86_64) = .error .invalid_access
    ∧ ¬ aborts (coro_return linux_x86_64 6299649 (.user (.main_called_first 6299649))
        (alternate_state linux_x86_64)) :=
  ⟨by decide, rfl, rfl, rfl, by
    rw [show coro_return linux_x86_64 6299649 (.user (.main_called_first 6299649))
        (alternate_state linux_x86_64) = .error .invalid_access from rfl]
    exact not_aborts_invalid⟩

/-! ## `coro_yieldto`, `coro_yield`, `coro_return` -/

theorem coro_yieldto_live {s : State υ δ} {self next : Nat} {cs cn : coro υ}
    (k : Flow υ) (hs : s.obj self = some cs) (hn : s.obj next = some cn) :
    coro_yieldto self next k s =
      .ok { state := s.store self { cs with env := .saved k }
            target := next
            resume := if next = self then .saved k else cn.env } := by
  unfold coro_yieldto coro_yieldto_context
  simp [obj_ne_zero hn, swapcontext_env_of k hs hn]

theorem coro_yield_no_caller {s : State υ δ} {self : Nat} {c : coro υ}
    (k : Flow υ) (hs : s.obj self = some c) (h0 : c.caller = 0) :
    coro_yield self k s = .error (.yield_error s) := by
  unfold coro_yield coro_yieldto_context
  simp [hs, h0]

/-- `coro_yield(self)` activates the context of the caller of `self`. -/
theorem coro_yield_live {s : State υ δ} {self caller : Nat} {c cc : coro υ}
    (k : Flow υ) (hs : s.obj self = some c) (hcaller : c.caller = caller)
    (hc : s.obj caller = some cc) :
    coro_yield self k s =
      .ok { state := s.store self { c with env := .saved k }
            target := caller
            resume := if caller = self then .saved k else cc.env } := by
  unfold coro_yield coro_yieldto_context
  simp [hs, hcaller, obj_ne_zero hc, swapcontext_env_of k hs hc]

/-- `coro_return(self)` resets the context of `self` and activates the
context of its caller. -/
theorem coro_return_live (P : Platform) {s : State υ δ} {self caller : Nat} {c cc : coro υ}
    (k : Flow υ) (hs : s.obj self = some c) (hstack : c.stack ≠ 0) (hcaller : c.caller = caller)
    (hc : s.obj caller = some cc) :
    coro_return P self k s =
      .ok { state := s.store self { c with env := entry_context P self c.stack c.stack_size }
            target := caller
            resume := if caller = self then entry_context P self c.stack c.stack_size
                      else cc.env } := by
  subst hcaller
  have hc2 : (s.store self { c with env := entry_context P self c.stack c.stack_size }).obj
      c.caller = some (if c.caller = self
        then { c with env := entry_context P self c.stack c.stack_size } else cc) := by
    rw [obj_store _ _ _ _ _ hs]
    by_cases h : c.caller = self
    · simp [h]
    · simp [h, hc]
  unfold coro_return coro_yieldto_context
  simp only [hs, coro_setup_live P hs hstack, obj_ne_zero hc, if_false, ne_eq,
    not_true_eq_false]
  rw [swapcontext_automatic k hc2]
  by_cases h : c.caller = self
  · simp [h]
  · simp [h]

/-- C3: for mapped `self` and `next`, `coro_yieldto(self, next)` succeeds,
activates the context of `next`, and writes nothing but the saved context
of `self`: the caller link and the count of every coroutine are as before.
If the caller link of `next` was null, `coro_yield(next)` in the resulting
memory stops in the `abort()` of `coro_yieldto_context`. -/
theorem coro_yieldto_spec (s : State υ δ) (self next : Nat) (cs cn : coro υ) (k : Flow υ)
    (hs : s.obj self = some cs) (hn : s.obj next = some cn) :
    ∃ t, coro_yieldto self next k s = .ok t
      ∧ t.target = next
      ∧ t.state = s.store self { cs with env := .saved k }
      ∧ some t.resume = t.state.env_at next
      ∧ (∀ a, t.state.caller_at a = s.caller_at a)
      ∧ (∀ a, t.state.refcount_at a = s.refcount_at a)
      ∧ (cn.caller = 0 → t.state.caller_at next = some 0
          ∧ ∀ k2, coro_yield next k2 t.state = .error (.yield_error t.state)) := by
  have hobj : ∀ a, (s.store self { cs with env := .saved k }).obj a
      = if a = self then some { cs with env := .saved k } else s.obj a :=
    fun a => obj_store _ _ _ _ _ hs
  refine ⟨_, coro_yieldto_live k hs hn, rfl, rfl, ?_, ?_, ?_, ?_⟩
  · simp only [State.env_at, hobj]
    by_cases h : next = self
    · simp [h]
    · simp [h, hn]
  · intro a
    simp only [State.caller_at, hobj]
    by_cases h : a = self
    · simp [h, hs]
    · simp [h]
  · intro a
    simp only [State.refcount_at, hobj]
    by_cases h : a = self
    · simp [h, hs]
    · simp [h]
  · intro h0
    have hn2 : (s.store self { cs with env := .saved k }).obj next
        = some (if next = self then { cs with env := .saved k } else cn) := by
      rw [hobj]
      by_cases h : next = self
      · simp [h]
      · simp [h, hn]
    have hcaller : (if next = self then { cs with env := .saved k } else cn).caller = 0 := by
      by_cases h : next = self
      · subst h
        rw [hs] at hn
        cases hn
        simpa using h0
      · simpa [h] using h0
    refine ⟨?_, fun k2 => coro_yield_no_caller k2 hn2 hcaller⟩
    simp only [State.caller_at, hn2, Option.map_some', hcaller]

/-! ## What `coro_release` leaves alone -/

theorem only_counts_refl (s : State υ δ) : s.only_counts s :=
  ⟨rfl, rfl, rfl, fun _ c2 h => ⟨c2, h, rfl⟩⟩

theorem only_counts_trans {s s1 s2 : State υ δ} (h1 : s.only_counts s1)
    (h2 : s1.only_counts s2) : s.only_counts s2 := by
  obtain ⟨a1, b1, c1, d1⟩ := h1
  obtain ⟨a2, b2, c2, d2⟩ := h2
  refine ⟨a2.trans a1, b2.trans b1, c2.trans c1, ?_⟩
  intro a c hc
  obtain ⟨c', hc', e'⟩ := d2 a c hc
  obtain ⟨c'', hc'', e''⟩ := d1 a c' hc'
  exact ⟨c'', hc'', e'.trans e''⟩

theorem only_counts_store {s : State υ δ} {a : Nat} {c0 c : coro υ}
    (h : s.obj a = some c0) (hu : c.uncounted = c0.uncounted) :
    s.only_counts (s.store a c) := by
  refine ⟨rfl, rfl, rfl, ?_⟩
  intro b c2 hb
  rw [obj_store _ _ _ _ _ h] at hb
  by_cases hba : b = a
  · subst hba
    simp only [if_true, Option.some.injEq] at hb
    subst hb
    exact ⟨c0, h, hu⟩
  · simp only [hba, if_false] at hb
    exact ⟨c2, hb, rfl⟩

theorem free_ok {p : Nat} {s s2 : State υ δ} (h : free p s = .ok s2) :
    s2.heap = s.heap ∧ s2.brk = s.brk ∧ s2.alloc_trace = s.alloc_trace
      ∧ s2.dealloc_trace = s.dealloc_trace ∧ s2.client = s.client := by
  unfold free at h
  split at h
  · cases h; exact ⟨rfl, rfl, rfl, rfl, rfl⟩
  · split at h
    · cases h
    · cases h; exact ⟨rfl, rfl, rfl, rfl, rfl⟩

theorem free_obj {p : Nat} {s s2 : State υ δ} (h : free p s = .ok s2) (a : Nat) :
    s2.obj a = s.obj a := by
  obtain ⟨h1, h2, _⟩ := free_ok h
  unfold State.obj
  rw [h1, h2]

theorem coro_dealloc_with_only_counts
    {f : Nat → State υ δ → Except (Fault υ δ) (State υ δ)} {self : Nat} {s s2 : State υ δ}
    (hf : ∀ a s1 s3, f a s1 = .ok s3 → s1.only_counts s3)
    (h : coro_dealloc_with f self s = .ok s2) : s.only_counts s2 := by
  obtain ⟨c, sa, c1, sb, _, hrel, _, hfr, hs2⟩ := coro_dealloc_with_ok h
  have h1 := hf _ _ _ hrel
  refine only_counts_trans h1 ?_
  obtain ⟨e1, e2, e3, _, e5⟩ := free_ok hfr
  subst hs2
  refine ⟨e2, e3, e5, ?_⟩
  intro a c2 hc2
  refine ⟨c2, ?_, rfl⟩
  rw [← free_obj hfr a]
  unfold State.obj at hc2 ⊢
  simp only at hc2
  split at hc2
  · rename_i hr
    rw [if_pos hr]
    by_cases ha : a = self
    · subst ha; simp at hc2
    · rwa [Function.update_noteq ha] at hc2
  · cases hc2

theorem coro_release_fuel_only_counts (fuel : Nat) :
    ∀ (self : Nat) (s s2 : State υ δ), coro_release_fuel fuel self s = .ok s2 →
      s.only_counts s2 := by
  induction fuel with
  | zero =>
    intro self s s2 h
    unfold coro_release_fuel at h
    split at h
    · cases h; exact only_counts_refl s
    · cases h
  | succ n ih =>
    intro self s s2 h
    unfold coro_release_fuel at h
    split at h
    · cases h; exact only_counts_refl s
    · cases hc : s.obj self with
      | none => simp [hc] at h
      | some c =>
        simp only [hc] at h
        have hst : s.only_counts
            (s.store self { c with refcount := (c.refcount + WORD - 1) % WORD }) :=
          only_counts_store hc (by simp [coro.uncounted])
        split at h
        · exact only_counts_trans hst (coro_dealloc_with_only_counts (ih) h)
        · cases h; exact hst

theorem coro_release_only_counts {self : Nat} {s s2 : State υ δ}
    (h : coro_release self s = .ok s2) : s.only_counts s2 :=
  coro_release_fuel_only_counts _ _ _ _ h

theorem coro_retain_only_counts {self : Nat} {s s2 : State υ δ}
    (h : coro_retain self s = .ok s2) : s.only_counts s2 := by
  unfold coro_retain at h
  split at h
  · cases h; exact only_counts_refl s
  · cases hc : s.obj self with
    | none => simp [hc] at h
    | some c =>
      simp only [hc, Except.ok.injEq] at h
      subst h
      exact only_counts_store hc (by simp [coro.uncounted])

/-! ## `coro_call` -/

theorem swapcontext_env_of_ok {s : State υ δ} {self next : Nat} {k : Flow υ}
    {t : Transfer υ δ} (h : swapcontext (.env_of self) next k s = .ok t) :
    ∃ cs cn, s.obj self = some cs ∧ s.obj next = some cn
      ∧ t = { state := s.store self { cs with env := .saved k }
              target := next
              resume := if next = self then .saved k else cn.env } := by
  cases hs : s.obj self with
  | none => unfold swapcontext at h; simp [hs] at h
  | some cs =>
    cases hn : s.obj next with
    | none =>
      unfold swapcontext at h
      simp only [hs] at h
      by_cases hns : next = self
      · subst hns; rw [hs] at hn; cases hn
      · simp [obj_store_ne _ hns, hn] at h
    | some cn =>
      rw [swapcontext_env_of k hs hn] at h
      cases h
      exact ⟨cs, cn, rfl, rfl, rfl⟩

theorem coro_call_unfold {s : State υ δ} {self next : Nat} (k : Flow υ)
    (hs : self ≠ 0) (hn : next ≠ 0) :
    coro_call self next k s =
      match coro_set_caller next self s with
      | .error e => .error e
      | .ok s1 => swapcontext (.env_of self) next k s1 := by
  unfold coro_call coro_yieldto_context
  simp [hs, hn]

/-- What a successful `coro_call` did. -/
theorem coro_call_ok {s : State υ δ} {self next : Nat} {cs cn : coro υ} {k : Flow υ}
    {t : Transfer υ δ} (hs : s.obj self = some cs) (hn : s.obj next = some cn)
    (h : coro_call self next k s = .ok t) :
    ∃ s1 cs1 cn1, coro_set_caller next self s = .ok s1
      ∧ s1.obj self = some cs1 ∧ s1.obj next = some cn1 ∧ cn1.caller = self
      ∧ t = { state := s1.store self { cs1 with env := .saved k }
              target := next
              resume := if next = self then .saved k else cn1.env }
      ∧ (cn.caller = self → s1 = s)
      ∧ (cn.caller ≠ self → ∃ s0 c0, coro_release cn.caller s = .ok s0
          ∧ s0.obj self = some c0 ∧ cs1.refcount = (c0.refcount + 1) % WORD) := by
  rw [coro_call_unfold k (obj_ne_zero hs) (obj_ne_zero hn)] at h
  cases hset : coro_set_caller next self s with
  | error e => simp [hset] at h
  | ok s1 =>
    simp only [hset] at h
    obtain ⟨cs1, cn1, hs1, hn1, ht⟩ := swapcontext_env_of_ok h
    by_cases hsame : cn.caller = self
    · have := coro_set_caller_same hn hsame
      rw [hset] at this
      cases this
      rw [hn] at hn1
      cases hn1
      exact ⟨s, cs1, cn, rfl, hs1, hn, hsame, ht, fun _ => rfl, fun h => absurd hsame h⟩
    · obtain ⟨s0, s2, c2, hrel, hret, h2, hs3⟩ := coro_set_caller_ok hn hsame hset
      have hself0 : self ≠ 0 := obj_ne_zero hs
      cases h0 : s0.obj self with
      | none =>
        unfold coro_retain at hret
        simp [hself0, h0] at hret
      | some c0 =>
        rw [coro_retain_live h0] at hret
        cases hret
        have hcn1 : cn1.caller = self := by
          rw [hs3, obj_store_of_obj _ h2] at hn1
          cases hn1
          rfl
        refine ⟨s1, cs1, cn1, rfl, hs1, hn1, hcn1, ht, fun h => absurd h hsame, ?_⟩
        intro _
        refine ⟨s0, c0, hrel, h0, ?_⟩
        rw [hs3, obj_store _ _ _ _ _ h2] at hs1
        by_cases hsn : self = next
        · subst hsn
          rw [obj_store_of_obj _ h0] at h2
          cases h2
          simp only [if_true, Option.some.injEq] at hs1
          subst hs1
          rfl
        · simp only [hsn, if_false] at hs1
          rw [obj_store_of_obj _ h0] at hs1
          cases hs1
          rfl

theorem coro_release_no_cascade {s : State υ δ} {a : Nat}
    (h : a = 0 ∨ ∃ c, s.obj a = some c ∧ (c.refcount + WORD - 1) % WORD ≠ 0) :
    ∃ s0, coro_release a s = .ok s0 ∧ ∀ b, b ≠ a → s0.obj b = s.obj b := by
  rcases h with h0 | ⟨c, hc, hr⟩
  · subst h0
    exact ⟨s, coro_release_null s, fun _ _ => rfl⟩
  · refine ⟨s.store a { c with refcount := (c.refcount + WORD - 1) % WORD }, ?_,
      fun b hb => obj_store_ne _ hb⟩
    rw [coro_release_unfold hc, if_neg (by omega)]

/-- `coro_call(self, next)` when `self` already is the caller of `next`. -/
theorem coro_call_same_ok {s : State υ δ} {self next : Nat} {cs cn : coro υ} {k : Flow υ}
    (hs : s.obj self = some cs) (hn : s.obj next = some cn) (hsame : cn.caller = self) :
    ∃ t, coro_call self next k s = .ok t := by
  rw [coro_call_unfold k (obj_ne_zero hs) (obj_ne_zero hn), coro_set_caller_same hn hsame]
  exact ⟨_, swapcontext_env_of k hs hn⟩

/-- `coro_call(self, next)` when `next` has no caller, or a caller whose
release only decrements. -/
theorem coro_call_changed_ok {s : State υ δ} {self next : Nat} {cs cn : coro υ} {k : Flow υ}
    (hs : s.obj self = some cs) (hn : s.obj next = some cn) (hdiff : cn.caller ≠ self)
    (hold : cn.caller = 0 ∨ ∃ co, s.obj cn.caller = some co
      ∧ (co.refcount + WORD - 1) % WORD ≠ 0) :
    ∃ t s0, coro_call self next k s = .ok t ∧ coro_release cn.caller s = .ok s0
      ∧ s0.obj self = some cs := by
  obtain ⟨s0, hrel, hframe⟩ := coro_release_no_cascade hold
  have h0 : s0.obj self = some cs := by rw [hframe self (Ne.symm hdiff), hs]
  have hret := coro_retain_live h0
  have hn0 : ∃ c, s0.obj next = some c := by
    rcases hold with h | ⟨co, hco, hr⟩
    · exact ⟨cn, by rw [hframe next (by rw [h]; exact obj_ne_zero hn), hn]⟩
    · by_cases hno : next = cn.caller
      · rw [coro_release_unfold hco, if_neg (by omega)] at hrel
        cases hrel
        exact ⟨_, by rw [hno]; exact obj_store_of_obj _ hco⟩
      · exact ⟨cn, by rw [hframe next hno, hn]⟩
  obtain ⟨cn0, hcn0⟩ := hn0
  obtain ⟨c2, hc2⟩ := obj_store_some
    { cs with refcount := (cs.refcount + 1) % WORD } h0 hcn0
  have hset := coro_set_caller_change hn hdiff hrel hret hc2
  obtain ⟨c3, hc3⟩ := obj_store_some { c2 with caller := self } hc2
    (obj_store_of_obj { cs with refcount := (cs.refcount + 1) % WORD } h0)
  have hcall : ∃ t, coro_call self next k s = .ok t := by
    rw [coro_call_unfold k (obj_ne_zero hs) (obj_ne_zero hn), hset]
    exact ⟨_, swapcontext_env_of k hc3 (obj_store_of_obj _ hc2)⟩
  obtain ⟨t, ht⟩ := hcall
  exact ⟨t, s0, ht, hrel, h0⟩

theorem uncounted_fields {c c0 : coro υ} (h : c.uncounted = c0.uncounted) :
    c.stack = c0.stack ∧ c.start = c0.start ∧ c.context = c0.context := by
  have h1 := congrArg coro.stack h
  have h2 := congrArg coro.start h
  have h3 := congrArg coro.context h
  exact ⟨by simpa [coro.uncounted] using h1, by simpa [coro.uncounted] using h2,
    by simpa [coro.uncounted] using h3⟩

/-- `coro_set_caller` does not write any `stack`, `start` or `context`
field. -/
theorem coro_set_caller_fields {s s1 : State υ δ} {self caller : Nat}
    (h : coro_set_caller self caller s = .ok s1) :
    ∀ a c1, s1.obj a = some c1 → ∃ c0, s.obj a = some c0
      ∧ c1.stack = c0.stack ∧ c1.start = c0.start ∧ c1.context = c0.context := by
  intro a c1 hc1
  by_cases h0 : self = 0
  · unfold coro_set_caller at h
    simp only [h0, if_true, Except.ok.injEq] at h
    subst h
    exact ⟨c1, hc1, rfl, rfl, rfl⟩
  · cases hc : s.obj self with
    | none =>
      unfold coro_set_caller at h
      simp [h0, hc] at h
    | some c =>
      by_cases hsame : c.caller = caller
      · rw [coro_set_caller_same hc hsame] at h
        cases h
        exact ⟨c1, hc1, rfl, rfl, rfl⟩
      · obtain ⟨s0, s2, c2, hrel, hret, h2, hs1⟩ := coro_set_caller_ok hc hsame h
        have hfr := only_counts_trans (coro_release_only_counts hrel)
          (coro_retain_only_counts hret)
        subst hs1
        rw [obj_store _ _ _ _ _ h2] at hc1
        by_cases ha : a = self
        · subst ha
          simp only [if_true, Option.some.injEq] at hc1
          subst hc1
          obtain ⟨c0, hc0, hu⟩ := hfr.2.2.2 a c2 h2
          have hf := uncounted_fields hu
          exact ⟨c0, hc0, hf.1, hf.2.1, hf.2.2⟩
        · simp only [ha, if_false] at hc1
          obtain ⟨c0, hc0, hu⟩ := hfr.2.2.2 a c1 hc1
          exact ⟨c0, hc0, uncounted_fields hu⟩

/-- C1 (amended): for mapped `self` and `next`, a `coro_call(self, next)`
that returns a transfer has activated the context of `next`, has left
`next->caller == self` and the flow of the caller saved in `self->env`.
If `self` already was the caller of `next`, nothing else was written.
Otherwise the previous caller of `next` was released first, and the count
of `self` is one more, modulo `2 ^ 64`, than it was after that release; it
is one more than before the call when `next` had no caller or the release of
the previous caller only decremented.  In these three cases the call does
return a transfer.  After the call, and in any later memory where
`next->caller` is still `self` and both are mapped, `coro_yield(next)`
activates the context of `self` (the flow saved by the call, when
`next ≠ self` and `self->env` was not written since), and so does
`coro_return(next)` when `next` has a stack; `coro_return` of a `next`
without stack (a bare coroutine) faults in `coro_setup`. -/
theorem coro_call_spec (P : Platform) (s : State υ δ) (self next : Nat) (cs cn : coro υ)
    (k : Flow υ) (hs : s.obj self = some cs) (hn : s.obj next = some cn) :
    (∀ t, coro_call self next k s = .ok t →
        t.target = next
        ∧ some t.resume = t.state.env_at next
        ∧ t.state.caller_at next = some self
        ∧ t.state.env_at self = some (.saved k)
        ∧ (cn.caller = self → t.state = s.store self { cs with env := .saved k })
        ∧ (cn.caller ≠ self → ∃ s0 c0, coro_release cn.caller s = .ok s0
            ∧ s0.obj self = some c0
            ∧ t.state.refcount_at self = some ((c0.refcount + 1) % WORD))
        ∧ (∀ k2, ∃ t2, coro_yield next k2 t.state = .ok t2 ∧ t2.target = self
            ∧ some t2.resume = t2.state.env_at self
            ∧ (next ≠ self → t2.resume = .saved k))
        ∧ (cn.stack ≠ 0 →
            ∀ k2, ∃ t2, coro_return P next k2 t.state = .ok t2 ∧ t2.target = self
              ∧ some t2.resume = t2.state.env_at self
              ∧ (next ≠ self → t2.resume = .saved k))
        ∧ (cn.stack = 0 →
            ∀ k2, coro_return P next k2 t.state = .error .invalid_access))
    ∧ (cn.caller = self → ∃ t, coro_call self next k s = .ok t)
    ∧ (cn.caller ≠ self →
        (cn.caller = 0 ∨ ∃ co, s.obj cn.caller = some co
          ∧ (co.refcount + WORD - 1) % WORD ≠ 0) →
        ∃ t, coro_call self next k s = .ok t
          ∧ t.state.refcount_at self = some ((cs.refcount + 1) % WORD))
    ∧ (∀ (s2 : State υ δ) (cs2 cn2 : coro υ) (k2 : Flow υ),
        s2.obj self = some cs2 → s2.obj next = some cn2 → cn2.caller = self →
        (∃ t2, coro_yield next k2 s2 = .ok t2 ∧ t2.target = self
          ∧ some t2.resume = t2.state.env_at self
          ∧ (next ≠ self → t2.resume = cs2.env))
        ∧ (cn2.stack ≠ 0 →
            ∃ t2, coro_return P next k2 s2 = .ok t2 ∧ t2.target = self
              ∧ some t2.resume = t2.state.env_at self
              ∧ (next ≠ self → t2.resume = cs2.env))
        ∧ (cn2.stack = 0 → coro_return P next k2 s2 = .error .invalid_access)) := by
  have hlater : ∀ (s2 : State υ δ) (cs2 cn2 : coro υ) (k2 : Flow υ),
        s2.obj self = some cs2 → s2.obj next = some cn2 → cn2.caller = self →
        (∃ t2, coro_yield next k2 s2 = .ok t2 ∧ t2.target = self
          ∧ some t2.resume = t2.state.env_at self
          ∧ (next ≠ self → t2.resume = cs2.env))
        ∧ (cn2.stack ≠ 0 →
            ∃ t2, coro_return P next k2 s2 = .ok t2 ∧ t2.target = self
              ∧ some t2.resume = t2.state.env_at self
              ∧ (next ≠ self → t2.resume = cs2.env))
        ∧ (cn2.stack = 0 → coro_return P next k2 s2 = .error .invalid_access) := by
    intro s2 cs2 cn2 k2 hs2 hn2 hcaller
    refine ⟨?_, ?_, fun hstack => coro_return_bare P k2 hn2 hstack⟩
    · refine ⟨_, coro_yield_live k2 hn2 hcaller hs2, rfl, ?_, ?_⟩
      · simp only [State.env_at, obj_store _ _ _ _ _ hn2]
        by_cases h : self = next
        · simp [h]
        · simp [h, hs2]
      · intro h
        simp [Ne.symm h]
    · intro hstack
      refine ⟨_, coro_return_live P k2 hn2 hstack hcaller hs2, rfl, ?_, ?_⟩
      · simp only [State.env_at, obj_store _ _ _ _ _ hn2]
        by_cases h : self = next
        · simp [h]
        · simp [h, hs2]
      · intro h
        simp [Ne.symm h]
  have hmain : ∀ t, coro_call self next k s = .ok t →
        t.target = next
        ∧ some t.resume = t.state.env_at next
        ∧ t.state.caller_at next = some self
        ∧ t.state.env_at self = some (.saved k)
        ∧ (cn.caller = self → t.state = s.store self { cs with env := .saved k })
        ∧ (cn.caller ≠ self → ∃ s0 c0, coro_release cn.caller s = .ok s0
            ∧ s0.obj self = some c0
            ∧ t.state.refcount_at self = some ((c0.refcount + 1) % WORD))
        ∧ (∀ k2, ∃ t2, coro_yield next k2 t.state = .ok t2 ∧ t2.target = self
            ∧ some t2.resume = t2.state.env_at self
            ∧ (next ≠ self → t2.resume = .saved k))
        ∧ (cn.stack ≠ 0 →
            ∀ k2, ∃ t2, coro_return P next k2 t.state = .ok t2 ∧ t2.target = self
              ∧ some t2.resume = t2.state.env_at self
              ∧ (next ≠ self → t2.resume = .saved k))
        ∧ (cn.stack = 0 →
            ∀ k2, coro_return P next k2 t.state = .error .invalid_access) := by
    intro t ht
    obtain ⟨s1, cs1, cn1, hset, hs1, hn1, hcaller, rfl, hsame, hdiff⟩ := coro_call_ok hs hn ht
    have hobj : ∀ a, (s1.store self { cs1 with env := .saved k }).obj a
        = if a = self then some { cs1 with env := .saved k } else s1.obj a :=
      fun a => obj_store _ _ _ _ _ hs1
    have hself : (s1.store self { cs1 with env := .saved k }).obj self
        = some { cs1 with env := .saved k } := by simp [hobj]
    have hstack1 : cn1.stack = cn.stack := by
      obtain ⟨c0, hc0, hst, _⟩ := coro_set_caller_fields hset next cn1 hn1
      rw [hn] at hc0
      cases hc0
      exact hst
    have hnext : ∃ cn2, (s1.store self { cs1 with env := .saved k }).obj next = some cn2
        ∧ cn2.caller = self ∧ cn2.stack = cn.stack := by
      by_cases h : next = self
      · subst h
        rw [hs1] at hn1
        cases hn1
        exact ⟨_, hself, hcaller, hstack1⟩
      · exact ⟨cn1, by simp [hobj, h, hn1], hcaller, hstack1⟩
    obtain ⟨cn2, hn2, hcaller2, hstack2⟩ := hnext
    refine ⟨rfl, ?_, ?_, ?_, ?_, ?_, ?_, ?_, ?_⟩
    · simp only [State.env_at, hobj]
      by_cases h : next = self
      · simp [h]
      · simp [h, hn1]
    · simp [State.caller_at, hn2, hcaller2]
    · simp [State.env_at, hself]
    · intro h
      have := hsame h
      subst this
      rw [hs] at hs1
      cases hs1
      rfl
    · intro h
      obtain ⟨s0, c0, hrel, h0, hcount⟩ := hdiff h
      refine ⟨s0, c0, hrel, h0, ?_⟩
      unfold State.refcount_at
      rw [hself, Option.map_some', hcount]
    · intro k2
      obtain ⟨⟨t2, h1, h2, h3, h4⟩, _⟩ := hlater _ _ _ k2 hself hn2 hcaller2
      exact ⟨t2, h1, h2, h3, h4⟩
    · intro hstack k2
      obtain ⟨_, hret, _⟩ := hlater _ _ _ k2 hself hn2 hcaller2
      obtain ⟨t2, h1, h2, h3, h4⟩ := hret (by rw [hstack2]; exact hstack)
      exact ⟨t2, h1, h2, h3, h4⟩
    · intro hstack k2
      exact coro_return_bare P k2 hn2 (by rw [hstack2]; exact hstack)
  refine ⟨hmain, fun hsame => coro_call_same_ok hs hn hsame, ?_, hlater⟩
  intro hdiff hold
  obtain ⟨t, s0, ht, hrel, h0⟩ := coro_call_changed_ok (k := k) hs hn hdiff hold
  refine ⟨t, ht, ?_⟩
  obtain ⟨_, _, _, _, _, hcount, _⟩ := hmain t ht
  obtain ⟨s0', c0', hrel', h0', hc⟩ := hcount hdiff
  rw [hrel] at hrel'
  cases hrel'
  rw [h0] at h0'
  cases h0'
  exact hc

/-- C1 (counterexample): in `chain_state` the caller of `X` (48) is `Y`
(32), not `Z` (16), and the count of `Z` is 2; `coro_call(Z, X)` succeeds and
the count of `Z` is 2 afterwards, not 3: releasing `Y` destroyed it and
released its caller `Z`.  `X` is bare, and `coro_return(X)` after the call
faults instead of resuming `Z`. -/
theorem coro_call_count_not_incremented :
    chain_state.caller_at 48 = some 32
    ∧ chain_state.refcount_at 16 = some 2
    ∧ (state_after (coro_call 16 48 (.user ()) chain_state)).map
        (fun s => (s.caller_at 48, s.refcount_at 16, s.obj 32))
        = some (some 16, some 2, none)
    ∧ (state_after (coro_call 16 48 (.user ()) chain_state)).map
        (fun s => faults (coro_return linux_x86_64 48 (.user ()) s)) = some true := by
  decide

/-! ## `coro_new` and `coro_return` -/

/-- `coro_new(start, context)` with a start function: the new object is at
`brk + 1`, its stack is the block after it, its context is the entry
context. -/
theorem coro_new_started (P : Platform) (start context : Nat) (s : State υ δ)
    (hstart : start ≠ 0) :
    ∃ s1, coro_new P start context s = .ok (s.brk + 1, s1)
      ∧ s1.obj (s.brk + 1) = some
          { refcount := 1, caller := 0, context := context,
            stack := s.brk + P.sizeof_coro + 1, stack_size := CORO_DEFAULT_STACK_SIZE,
            env := entry_context P (s.brk + 1) (s.brk + P.sizeof_coro + 1)
              CORO_DEFAULT_STACK_SIZE,
            start := start }
      ∧ (∀ b, b ≠ s.brk + 1 → s1.heap b = s.heap b)
      ∧ (∀ b, s.obj b ≠ none → s1.obj b = s.obj b)
      ∧ s1.brk = s.brk + P.sizeof_coro + CORO_DEFAULT_STACK_SIZE
      ∧ s1.bufs = Function.update s.bufs (s.brk + P.sizeof_coro + 1)
          (some CORO_DEFAULT_STACK_SIZE)
      ∧ s1.alloc_trace = s.alloc_trace ++ [s.brk + 1]
      ∧ s1.dealloc_trace = s.dealloc_trace
      ∧ s1.client = s.client := by
  have hpos := P.sizeof_pos
  have hsz : max CORO_DEFAULT_STACK_SIZE 1 = CORO_DEFAULT_STACK_SIZE := by decide
  have hin : 0 < s.brk + 1 ∧ s.brk + 1 ≤ s.brk + P.sizeof_coro := by omega
  have hin2 : s.brk + 1 ≤ s.brk + P.sizeof_coro + CORO_DEFAULT_STACK_SIZE := by omega
  refine ⟨{ s with
      heap := Function.update s.heap (s.brk + 1) (some
          { refcount := 1, caller := 0, context := context,
            stack := s.brk + P.sizeof_coro + 1, stack_size := CORO_DEFAULT_STACK_SIZE,
            env := entry_context P (s.brk + 1) (s.brk + P.sizeof_coro + 1)
              CORO_DEFAULT_STACK_SIZE,
            start := start })
      bufs := Function.update s.bufs (s.brk + P.sizeof_coro + 1)
          (some CORO_DEFAULT_STACK_SIZE)
      brk := s.brk + P.sizeof_coro + CORO_DEFAULT_STACK_SIZE
      alloc_trace := s.alloc_trace ++ [s.brk + 1] },
    ?_, ?_, ?_, ?_, rfl, rfl, rfl, rfl, rfl⟩
  · unfold coro_new coro_alloc coro_setup calloc
    simp [State.obj, State.store, hin, hin2, hstart, hsz, coro.zero]
  · unfold State.obj
    simp [hin2]
  · intro b hb
    simp [Function.update_noteq hb]
  · intro b hb
    have hr : 0 < b ∧ b ≤ s.brk := by
      unfold State.obj at hb
      by_contra hcon
      simp [hcon] at hb
    have hne : b ≠ s.brk + 1 := by omega
    have hr2 : 0 < b ∧ b ≤ s.brk + P.sizeof_coro + CORO_DEFAULT_STACK_SIZE := by omega
    unfold State.obj
    simp [hr, hr2, Function.update_noteq hne]

@[simp] theorem printf_obj (o : Out) (s : Mem) (a : Nat) : (printf o s).obj a = s.obj a := rfl

@[simp] theorem printf_context (o : Out) (s : Mem) :
    (printf o s).client.context = s.client.context := rfl

@[simp] theorem printf_out (o : Out) (s : Mem) :
    (printf o s).client.out = s.client.out ++ [o] := rfl

theorem coro_stack_remaining_fields {s s2 : State υ δ} {a a2 : Nat} {c c2 : coro υ}
    (d p : Nat) (h : s.obj a = some c) (h2 : s2.obj a2 = some c2)
    (hst : c2.stack = c.stack) (hsz : c2.stack_size = c.stack_size) :
    coro_stack_remaining d p a2 s2 = coro_stack_remaining d p a s := by
  unfold coro_stack_remaining
  simp [h, h2, hst, hsz]

theorem coro_stack_remaining_ok {s : State υ δ} {a : Nat} {c : coro υ} (d p : Nat)
    (h : s.obj a = some c) : ∃ v, coro_stack_remaining d p a s = .ok v := by
  unfold coro_stack_remaining
  simp only [h]
  split <;> exact ⟨_, rfl⟩

/-- The loop body of `first_coro`/`second_coro` when the stack check passes. -/
theorem alternate_loop_ok (S : StackModel) (one : Bool) (self other : Nat) (num stack : Int)
    (s : Mem) (tc : task_context) (cs co : coro Pt) (v : Nat)
    (hctx : s.client.context = tc)
    (hself : (if one then tc.first else tc.second) = self)
    (hother : (if one then tc.second else tc.first) = other)
    (hs : s.obj self = some cs) (ho : s.obj other = some co) (hne : other ≠ self)
    (hv : coro_stack_remaining (S.dummy cs.stack cs.stack_size) (S.sp cs.stack cs.stack_size)
      self s = .ok v)
    (hstack : (stack % (WORD : Int)).toNat = v) :
    alternate_loop S one self addr_context num stack s = .ok (.transfer
      { state := (printf (if one then .coro_one num else .coro_two num) s).store self
          { cs with env := .saved (.user
              (if one then .first_yielded_second self addr_context (wrap_int (num + 1)) stack
               else .second_yielded_first self addr_context (wrap_int (num + 1)) stack)) }
        target := other
        resume := co.env }) := by
  have hs1 : ∀ o, (printf o s).obj self = some cs := fun o => hs
  have ho1 : ∀ o, (printf o s).obj other = some co := fun o => ho
  unfold alternate_loop
  cases one
  · simp only [Bool.false_eq_true, if_false] at hself hother ⊢
    simp only [read_context, if_true, hctx, hs, hself, hv, hstack, ne_eq, not_true_eq_false,
      if_false, hother]
    rw [coro_yieldto_live _ (hs1 _) (ho1 _)]
    simp [leave, hne]
  · simp only [if_true] at hself hother ⊢
    simp only [read_context, if_true, hctx, hs, hself, hv, hstack, ne_eq, not_true_eq_false,
      if_false, hother]
    rw [coro_yieldto_live _ (hs1 _) (ho1 _)]
    simp [leave, hne]

theorem alternating_store_B {u0 : Pt} {A B C : Nat} {cA cB cC : coro Pt}
    {envB envC : ucontext Pt} {out : List Out} {s : Mem}
    (h : Alternating u0 A B C cA cB cC envB envC out s) (hAB : A ≠ B) (hBC : B ≠ C)
    (env : ucontext Pt) :
    Alternating u0 A B C cA cB cC env envC out (s.store B { cB with env := env }) where
  context_eq := h.context_eq
  out_eq := h.out_eq
  objA := by rw [obj_store_ne _ hAB]; exact h.objA
  objB := obj_store_of_obj _ h.objB
  objC := by rw [obj_store_ne _ (Ne.symm hBC)]; exact h.objC

theorem alternating_store_C {u0 : Pt} {A B C : Nat} {cA cB cC : coro Pt}
    {envB envC : ucontext Pt} {out : List Out} {s : Mem}
    (h : Alternating u0 A B C cA cB cC envB envC out s) (hAC : A ≠ C) (hBC : B ≠ C)
    (env : ucontext Pt) :
    Alternating u0 A B C cA cB cC envB env out (s.store C { cC with env := env }) where
  context_eq := h.context_eq
  out_eq := h.out_eq
  objA := by rw [obj_store_ne _ hAC]; exact h.objA
  objB := by rw [obj_store_ne _ hBC]; exact h.objB
  objC := obj_store_of_obj _ h.objC

theorem alternating_printf {u0 : Pt} {A B C : Nat} {cA cB cC : coro Pt}
    {envB envC : ucontext Pt} {out : List Out} {s : Mem}
    (h : Alternating u0 A B C cA cB cC envB envC out s) (o : Out) :
    Alternating u0 A B C cA cB cC envB envC (out ++ [o]) (printf o s) where
  context_eq := h.context_eq
  out_eq := by rw [printf_out, h.out_eq]
  objA := h.objA
  objB := h.objB
  objC := h.objC

/-- `first_coro` resumed after `coro_yieldto(self, context->second)` with
`num` not above the bound: it writes its line and transfers to `C`. -/
theorem step_first_again (P : Platform) (T : TestParams) (S : StackModel) {u0 : Pt}
    {A B C : Nat} {cA cB cC : coro Pt} {envB envC : ucontext Pt} {out : List Out} {s : Mem}
    (h : Alternating u0 A B C cA cB cC envB envC out s) (hAB : A ≠ B) (hBC : B ≠ C)
    (num stack : Int) (v : Nat)
    (hv : coro_stack_remaining (S.dummy cB.stack cB.stack_size) (S.sp cB.stack cB.stack_size)
      B s = .ok v)
    (hstack : (stack % (WORD : Int)).toNat = v) (hnum : ¬ num > T.k_two_coro_max) :
    ∃ s2, step P T S (.active (.saved (.user (.first_yielded_second B addr_context num stack))) s)
        = .active envC s2
      ∧ Alternating u0 A B C cA cB cC
          (.saved (.user (.first_yielded_second B addr_context (wrap_int (num + 1)) stack)))
          envC (out ++ [.coro_one num]) s2 := by
  have hloop := alternate_loop_ok S true B C num stack s ⟨A, B, C⟩ _ _ v h.context_eq rfl rfl
    h.objB h.objC (Ne.symm hBC) hv hstack
  refine ⟨_, ?_, alternating_store_B (alternating_printf h (.coro_one num)) hAB hBC _⟩
  simp only [step, continue_at, resume_at, alternate_resumed, hnum, if_false, hloop, if_true]

/-- `second_coro` resumed after `coro_yieldto(self, context->first)` with
`num` not above the bound: it writes its line and transfers to `B`. -/
theorem step_second_again (P : Platform) (T : TestParams) (S : StackModel) {u0 : Pt}
    {A B C : Nat} {cA cB cC : coro Pt} {envB envC : ucontext Pt} {out : List Out} {s : Mem}
    (h : Alternating u0 A B C cA cB cC envB envC out s) (hAC : A ≠ C) (hBC : B ≠ C)
    (num stack : Int) (v : Nat)
    (hv : coro_stack_remaining (S.dummy cC.stack cC.stack_size) (S.sp cC.stack cC.stack_size)
      C s = .ok v)
    (hstack : (stack % (WORD : Int)).toNat = v) (hnum : ¬ num > T.k_two_coro_max) :
    ∃ s2, step P T S (.active (.saved (.user (.second_yielded_first C addr_context num stack))) s)
        = .active envB s2
      ∧ Alternating u0 A B C cA cB cC envB
          (.saved (.user (.second_yielded_first C addr_context (wrap_int (num + 1)) stack)))
          (out ++ [.coro_two num]) s2 := by
  have hloop := alternate_loop_ok S false C B num stack s ⟨A, B, C⟩ _ _ v h.context_eq rfl rfl
    h.objC h.objB hBC hv hstack
  refine ⟨_, ?_, alternating_store_C (alternating_printf h (.coro_two num)) hAC hBC _⟩
  simp only [step, continue_at, resume_at, alternate_resumed, hnum, if_false, hloop,
    Bool.false_eq_true]

/-- `first_coro` resumed with `num` above the bound: it transfers to `A`. -/
theorem step_first_done (P : Platform) (T : TestParams) (S : StackModel) {u0 : Pt}
    {A B C : Nat} {cA cB cC : coro Pt} {envB envC : ucontext Pt} {out : List Out} {s : Mem}
    (h : Alternating u0 A B C cA cB cC envB envC out s) (hAB : A ≠ B) (hBC : B ≠ C)
    (num stack : Int) (hnum : num > T.k_two_coro_max) :
    ∃ s2, step P T S (.active (.saved (.user (.first_yielded_second B addr_context num stack))) s)
        = .active (.saved (.user u0)) s2
      ∧ Alternating u0 A B C cA cB cC
          (.saved (.user (.first_yielded_main B addr_context num stack))) envC out s2 := by
  refine ⟨_, ?_, alternating_store_B h hAB hBC _⟩
  simp only [step, continue_at, resume_at, alternate_resumed, hnum, if_true, read_context,
    h.context_eq, coro_yieldto_live _ h.objB h.objA, leave, hAB, if_false]

/-- `coro_call(self, next)` for a `next` without caller. -/
theorem coro_call_fresh {s : State υ δ} {self next : Nat} {cs cn : coro υ} (k : Flow υ)
    (hs : s.obj self = some cs) (hn : s.obj next = some cn) (h0 : cn.caller = 0)
    (hne : next ≠ self) :
    coro_call self next k s = .ok
      { state := ((s.store self { cs with refcount := (cs.refcount + 1) % WORD }).store next
            { cn with caller := self }).store self
            { cs with refcount := (cs.refcount + 1) % WORD, env := .saved k }
        target := next
        resume := cn.env } := by
  have hself0 := obj_ne_zero hs
  have hdiff : cn.caller ≠ self := by rw [h0]; exact Ne.symm hself0
  have hrel : coro_release cn.caller s = .ok s := by rw [h0]; exact coro_release_null s
  have hn2 : (s.store self { cs with refcount := (cs.refcount + 1) % WORD }).obj next
      = some cn := by rw [obj_store_ne _ hne]; exact hn
  have hset := coro_set_caller_change hn hdiff hrel (coro_retain_live hs) hn2
  have hs3 : ((s.store self { cs with refcount := (cs.refcount + 1) % WORD }).store next
      { cn with caller := self }).obj self
      = some { cs with refcount := (cs.refcount + 1) % WORD } := by
    rw [obj_store_ne _ (Ne.symm hne)]
    exact obj_store_of_obj _ hs
  rw [coro_call_unfold k hself0 (obj_ne_zero hn), hset]
  simp only
  rw [swapcontext_env_of k hs3 (obj_store_of_obj _ hn2)]
  simp [hne]

theorem step_entry_context (P : Platform) (T : TestParams) (S : StackModel) (self stack size : Nat)
    (s : Mem) (htr : P.x86_64 = true → coro_entry_64 (selfHi self) (selfLo self) = self) :
    step P T S (.active (entry_context P self stack size) s) =
      match coro_entry (call_start P S) self s with
      | .error h => .halted h
      | .ok t => .active t.resume t.state := by
  cases hx : P.x86_64
  · simp [entry_context, hx, step, enter_made]
  · simp [entry_context, hx, step, enter_made, htr hx]

theorem call_start_first (P : Platform) (S : StackModel) (self context : Nat) (s : Mem) :
    call_start P S fn_first_coro self context s = alternate_coro S true self context s := by
  unfold call_start
  rw [if_neg (by decide), if_neg (by decide), if_neg (by decide), if_neg (by decide),
    if_pos rfl]

theorem call_start_second (P : Platform) (S : StackModel) (self context : Nat) (s : Mem) :
    call_start P S fn_second_coro self context s = alternate_coro S false self context s := by
  unfold call_start
  rw [if_neg (by decide), if_neg (by decide), if_neg (by decide), if_neg (by decide),
    if_neg (by decide), if_pos rfl]

/-- `coro_entry` on a coroutine with a start function. -/
theorem coro_entry_live
    (call : Nat → Nat → Nat → State υ δ → Except (Fault υ δ) (Outcome υ δ))
    {self : Nat} {s : State υ δ} {c : coro υ} (h : s.obj self = some c) (hstart : c.start ≠ 0) :
    coro_entry call self s =
      match call c.start self c.context s with
      | .error f => .error (.fault f)
      | .ok (.transfer t) => .ok t
      | .ok (.returned s1) => .error (.return_error s1)
      | .ok (.aborted s1) => .error (.client_abort s1) := by
  unfold coro_entry
  simp only [h, hstart, if_false]

/-- Activation of the entry context of a coroutine whose pointer is
marshalled faithfully: the start function is called. -/
theorem step_entry_live (P : Platform) (T : TestParams) (S : StackModel)
    (self stack size : Nat) (s : Mem) (c : coro Pt) (f context : Nat)
    (htr : P.x86_64 = true → coro_entry_64 (selfHi self) (selfLo self) = self)
    (h : s.obj self = some c) (hstart : c.start = f) (hcontext : c.context = context)
    (hf : f ≠ 0) :
    step P T S (.active (entry_context P self stack size) s) =
      match call_start P S f self context s with
      | .error e => .halted (.fault e)
      | .ok (.transfer t) => .active t.resume t.state
      | .ok (.returned s1) => .halted (.return_error s1)
      | .ok (.aborted s1) => .halted (.client_abort s1) := by
  subst hstart hcontext
  rw [step_entry_context P T S self _ _ s htr, coro_entry_live _ h hf]
  cases call_start P S c.start self c.context s with
  | error e => rfl
  | ok o => cases o <;> rfl

/-- The first activation of `first_coro`. -/
theorem step_first_entry (P : Platform) (T : TestParams) (S : StackModel) {u0 : Pt}
    {A B C : Nat} {cA cB cC : coro Pt} {envC : ucontext Pt} {out : List Out} {s : Mem}
    (h : Alternating u0 A B C cA cB cC (entry_context P B cB.stack cB.stack_size) envC out s)
    (hAB : A ≠ B) (hBC : B ≠ C)
    (hstart : cB.start = fn_first_coro) (hcontext : cB.context = addr_context)
    (htr : P.x86_64 = true → coro_entry_64 (selfHi B) (selfLo B) = B) (v : Nat)
    (hv : coro_stack_remaining (S.dummy cB.stack cB.stack_size) (S.sp cB.stack cB.stack_size)
      B s = .ok v)
    (hfit : (wrap_int v % (WORD : Int)).toNat = v) :
    ∃ s2, step P T S (.active (entry_context P B cB.stack cB.stack_size) s) = .active envC s2
      ∧ Alternating u0 A B C cA cB cC
          (.saved (.user (.first_yielded_second B addr_context (wrap_int (1 + 1)) (wrap_int v))))
          envC (out ++ [.coro_one 1]) s2 := by
  have hloop := alternate_loop_ok S true B C 1 (wrap_int v) s ⟨A, B, C⟩ _ _ v h.context_eq
    rfl rfl h.objB h.objC (Ne.symm hBC) hv hfit
  refine ⟨_, ?_, alternating_store_B (alternating_printf h (.coro_one 1)) hAB hBC _⟩
  rw [step_entry_live P T S B _ _ s _ fn_first_coro addr_context htr h.objB hstart hcontext
    (by decide), call_start_first]
  simp only [alternate_coro, read_context, if_true, h.context_eq, h.objB, hv, hloop]

/-- The first activation of `second_coro`. -/
theorem step_second_entry (P : Platform) (T : TestParams) (S : StackModel) {u0 : Pt}
    {A B C : Nat} {cA cB cC : coro Pt} {envB : ucontext Pt} {out : List Out} {s : Mem}
    (h : Alternating u0 A B C cA cB cC envB (entry_context P C cC.stack cC.stack_size) out s)
    (hAC : A ≠ C) (hBC : B ≠ C)
    (hstart : cC.start = fn_second_coro) (hcontext : cC.context = addr_context)
    (htr : P.x86_64 = true → coro_entry_64 (selfHi C) (selfLo C) = C) (v : Nat)
    (hv : coro_stack_remaining (S.dummy cC.stack cC.stack_size) (S.sp cC.stack cC.stack_size)
      C s = .ok v)
    (hfit : (wrap_int v % (WORD : Int)).toNat = v) :
    ∃ s2, step P T S (.active (entry_context P C cC.stack cC.stack_size) s) = .active envB s2
      ∧ Alternating u0 A B C cA cB cC envB
          (.saved (.user (.second_yielded_first C addr_context (wrap_int (1 + 1)) (wrap_int v))))
          (out ++ [.coro_two 1]) s2 := by
  have hloop := alternate_loop_ok S false C B 1 (wrap_int v) s ⟨A, B, C⟩ _ _ v h.context_eq
    rfl rfl h.objC h.objB hBC hv hfit
  refine ⟨_, ?_, alternating_store_C (alternating_printf h (.coro_two 1)) hAC hBC _⟩
  rw [step_entry_live P T S C _ _ s _ fn_second_coro addr_context htr h.objC hstart hcontext
    (by decide), call_start_second]
  simp only [alternate_coro, read_context, if_true, h.context_eq, h.objC, hv, hloop,
    Bool.false_eq_true, if_false]

theorem run_add (P : Platform) (T : TestParams) (S : StackModel) (a b : Nat) (c : Config) :
    run P T S (a + b) c = run P T S b (run P T S a c) := by
  induction a generalizing c with
  | zero => simp [run]
  | succ n ih =>
    rw [Nat.succ_add]
    simp only [run]
    exact ih _

theorem run_one (P : Platform) (T : TestParams) (S : StackModel) (c : Config) :
    run P T S 1 c = step P T S c := rfl

theorem run_two (P : Platform) (T : TestParams) (S : StackModel) (c : Config) :
    run P T S 2 c = step P T S (step P T S c) := rfl

theorem wrap_int_of_fits {x : Int} (h0 : -2147483648 ≤ x) (h1 : x ≤ 2147483647) :
    wrap_int x = x := by
  unfold wrap_int
  omega

theorem wrap_int_max : wrap_int (2147483647 + 1) = -2147483648 := by
  decide

theorem alternating_succ (n : Nat) :
    alternating (n + 1)
      = alternating n ++ [.coro_one ((n + 1 : Nat) : Int), .coro_two ((n + 1 : Nat) : Int)] :=
  rfl

/-- The alternating test after `i` rounds, `1 ≤ i ≤ N`: `2 i` activations
after the activation of `B` by `coro_call(A, B)`, `B` is about to be
resumed, and both coroutines have written their lines `1 .. i`. -/
theorem alternating_rounds (P : Platform) (T : TestParams) (S : StackModel) (N : Nat)
    (hT : T.k_two_coro_max = (N : Int)) (hN : N ≤ 2147483647)
    {u0 : Pt} {A B C : Nat} {cA cB cC : coro Pt} {out : List Out} {s : Mem}
    (h : Alternating u0 A B C cA cB cC (entry_context P B cB.stack cB.stack_size)
      (entry_context P C cC.stack cC.stack_size) out s)
    (hAB : A ≠ B) (hAC : A ≠ C) (hBC : B ≠ C)
    (hstartB : cB.start = fn_first_coro) (hcontextB : cB.context = addr_context)
    (hstartC : cC.start = fn_second_coro) (hcontextC : cC.context = addr_context)
    (htrB : P.x86_64 = true → coro_entry_64 (selfHi B) (selfLo B) = B)
    (htrC : P.x86_64 = true → coro_entry_64 (selfHi C) (selfLo C) = C)
    (vB vC : Nat)
    (hvB : coro_stack_remaining (S.dummy cB.stack cB.stack_size) (S.sp cB.stack cB.stack_size)
      B s = .ok vB)
    (hvC : coro_stack_remaining (S.dummy cC.stack cC.stack_size) (S.sp cC.stack cC.stack_size)
      C s = .ok vC)
    (hfitB : (wrap_int vB % (WORD : Int)).toNat = vB)
    (hfitC : (wrap_int vC % (WORD : Int)).toNat = vC) :
    ∀ i, 1 ≤ i → i ≤ N →
      ∃ s2, run P T S (2 * i) (.active (entry_context P B cB.stack cB.stack_size) s)
          = .active (.saved (.user (.first_yielded_second B addr_context
              (wrap_int ((i : Int) + 1)) (wrap_int vB)))) s2
        ∧ Alternating u0 A B C cA cB cC
            (.saved (.user (.first_yielded_second B addr_context
              (wrap_int ((i : Int) + 1)) (wrap_int vB))))
            (.saved (.user (.second_yielded_first C addr_context
              (wrap_int ((i : Int) + 1)) (wrap_int vC))))
            (out ++ alternating i) s2 := by
  have hprobeB : ∀ {eB eC : ucontext Pt} {o : List Out} {s2 : Mem},
      Alternating u0 A B C cA cB cC eB eC o s2 →
      coro_stack_remaining (S.dummy cB.stack cB.stack_size) (S.sp cB.stack cB.stack_size)
        B s2 = .ok vB := by
    intro eB eC o s2 h2
    rw [coro_stack_remaining_fields _ _ h.objB h2.objB rfl rfl, hvB]
  have hprobeC : ∀ {eB eC : ucontext Pt} {o : List Out} {s2 : Mem},
      Alternating u0 A B C cA cB cC eB eC o s2 →
      coro_stack_remaining (S.dummy cC.stack cC.stack_size) (S.sp cC.stack cC.stack_size)
        C s2 = .ok vC := by
    intro eB eC o s2 h2
    rw [coro_stack_remaining_fields _ _ h.objC h2.objC rfl rfl, hvC]
  intro i hi
  induction i, hi using Nat.le_induction with
  | base =>
    intro _
    obtain ⟨s1, hstep1, h1⟩ := step_first_entry P T S h hAB hBC hstartB hcontextB htrB vB hvB hfitB
    obtain ⟨s2, hstep2, h2⟩ := step_second_entry P T S h1 hAC hBC hstartC hcontextC htrC vC
      (hprobeC h1) hfitC
    refine ⟨s2, ?_, ?_⟩
    · show run P T S 2 _ = _
      rw [run_two, hstep1, hstep2]
      simp
    · have : alternating 1 = [.coro_one 1, .coro_two 1] := rfl
      rw [this]
      simpa using h2
  | succ n hn ih =>
    intro hle
    obtain ⟨s1, hrun, h1⟩ := ih (by omega)
    have hnum : ¬ wrap_int ((n : Int) + 1) > T.k_two_coro_max := by
      rw [hT, wrap_int_of_fits (by omega) (by omega)]
      omega
    have hw : wrap_int ((n : Int) + 1) = ((n + 1 : Nat) : Int) := by
      rw [wrap_int_of_fits (by omega) (by omega)]
      push_cast
      rfl
    obtain ⟨s2, hstep2, h2⟩ := step_first_again P T S h1 hAB hBC _ (wrap_int vB) vB
      (hprobeB h1) hfitB hnum
    obtain ⟨s3, hstep3, h3⟩ := step_second_again P T S h2 hAC hBC _ (wrap_int vC) vC
      (hprobeC h2) hfitC hnum
    refine ⟨s3, ?_, ?_⟩
    · have : 2 * (n + 1) = 2 * n + 2 := by ring
      rw [this, run_add, hrun, run_two, hstep2, hstep3, hw]
    · rw [alternating_succ, ← hw]
      simpa [List.append_assoc] using h3

/-- `coro_call(A, B)` at the start of the alternating test, followed by `N`
rounds. -/
theorem alternating_run (P : Platform) (T : TestParams) (S : StackModel) (N : Nat)
    (hT : T.k_two_coro_max = (N : Int)) (hN1 : 1 ≤ N) (hN : N ≤ 2147483647)
    (u0 : Pt) {A B C : Nat} {cA cB cC : coro Pt} {s : Mem}
    (h : AlternatingStart P S A B C cA cB cC s) :
    ∃ t, ∃ vB vC : Nat, ∃ s2, coro_call A B (.user u0) s = .ok t ∧ t.target = B
      ∧ run P T S (2 * N) (.active t.resume t.state)
          = .active (.saved (.user (.first_yielded_second B addr_context
              (wrap_int ((N : Int) + 1)) (wrap_int vB)))) s2
      ∧ Alternating u0 A B C { cA with refcount := (cA.refcount + 1) % WORD }
          { cB with caller := A } cC
          (.saved (.user (.first_yielded_second B addr_context
            (wrap_int ((N : Int) + 1)) (wrap_int vB))))
          (.saved (.user (.second_yielded_first C addr_context
            (wrap_int ((N : Int) + 1)) (wrap_int vC))))
          (s.client.out ++ alternating N) s2
      ∧ coro_stack_remaining (S.dummy cB.stack cB.stack_size) (S.sp cB.stack cB.stack_size)
          B s2 = .ok vB
      ∧ coro_stack_remaining (S.dummy cC.stack cC.stack_size) (S.sp cC.stack cC.stack_size)
          C s2 = .ok vC
      ∧ (wrap_int vB % (WORD : Int)).toNat = vB
      ∧ (wrap_int vC % (WORD : Int)).toNat = vC := by
  have hcall := coro_call_fresh (.user u0) h.objA h.objB h.callerB (Ne.symm h.neAB)
  obtain ⟨vB, hvB⟩ := coro_stack_remaining_ok (S.dummy cB.stack cB.stack_size)
    (S.sp cB.stack cB.stack_size) h.objB
  obtain ⟨vC, hvC⟩ := coro_stack_remaining_ok (S.dummy cC.stack cC.stack_size)
    (S.sp cC.stack cC.stack_size) h.objC
  have hfitB := h.fitB vB hvB
  have hfitC := h.fitC vC hvC
  have hobjA : (((s.store A { cA with refcount := (cA.refcount + 1) % WORD }).store B
      { cB with caller := A }).store A
      { cA with refcount := (cA.refcount + 1) % WORD, env := .saved (.user u0) }).obj A
      = some { cA with refcount := (cA.refcount + 1) % WORD, env := .saved (.user u0) } := by
    apply obj_store_self
    have := obj_range h.objA
    simpa using this
  have hobjB : (((s.store A { cA with refcount := (cA.refcount + 1) % WORD }).store B
      { cB with caller := A }).store A
      { cA with refcount := (cA.refcount + 1) % WORD, env := .saved (.user u0) }).obj B
      = some { cB with caller := A } := by
    rw [obj_store_ne _ (Ne.symm h.neAB)]
    apply obj_store_self
    have := obj_range h.objB
    simpa using this
  have hobjC : (((s.store A { cA with refcount := (cA.refcount + 1) % WORD }).store B
      { cB with caller := A }).store A
      { cA with refcount := (cA.refcount + 1) % WORD, env := .saved (.user u0) }).obj C
      = some cC := by
    rw [obj_store_ne _ (Ne.symm h.neAC), obj_store_ne _ (Ne.symm h.neBC),
      obj_store_ne _ (Ne.symm h.neAC)]
    exact h.objC
  have halt : Alternating u0 A B C { cA with refcount := (cA.refcount + 1) % WORD }
      { cB with caller := A } cC
      (entry_context P B cB.stack cB.stack_size) (entry_context P C cC.stack cC.stack_size)
      s.client.out
      (((s.store A { cA with refcount := (cA.refcount + 1) % WORD }).store B
        { cB with caller := A }).store A
        { cA with refcount := (cA.refcount + 1) % WORD, env := .saved (.user u0) }) := by
    refine ⟨h.context_eq, rfl, hobjA, ?_, ?_⟩
    · rw [hobjB, ← h.envB]
    · rw [hobjC, ← h.envC]
  have hvB2 := (coro_stack_remaining_fields (S.dummy cB.stack cB.stack_size)
    (S.sp cB.stack cB.stack_size) h.objB hobjB rfl rfl).trans hvB
  have hvC2 := (coro_stack_remaining_fields (S.dummy cC.stack cC.stack_size)
    (S.sp cC.stack cC.stack_size) h.objC hobjC rfl rfl).trans hvC
  obtain ⟨s2, hrun, hinv⟩ := alternating_rounds P T S N hT hN halt h.neAB h.neAC h.neBC
    h.startB h.contextB h.startC h.contextC h.marshalB h.marshalC vB vC hvB2 hvC2 hfitB hfitC
    N hN1 (Nat.le_refl N)
  refine ⟨_, vB, vC, s2, hcall, ?_, ?_, hinv, ?_, ?_, hfitB, hfitC⟩
  · rfl
  · rw [← hrun, h.envB]
  · exact (coro_stack_remaining_fields (S.dummy cB.stack cB.stack_size)
      (S.sp cB.stack cB.stack_size) h.objB hinv.objB rfl rfl).trans hvB
  · exact (coro_stack_remaining_fields (S.dummy cC.stack cC.stack_size)
      (S.sp cC.stack cC.stack_size) h.objC hinv.objC rfl rfl).trans hvC

theorem alternating_length (n : Nat) : (alternating n).length = 2 * n := by
  induction n with
  | zero => rfl
  | succ n ih => rw [alternating_succ, List.length_append, ih]; simp; ring

theorem alternating_lines (n : Nat) :
    ∀ i, i < n →
      (alternating n)[2 * i]? = some (.coro_one ((i + 1 : Nat) : Int))
      ∧ (alternating n)[2 * i + 1]? = some (.coro_two ((i + 1 : Nat) : Int)) := by
  induction n with
  | zero => intro i hi; omega
  | succ n ih =>
    intro i hi
    rw [alternating_succ]
    by_cases hin : i < n
    · obtain ⟨h1, h2⟩ := ih i hin
      have hl := alternating_length n
      constructor
      · rw [List.getElem?_append_left (by omega)]; exact h1
      · rw [List.getElem?_append_left (by omega)]; exact h2
    · have hi2 : i = n := by omega
      subst hi2
      have hl := alternating_length i
      constructor
      · rw [List.getElem?_append_right (by omega), hl]
        simp
      · rw [List.getElem?_append_right (by omega), hl]
        have : 2 * i + 1 - 2 * i = 1 := by omega
        rw [this]
        simp

/-- C7 (amended): in a memory in which the alternating test starts
(`AlternatingStart`) and for a bound `1 ≤ N < INT_MAX`, `coro_call(A, B)`
returns a transfer to `B`, and `2 N + 1` activations later the flow of `A` is
resumed at the point after its `coro_call`; the output written in between is
`coro one: 1`, `coro two: 1`, ..., `coro one: N`, `coro two: N`; the caller
of `B` is `A` and `C` has no caller. -/
theorem alternating_test (P : Platform) (T : TestParams) (S : StackModel) (N : Nat)
    (hT : T.k_two_coro_max = (N : Int)) (hN1 : 1 ≤ N) (hN2 : N < 2147483647)
    (u0 : Pt) (A B C : Nat) (cA cB cC : coro Pt) (s : Mem)
    (h : AlternatingStart P S A B C cA cB cC s) :
    ∃ t s3, coro_call A B (.user u0) s = .ok t ∧ t.target = B
      ∧ run P T S (2 * N + 1) (.active t.resume t.state) = .active (.saved (.user u0)) s3
      ∧ s3.env_at A = some (.saved (.user u0))
      ∧ s3.client.out = s.client.out ++ alternating N
      ∧ (alternating N).length = 2 * N
      ∧ (∀ i, i < N →
          (alternating N)[2 * i]? = some (.coro_one ((i + 1 : Nat) : Int))
          ∧ (alternating N)[2 * i + 1]? = some (.coro_two ((i + 1 : Nat) : Int)))
      ∧ s3.caller_at B = some A
      ∧ s3.caller_at C = some 0 := by
  obtain ⟨t, vB, vC, s2, hcall, htarget, hrun, hinv, _, _, _, _⟩ :=
    alternating_run P T S N hT hN1 (by omega) u0 h
  have hnum : wrap_int ((N : Int) + 1) > T.k_two_coro_max := by
    rw [hT, wrap_int_of_fits (by omega) (by omega)]
    omega
  obtain ⟨s3, hstep, hinv3⟩ := step_first_done P T S hinv h.neAB h.neBC _ (wrap_int vB) hnum
  refine ⟨t, s3, hcall, htarget, ?_, ?_, hinv3.out_eq, alternating_length N,
    alternating_lines N, ?_, ?_⟩
  · rw [run_add, hrun, run_one, hstep]
  · simp [State.env_at, hinv3.objA]
  · simp [State.caller_at, hinv3.objB]
  · simp [State.caller_at, hinv3.objC, h.callerC]

/-- With `k_two_coro_max = INT_MAX` the increment of `num` wraps, `num`
never exceeds the bound, and `first_coro` goes on: `2 N + 1` activations
after `coro_call(A, B)` it has written a further line and transferred to `C`.
-/
theorem alternating_wraps (P : Platform) (T : TestParams) (S : StackModel)
    (hT : T.k_two_coro_max = 2147483647)
    (u0 : Pt) (A B C : Nat) (cA cB cC : coro Pt) (s : Mem)
    (h : AlternatingStart P S A B C cA cB cC s) :
    ∃ t s3 stackB stackC, coro_call A B (.user u0) s = .ok t
      ∧ run P T S (2 * 2147483647 + 1) (.active t.resume t.state)
          = .active (.saved (.user (.second_yielded_first C addr_context (-2147483648) stackC)))
              s3
      ∧ s3.env_at B = some (.saved (.user
          (.first_yielded_second B addr_context (-2147483647) stackB)))
      ∧ s3.client.out
          = s.client.out ++ alternating 2147483647 ++ [.coro_one (-2147483648)] := by
  obtain ⟨t, vB, vC, s2, hcall, _, hrun, hinv, hvB, hvC, hfitB, hfitC⟩ :=
    alternating_run P T S 2147483647 (by rw [hT]; rfl) (by omega) (by omega) u0 h
  have hw : wrap_int (((2147483647 : Nat) : Int) + 1) = -2147483648 := by decide
  rw [hw] at hrun hinv
  have hnum : ¬ (-2147483648 : Int) > T.k_two_coro_max := by rw [hT]; omega
  have hvB2 : coro_stack_remaining (S.dummy ({ cB with caller := A } : coro Pt).stack
      ({ cB with caller := A } : coro Pt).stack_size)
      (S.sp ({ cB with caller := A } : coro Pt).stack
        ({ cB with caller := A } : coro Pt).stack_size) B s2 = .ok vB := hvB
  obtain ⟨s3, hstep, hinv3⟩ := step_first_again P T S hinv h.neAB h.neBC (-2147483648)
    (wrap_int vB) vB hvB2 hfitB hnum
  refine ⟨t, s3, wrap_int vB, wrap_int vC, hcall, ?_, ?_, hinv3.out_eq⟩
  · rw [run_add, hrun, run_one, hstep]
  · have : wrap_int (-2147483647) = -2147483647 := by decide
    simp [State.env_at, hinv3.objB, this]

theorem alternate_state_start :
    AlternatingStart linux_x86_64 downward 6299649 6300633 6432689
      example_A example_B example_C (alternate_state linux_x86_64) where
  objA := by decide
  objB := by decide
  objC := by decide
  neAB := by decide
  neAC := by decide
  neBC := by decide
  context_eq := by decide
  callerB := rfl
  callerC := rfl
  envB := rfl
  envC := rfl
  startB := rfl
  startC := rfl
  contextB := rfl
  contextC := rfl
  marshalB := fun _ => by decide
  marshalC := fun _ => by decide
  fitB := by
    intro v hv
    have h : coro_stack_remaining (downward.dummy example_B.stack example_B.stack_size)
        (downward.sp example_B.stack example_B.stack_size) 6300633
        (alternate_state linux_x86_64) = .ok 130912 := by rfl
    rw [h] at hv
    cases hv
    decide
  fitC := by
    intro v hv
    have h : coro_stack_remaining (downward.dummy example_C.stack example_C.stack_size)
        (downward.sp example_C.stack example_C.stack_size) 6432689
        (alternate_state linux_x86_64) = .ok 130912 := by rfl
    rw [h] at hv
    cases hv
    decide

/-- Instance of `alternating_test`: the test as `main` sets it up, with the
bound 5 of `tests.c`. -/
theorem alternating_test_witness :
    ∃ t s3, coro_call 6299649 6300633 (.user (.main_called_first 6299649))
        (alternate_state linux_x86_64) = .ok t ∧ t.target = 6300633
      ∧ run linux_x86_64 tests_c downward (2 * 5 + 1) (.active t.resume t.state)
          = .active (.saved (.user (.main_called_first 6299649))) s3
      ∧ s3.env_at 6299649 = some (.saved (.user (.main_called_first 6299649)))
      ∧ s3.client.out = (alternate_state linux_x86_64).client.out ++ alternating 5
      ∧ (alternating 5).length = 2 * 5
      ∧ (∀ i, i < 5 →
          (alternating 5)[2 * i]? = some (.coro_one ((i + 1 : Nat) : Int))
          ∧ (alternating 5)[2 * i + 1]? = some (.coro_two ((i + 1 : Nat) : Int)))
      ∧ s3.caller_at 6300633 = some 6299649
      ∧ s3.caller_at 6432689 = some 0 :=
  alternating_test linux_x86_64 tests_c downward 5 rfl (by decide) (by decide)
    (.main_called_first 6299649) 6299649 6300633 6432689 example_A example_B example_C
    (alternate_state linux_x86_64) alternate_state_start

/-- C7 (counterexample): with the bound `N = INT_MAX = 2147483647`, `2 N + 1`
activations after `coro_call(A, B)` control is not back in `A`: `first_coro`
has written a line after the `2 N` lines of the claim, `coro one:
-2147483648`, and has transferred to `C`. -/
theorem alternating_test_int_max :
    ∃ t s3 stackB stackC,
      coro_call 6299649 6300633 (.user (.main_called_first 6299649))
        (alternate_state linux_x86_64) = .ok t
      ∧ run linux_x86_64 tests_int_max downward (2 * 2147483647 + 1)
          (.active t.resume t.state)
          = .active (.saved (.user
              (.second_yielded_first 6432689 addr_context (-2147483648) stackC))) s3
      ∧ s3.env_at 6300633 = some (.saved (.user
          (.first_yielded_second 6300633 addr_context (-2147483647) stackB)))
      ∧ s3.client.out = (alternate_state linux_x86_64).client.out
          ++ alternating 2147483647 ++ [.coro_one (-2147483648)] :=
  alternating_wraps linux_x86_64 tests_int_max downward rfl
    (.main_called_first 6299649) 6299649 6300633 6432689 example_A example_B example_C
    (alternate_state linux_x86_64) alternate_state_start

/-! ## The fibonacci test -/

/-- `coro_release` of a bare coroutine without caller whose count is one:
the object is destroyed and nothing else changes. -/
theorem coro_release_last_bare {s : State υ δ} {a : Nat} {c : coro υ}
    (h : s.obj a = some c) (hr : c.refcount = 1) (hcaller : c.caller = 0)
    (hstack : c.stack = 0) :
    ∃ s2, coro_release a s = .ok s2 ∧ s2.obj a = none
      ∧ (∀ b, b ≠ a → s2.obj b = s.obj b)
      ∧ s2.brk = s.brk ∧ s2.client = s.client ∧ s2.bufs = s.bufs
      ∧ s2.alloc_trace = s.alloc_trace
      ∧ s2.dealloc_trace = s.dealloc_trace ++ [a] := by
  have h0 : (c.refcount + WORD - 1) % WORD = 0 := by rw [hr]; decide
  refine ⟨{ (s.store a { c with refcount := 0 }) with
      heap := Function.update (s.store a { c with refcount := 0 }).heap a none
      dealloc_trace := s.dealloc_trace ++ [a] }, ?_, ?_, ?_, rfl, rfl, rfl, rfl, rfl⟩
  · rw [coro_release_unfold h, h0, if_pos (Nat.le_refl 0)]
    unfold coro_dealloc coro_dealloc_with
    simp only [obj_store_of_obj _ h, hcaller, coro_release_null, hstack]
    simp [free]
  · unfold State.obj
    simp
  · intro b hb
    unfold State.obj State.store
    simp [Function.update_noteq hb]

/-- `coro_run(next)` when `next` has no caller, or when its caller is a bare
coroutine without caller that only this link still references (the anchor
of an earlier `coro_run`): a new anchor becomes the caller of `next`, the old
one is destroyed, and the context of `next` is activated. -/
theorem coro_run_anchor (P : Platform) (next : Nat) (u : υ) (s : State υ δ) (cn : coro υ)
    (hn : s.obj next = some cn)
    (hold : cn.caller = 0 ∨ ∃ co, s.obj cn.caller = some co ∧ co.refcount = 1
      ∧ co.caller = 0 ∧ co.stack = 0 ∧ cn.caller ≠ next) :
    ∃ t, coro_run P next u s = .ok t ∧ t.target = next ∧ t.resume = cn.env
      ∧ t.state.obj next = some { cn with caller := s.brk + 1 }
      ∧ t.state.obj (s.brk + 1)
          = some (coro.anchor 2 (.saved (.in_coro_run (s.brk + 1) u)))
      ∧ s.brk + 1 ≠ next
      ∧ t.state.client = s.client := by
  obtain ⟨s1, hnew, hanchor, _, hexist, hbrk, _, _, _, hclient⟩ := coro_new_bare P s
  have hrn := obj_range hn
  have hne : next ≠ s.brk + 1 := by omega
  have hn1 : s1.obj next = some cn := by rw [hexist next (by rw [hn]; simp), hn]
  have hrun : coro_run P next u s
      = coro_call (s.brk + 1) next (.in_coro_run (s.brk + 1) u) s1 := by
    unfold coro_run
    simp [hnew]
  rw [hrun]
  rcases hold with h0 | ⟨co, hco, hr, hcc, hcs, hcn⟩
  · rw [coro_call_fresh _ hanchor hn1 h0 hne]
    refine ⟨_, rfl, rfl, rfl, ?_, ?_, Ne.symm hne, ?_⟩
    · simp only
      rw [obj_store_ne _ hne]
      exact obj_store_of_obj _ (by rw [obj_store_ne _ hne]; exact hn1)
    · simp only
      have : (1 + 1) % WORD = 2 := by decide
      rw [obj_store_self _ (by have := obj_range hanchor; simpa using this)]
      simp [coro.zero, coro.anchor, this]
    · exact hclient
  · have hro := obj_range hco
    have hoa : cn.caller ≠ s.brk + 1 := by omega
    have hco1 : s1.obj cn.caller = some co := by rw [hexist _ (by rw [hco]; simp), hco]
    obtain ⟨s2, hrel, hgone, hkeep, _, hclient2, _⟩ := coro_release_last_bare hco1 hr hcc hcs
    have ha2 : s2.obj (s.brk + 1) = some { (coro.zero : coro υ) with refcount := 1 } := by
      rw [hkeep _ (Ne.symm hoa), hanchor]
    have hn2 : s2.obj next = some cn := by rw [hkeep _ (Ne.symm hcn), hn1]
    have hn3 : (s2.store (s.brk + 1)
        { ({ (coro.zero : coro υ) with refcount := 1 } : coro υ) with
          refcount := (1 + 1) % WORD }).obj next = some cn := by
      rw [obj_store_ne _ hne, hn2]
    have hset := coro_set_caller_change hn1 (Ne.symm (by omega : s.brk + 1 ≠ cn.caller)) hrel
      (coro_retain_live ha2) hn3
    have ha4 : ((s2.store (s.brk + 1)
        { ({ (coro.zero : coro υ) with refcount := 1 } : coro υ) with
          refcount := (1 + 1) % WORD }).store next { cn with caller := s.brk + 1 }).obj
        (s.brk + 1) = some { ({ (coro.zero : coro υ) with refcount := 1 } : coro υ) with
          refcount := (1 + 1) % WORD } := by
      rw [obj_store_ne _ (Ne.symm hne)]
      exact obj_store_of_obj _ ha2
    rw [coro_call_unfold _ (by omega) (obj_ne_zero hn), hset]
    simp only
    rw [swapcontext_env_of _ ha4 (obj_store_of_obj _ hn3)]
    refine ⟨_, rfl, rfl, ?_, ?_, ?_, Ne.symm hne, ?_⟩
    · simp [hne]
    · simp only
      rw [obj_store_ne _ hne]
      exact obj_store_of_obj _ hn3
    · simp only
      have : (1 + 1) % WORD = 2 := by decide
      rw [obj_store_of_obj _ ha4]
      simp [coro.zero, coro.anchor, this]
    · simp only [store_client]
      rw [hclient2, hclient]

/-- `coro_yield(self)` to a mapped caller other than `self`. -/
theorem coro_yield_facts {s : State υ δ} {self caller : Nat} {c cc : coro υ}
    (k : Flow υ) (hs : s.obj self = some c) (hcaller : c.caller = caller)
    (hc : s.obj caller = some cc) (hne : caller ≠ self) :
    ∃ t, coro_yield self k s = .ok t ∧ t.target = caller ∧ t.resume = cc.env
      ∧ t.state.obj self = some { c with env := .saved k }
      ∧ (∀ b, b ≠ self → t.state.obj b = s.obj b)
      ∧ t.state.client = s.client := by
  refine ⟨_, coro_yield_live k hs hcaller hc, rfl, ?_, obj_store_of_obj _ hs,
    fun b hb => obj_store_ne _ hb, rfl⟩
  simp [hne]

theorem call_start_fibonacci (P : Platform) (S : StackModel) (self context : Nat) (s : Mem) :
    call_start P S fn_fibonacci_coro self context s = fibonacci_coro self context s := by
  unfold call_start
  rw [if_neg (by decide), if_pos rfl]

/-- The generator runs its next pass and yields to the anchor. -/
theorem step_fib_loop (P : Platform) (T : TestParams) (S : StackModel) {u : Pt}
    {fib anchor : Nat} {cF : coro Pt} {pt : Pt} {number : Int} {out : List Out} {s : Mem}
    (previous current : Int)
    (h : GeneratorWaiting u fib anchor cF (.saved (.user pt)) number out s)
    (hpt : FibPoint fib previous current pt) :
    ∃ s2, step P T S (.active (.saved (.user pt)) s) = .active (.saved (.in_coro_run anchor u)) s2
      ∧ GeneratorWaiting u fib anchor cF
          (.saved (.user (.fib_yielded fib addr_number current (wrap_int (current + previous)))))
          (wrap_int (current + previous)) out s2 := by
  have hstep : step P T S (.active (.saved (.user pt)) s)
      = match fibonacci_loop fib addr_number previous current s with
        | .error f => .halted (.fault f)
        | .ok (.transfer t) => .active t.resume t.state
        | .ok (.aborted s1) => .halted (.client_abort s1)
        | .ok (.returned s1) => .halted (.return_error s1) := by
    rcases hpt with rfl | rfl
    · simp only [step, continue_at, resume_at]
      cases fibonacci_loop fib addr_number previous current s with
      | error e => rfl
      | ok o => cases o <;> rfl
    · simp only [step, continue_at, resume_at]
      cases fibonacci_loop fib addr_number previous current s with
      | error e => rfl
      | ok o => cases o <;> rfl
  have hF : ({ s with client := { s.client with number := wrap_int (current + previous) } }
      : Mem).obj fib = some { cF with caller := anchor, env := .saved (.user pt) } := h.objF
  have hA : ({ s with client := { s.client with number := wrap_int (current + previous) } }
      : Mem).obj anchor = some (coro.anchor 2 (.saved (.in_coro_run anchor u))) := h.objA
  obtain ⟨t, hy, _, hres, hF2, hkeep, hclient⟩ := coro_yield_facts
    (.user (.fib_yielded fib addr_number current (wrap_int (current + previous)))) hF rfl hA h.ne
  refine ⟨t.state, ?_, ?_⟩
  · rw [hstep]
    simp only [fibonacci_loop, if_true, hy, leave, hres]
    rfl
  · refine ⟨hF2, ?_, h.ne, ?_, ?_⟩
    · rw [hkeep _ h.ne]; exact hA
    · rw [hclient]
    · rw [hclient]; exact h.out_eq

/-- The first activation of the generator. -/
theorem step_fib_entry (P : Platform) (T : TestParams) (S : StackModel) {u : Pt}
    {fib anchor : Nat} {cF : coro Pt} {number : Int} {out : List Out} {s : Mem}
    (h : GeneratorWaiting u fib anchor cF (entry_context P fib cF.stack cF.stack_size)
      number out s)
    (hstart : cF.start = fn_fibonacci_coro) (hcontext : cF.context = addr_number)
    (htr : P.x86_64 = true → coro_entry_64 (selfHi fib) (selfLo fib) = fib) :
    ∃ s2, step P T S (.active (entry_context P fib cF.stack cF.stack_size) s)
        = .active (.saved (.in_coro_run anchor u)) s2
      ∧ GeneratorWaiting u fib anchor cF
          (.saved (.user (.fib_yielded_first fib addr_number 0 1))) 1 out s2 := by
  have hF : ({ s with client := { s.client with number := 1 } } : Mem).obj fib
      = some { cF with caller := anchor,
                       env := entry_context P fib cF.stack cF.stack_size } := h.objF
  have hA : ({ s with client := { s.client with number := 1 } } : Mem).obj anchor
      = some (coro.anchor 2 (.saved (.in_coro_run anchor u))) := h.objA
  obtain ⟨t, hy, _, hres, hF2, hkeep, hclient⟩ := coro_yield_facts
    (.user (.fib_yielded_first fib addr_number 0 1)) hF rfl hA h.ne
  refine ⟨t.state, ?_, ?_⟩
  · rw [step_entry_live P T S fib _ _ s _ fn_fibonacci_coro addr_number htr h.objF hstart
      hcontext (by decide), call_start_fibonacci]
    simp only [fibonacci_coro, if_true, hy, leave, hres]
    rfl
  · refine ⟨hF2, ?_, h.ne, ?_, ?_⟩
    · rw [hkeep _ h.ne]; exact hA
    · rw [hclient]
    · rw [hclient]; exact h.out_eq

/-- `main` resumed inside `coro_run(fib)`: the anchor is released, the
number is written, and, the number being below the bound, `coro_run(fib)` is
called again. -/
theorem step_main_fib (P : Platform) (T : TestParams) (S : StackModel)
    {self fib anchor : Nat} {cF : coro Pt} {envF : ucontext Pt} {number : Int}
    {out : List Out} {s : Mem}
    (h : GeneratorWaiting (.main_ran_fib self fib) fib anchor cF envF number out s)
    (hnum : number < T.k_fibonnaci_max) :
    ∃ anchor2 s2,
      step P T S (.active (.saved (.in_coro_run anchor (.main_ran_fib self fib))) s)
        = .active envF s2
      ∧ GeneratorWaiting (.main_ran_fib self fib) fib anchor2 cF envF number
          (out ++ [.fibonacci number]) s2 := by
  have hrel : coro_release anchor s = .ok (s.store anchor
      (coro.anchor 1 (.saved (.in_coro_run anchor (.main_ran_fib self fib))))) := by
    have h1 : ((coro.anchor 2 (.saved (.in_coro_run anchor (.main_ran_fib self fib)))
        : coro Pt).refcount + WORD - 1) % WORD = 1 := by
      show (2 + WORD - 1) % WORD = 1
      decide
    rw [coro_release_unfold h.objA, h1, if_neg (by decide)]
    rfl
  have hA1 : (printf (.fibonacci number) (s.store anchor
      (coro.anchor 1 (.saved (.in_coro_run anchor (.main_ran_fib self fib)))))).obj anchor
      = some (coro.anchor 1 (.saved (.in_coro_run anchor (.main_ran_fib self fib)))) :=
    obj_store_of_obj _ h.objA
  have hF1 : (printf (.fibonacci number) (s.store anchor
      (coro.anchor 1 (.saved (.in_coro_run anchor (.main_ran_fib self fib)))))).obj fib
      = some { cF with caller := anchor, env := envF } := by
    rw [printf_obj, obj_store_ne _ (Ne.symm h.ne)]
    exact h.objF
  obtain ⟨t, hrun, _, hresume, hF2, hA2, hne2, hclient⟩ := coro_run_anchor P fib
    (.main_ran_fib self fib) _ _ hF1 (Or.inr ⟨_, hA1, rfl, rfl, rfl, h.ne⟩)
  refine ⟨_, t.state, ?_, ⟨hF2, hA2, hne2, ?_, ?_⟩⟩
  · simp only [step, coro_run_resumed, hrel, continue_at, resume_at, main_fib_loop]
    have hn : (printf (.fibonacci (s.store anchor
        (coro.anchor 1 (.saved (.in_coro_run anchor (.main_ran_fib self fib))))).client.number)
        (s.store anchor
          (coro.anchor 1 (.saved (.in_coro_run anchor (.main_ran_fib self fib)))))).client.number
        < T.k_fibonnaci_max := by
      show s.client.number < _
      rw [h.number_eq]; exact hnum
    rw [if_pos hn]
    have : (s.store anchor
        (coro.anchor 1 (.saved (.in_coro_run anchor (.main_ran_fib self fib))))).client.number
        = number := h.number_eq
    rw [this, hrun]
    simp only [leave, hresume]
  · rw [hclient]; exact h.number_eq
  · rw [hclient, printf_out]
    show s.client.out ++ _ = _
    rw [h.out_eq]

theorem fibonacci_lines_succ (n : Nat) :
    fibonacci_lines (n + 1) = fibonacci_lines n ++ [.fibonacci (Nat.fib (n + 1) : Nat)] := by
  unfold fibonacci_lines
  rw [List.range_succ, List.map_append]
  rfl

theorem fib_fits_of_le {m n : Nat} (h : m ≤ n) (hn : Nat.fib n < 2147483648) :
    Nat.fib m < 2147483648 :=
  Nat.lt_of_le_of_lt (Nat.fib_mono h) hn

/-- The fibonacci test from the first `coro_run(fib)`: `2 n - 1` activations
later the generator has been resumed `n` times, `main` is about to continue
inside `coro_run`, and the result cell holds the `n`-th Fibonacci number. -/
theorem fibonacci_rounds (P : Platform) (T : TestParams) (S : StackModel)
    {self fib anchor : Nat} {cF : coro Pt} {out : List Out} {s : Mem}
    (h : GeneratorWaiting (.main_ran_fib self fib) fib anchor cF
      (entry_context P fib cF.stack cF.stack_size) 0 out s)
    (hstart : cF.start = fn_fibonacci_coro) (hcontext : cF.context = addr_number)
    (htr : P.x86_64 = true → coro_entry_64 (selfHi fib) (selfLo fib) = fib) :
    ∀ n, 1 ≤ n → (∀ i, i < n → (Nat.fib i : Int) < T.k_fibonnaci_max) →
      Nat.fib n < 2147483648 →
      ∃ anchor2 pt s2,
        run P T S (2 * n - 1) (.active (entry_context P fib cF.stack cF.stack_size) s)
          = .active (.saved (.in_coro_run anchor2 (.main_ran_fib self fib))) s2
        ∧ FibPoint fib (Nat.fib (n - 1) : Nat) (Nat.fib n : Nat) pt
        ∧ GeneratorWaiting (.main_ran_fib self fib) fib anchor2 cF (.saved (.user pt))
            (Nat.fib n : Nat) (out ++ fibonacci_lines (n - 1)) s2 := by
  intro n hn
  induction n, hn using Nat.le_induction with
  | base =>
    intro _ _
    obtain ⟨s2, hstep, hinv⟩ := step_fib_entry P T S h hstart hcontext htr
    refine ⟨anchor, _, s2, ?_, Or.inl rfl, ?_⟩
    · show run P T S 1 _ = _
      rw [run_one, hstep]
    · simpa [fibonacci_lines] using hinv
  | succ n hn ih =>
    intro hM hfit
    obtain ⟨a1, pt, s1, hrun, hpt, hinv⟩ := ih (fun i hi => hM i (by omega))
      (fib_fits_of_le (by omega) hfit)
    obtain ⟨a2, s2, hstep2, hinv2⟩ := step_main_fib P T S hinv (hM n (by omega))
    obtain ⟨s3, hstep3, hinv3⟩ := step_fib_loop P T S _ _ hinv2 hpt
    have hfib : Nat.fib (n + 1) = Nat.fib (n - 1) + Nat.fib n := by
      obtain ⟨m, rfl⟩ : ∃ m, n = m + 1 := ⟨n - 1, by omega⟩
      rw [Nat.fib_add_two]
      rfl
    have hw : wrap_int (((Nat.fib n : Nat) : Int) + ((Nat.fib (n - 1) : Nat) : Int))
        = ((Nat.fib (n + 1) : Nat) : Int) := by
      rw [wrap_int_of_fits (by omega) (by omega), hfib]
      push_cast
      ring
    rw [hw] at hinv3
    refine ⟨a2, _, s3, ?_, Or.inr (by rw [Nat.add_sub_cancel]), ?_⟩
    · have : 2 * (n + 1) - 1 = (2 * n - 1) + 2 := by omega
      rw [this, run_add, hrun, run_two, hstep2, hstep3]
    · have hl : fibonacci_lines (n + 1 - 1) = fibonacci_lines (n - 1)
          ++ [.fibonacci (Nat.fib n : Nat)] := by
        obtain ⟨m, rfl⟩ : ∃ m, n = m + 1 := ⟨n - 1, by omega⟩
        exact fibonacci_lines_succ m
      rw [hl, ← List.append_assoc]
      exact hinv3

theorem generator_state_start :
    GeneratorStart linux_x86_64 6299649 example_fib (generator_state linux_x86_64) where
  objF := by decide
  callerF := rfl
  envF := rfl
  startF := rfl
  contextF := rfl
  marshalF := by unfold Platform.decodes; decide
  number_eq := rfl

/-- C6: in a memory in which `main` enters the loop of the fibonacci test
with a generator at an address that `coro_entry_64` reassembles
(`GeneratorStart`: any address without `__x86_64__`, bit 31 clear with it),
for every `n ≥ 1` such that the loop has not stopped before the `n`-th pass
(`F i < k_fibonnaci_max` for `i < n`, `F 0 = 0` being the initial `number`)
and `F n` fits in `int`: the loop calls `coro_run(fib)`, and `2 n - 1`
activations later the generator has been resumed `n` times, `main` is about
to continue inside `coro_run`, the result cell holds `F n`, and the loop has
written `F 1, ..., F (n - 1)`.  For the constants of `tests.c`, from
`0x602000`, the whole program writes `1, 1, 2, 3, 5, 8, 13, 21` in the
fibonacci test and goes on to the next test.  Failing input: when the
allocator starts at `0x7FFDF477` on x86_64, `simple` lies below `2 ^ 31` and
the generator at `0x80000000`, whose bit 31 is set; the program writes the
two lines of the simple test, the first `coro_run(fib)` activates the entry
context with the halves `0` and `0x80000000`, and the activation faults in
`coro_entry`: no line of the fibonacci test is written.  Without
`__x86_64__` the program writes the expected output from the same address.
Likewise for a generator created at `0x55D5C8A312A1`: on x86_64 the
activation after the first `coro_run(fib)` faults, while from `0x602000`, and
without `__x86_64__`, it runs `fibonacci_coro`, which stores `1` in the
result cell. -/
theorem fibonacci_spec :
    (∀ (P : Platform) (T : TestParams) (S : StackModel) (self fib : Nat) (cF : coro Pt)
        (s : Mem) (n : Nat),
      GeneratorStart P fib cF s → 1 ≤ n →
      (∀ i, i < n → (Nat.fib i : Int) < T.k_fibonnaci_max) → Nat.fib n < 2147483648 →
      ∃ t anchor s2, main_fib_loop P T self fib s = .ok (.transfer t) ∧ t.target = fib
        ∧ run P T S (2 * n - 1) (.active t.resume t.state)
            = .active (.saved (.in_coro_run anchor (.main_ran_fib self fib))) s2
        ∧ s2.client.number = (Nat.fib n : Nat)
        ∧ s2.client.out = s.client.out ++ fibonacci_lines (n - 1))
    ∧ (Nat.fib 1 = 1 ∧ Nat.fib 2 = 1 ∧ ∀ n, Nat.fib (n + 2) = Nat.fib n + Nat.fib (n + 1))
    ∧ (run linux_x86_64 tests_c downward 39 (boot 0x602000)).has_exited = true
    ∧ (run linux_x86_64 tests_c downward 39 (boot 0x602000)).out = some expected_output
    ∧ (¬ linux_x86_64.decodes 0x80000000
      ∧ (run linux_x86_64 tests_c downward 5 (boot 0x7FFDF477)).out
          = some [.simple_coro, .simple_coro]
      ∧ (run linux_x86_64 tests_c downward 5 (boot 0x7FFDF477)).resume
          = some (.made 0x800003D8 CORO_DEFAULT_STACK_SIZE 0 0 .coro_entry_64
              [selfHi 0x80000000, selfLo 0x80000000])
      ∧ coro_entry_64 (selfHi 0x80000000) (selfLo 0x80000000) = 0xFFFFFFFF80000000
      ∧ (run linux_x86_64 tests_c downward 6 (boot 0x7FFDF477)).out = none
      ∧ (run other_target tests_c downward 39 (boot 0x7FFDF477)).out
          = some expected_output)
    ∧ (¬ linux_x86_64.decodes 0x55D5C8A312A1
      ∧ generator_entered linux_x86_64 downward 0x55D5C8A312A0
          = some (.error (.fault .invalid_access))
      ∧ (generator_entered linux_x86_64 downward 0x602000).map
          (fun r => (state_after r).map (fun m => m.client.number)) = some (some 1)
      ∧ (generator_entered other_target downward 0x55D5C8A312A0).map
          (fun r => (state_after r).map (fun m => m.client.number)) = some (some 1)) := by
  refine ⟨?_, ⟨rfl, rfl, fun n => Nat.fib_add_two⟩, by decide, by decide,
    ⟨by unfold Platform.decodes; decide, by decide, by decide, by decide, by decide,
      by decide⟩,
    ⟨by unfold Platform.decodes; decide, by rfl, by decide, by decide⟩⟩
  intro P T S self fib cF s n h hn hM hfit
  have h0 : s.client.number < T.k_fibonnaci_max := by
    rw [h.number_eq]
    simpa using hM 0 (by omega)
  obtain ⟨t, hrun, htarget, hresume, hF, hA, hne, hclient⟩ := coro_run_anchor P fib
    (.main_ran_fib self fib) s cF h.objF (Or.inl h.callerF)
  have hinv : GeneratorWaiting (.main_ran_fib self fib) fib (s.brk + 1) cF
      (entry_context P fib cF.stack cF.stack_size) 0 s.client.out t.state := by
    refine ⟨?_, hA, hne, ?_, ?_⟩
    · rw [hF, ← h.envF]
    · rw [hclient]; exact h.number_eq
    · rw [hclient]
  obtain ⟨a2, pt, s2, hrounds, _, hinv2⟩ := fibonacci_rounds P T S hinv h.startF h.contextF
    (fun hx => coro_entry_64_of_bit31_clear fib (h.marshalF hx).1 (h.marshalF hx).2)
    n hn hM hfit
  refine ⟨t, a2, s2, ?_, htarget, ?_, hinv2.number_eq, hinv2.out_eq⟩
  · unfold main_fib_loop
    rw [if_pos h0, hrun]
    rfl
  · rw [hresume, h.envF]
    exact hrounds

/-- Instance of `fibonacci_spec`: the generator of `generator_state`, the
constants of `tests.c`, `n = 8`: the result cell holds 21 and the loop has
written `1, 1, 2, 3, 5, 8, 13`. -/
theorem fibonacci_spec_witness :
    ∃ t anchor s2,
      main_fib_loop linux_x86_64 tests_c 1 6299649 (generator_state linux_x86_64)
        = .ok (.transfer t) ∧ t.target = 6299649
      ∧ run linux_x86_64 tests_c downward (2 * 8 - 1) (.active t.resume t.state)
          = .active (.saved (.in_coro_run anchor (.main_ran_fib 1 6299649))) s2
      ∧ s2.client.number = (Nat.fib 8 : Nat)
      ∧ s2.client.out = (generator_state linux_x86_64).client.out ++ fibonacci_lines (8 - 1) :=
  fibonacci_spec.1 linux_x86_64 tests_c downward 1 6299649 example_fib
    (generator_state linux_x86_64) 8 generator_state_start (by decide)
    (by intro i hi; interval_cases i <;> decide) (by decide)

/-! ## Counting references -/

theorem obj_none_of_gt {s : State υ δ} {a : Nat} (h : s.brk < a) : s.obj a = none := by
  unfold State.obj
  rw [if_neg (by omega)]

theorem link_of_none {s : State υ δ} (Z : Finset Nat) {g : Nat} (a : Nat)
    (h : s.obj g = none) : link s Z g a = 0 := by
  unfold link
  rw [h]

theorem link_of_some {s : State υ δ} (Z : Finset Nat) {g : Nat} {c : coro υ} (a : Nat)
    (h : s.obj g = some c) : link s Z g a = if g ∉ Z ∧ c.caller = a then 1 else 0 := by
  unfold link
  rw [h]

theorem link_nonneg (s : State υ δ) (Z : Finset Nat) (g a : Nat) : 0 ≤ link s Z g a := by
  unfold link
  split
  · split <;> decide
  · decide

/-- The sum may run over any initial segment that contains the mapped
addresses. -/
theorem links_eq_sum (s : State υ δ) (Z : Finset Nat) (a n : Nat) (hn : s.brk + 1 ≤ n) :
    links s Z a = ∑ g in Finset.range n, link s Z g a := by
  unfold links
  apply Finset.sum_subset
  · intro g hg
    rw [Finset.mem_range] at hg ⊢
    omega
  · intro g _ hg
    rw [Finset.mem_range] at hg
    exact link_of_none Z a (obj_none_of_gt (by omega))

/-- Two memories whose links into `a` agree except at `g0`. -/
theorem links_update {s t : State υ δ} {Z Y : Finset Nat} (g0 a : Nat)
    (hbrk : s.brk ≤ t.brk)
    (h : ∀ g, g ≠ g0 → link t Y g a = link s Z g a) :
    links t Y a = links s Z a - link s Z g0 a + link t Y g0 a := by
  rw [links_eq_sum s Z a (t.brk + 1) (by omega)]
  unfold links
  have hpt : ∀ g ∈ Finset.range (t.brk + 1), link t Y g a
      = link s Z g a + (if g = g0 then link t Y g0 a - link s Z g0 a else 0) := by
    intro g _
    by_cases hg : g = g0
    · subst hg; simp
    · simp [hg, h g hg]
  rw [Finset.sum_congr rfl hpt, Finset.sum_add_distrib, Finset.sum_ite_eq']
  by_cases hmem : g0 ∈ Finset.range (t.brk + 1)
  · rw [if_pos hmem]; ring
  · rw [if_neg hmem]
    rw [Finset.mem_range] at hmem
    rw [link_of_none Z a (obj_none_of_gt (by omega) : s.obj g0 = none),
      link_of_none Y a (obj_none_of_gt (by omega) : t.obj g0 = none)]
    ring

/-- Two memories with the same links into `a`. -/
theorem links_congr {s t : State υ δ} {Z Y : Finset Nat} (a : Nat)
    (hbrk : s.brk ≤ t.brk) (h : ∀ g, link t Y g a = link s Z g a) :
    links t Y a = links s Z a := by
  have := links_update (Z := Z) (Y := Y) 0 a hbrk (fun g _ => h g)
  rw [this, h 0]
  ring

theorem exists_link_of_pos {s : State υ δ} {Z : Finset Nat} {a : Nat}
    (h : 1 ≤ links s Z a) : ∃ g c, s.obj g = some c ∧ g ∉ Z ∧ c.caller = a := by
  unfold links at h
  have hne : ∑ g in Finset.range (s.brk + 1), link s Z g a ≠ 0 := by omega
  obtain ⟨g, _, hg⟩ := Finset.exists_ne_zero_of_sum_ne_zero hne
  cases hc : s.obj g with
  | none => exact absurd (link_of_none Z a hc) hg
  | some c =>
    rw [link_of_some Z a hc] at hg
    by_cases hcond : g ∉ Z ∧ c.caller = a
    · exact ⟨g, c, hc, hcond.1, hcond.2⟩
    · rw [if_neg hcond] at hg
      exact absurd rfl hg

theorem word_literal : (WORD : Nat) = 18446744073709551616 := by unfold WORD; norm_num

theorem pred_count {rc : Nat} {t : Int} (hrc : (rc : Int) = t % (WORD : Int)) :
    (((rc + WORD - 1) % WORD : Nat) : Int) = (t - 1) % (WORD : Int) := by
  rw [word_literal] at *
  omega

theorem succ_count {rc : Nat} {t : Int} (hrc : (rc : Int) = t % (WORD : Int)) :
    (((rc + 1) % WORD : Nat) : Int) = (t + 1) % (WORD : Int) := by
  rw [word_literal] at *
  omega

theorem counted_held {s : State υ δ} {w w2 : Held} {Z : Finset Nat} (h : Counted s w Z)
    (hw : ∀ a c, s.obj a = some c → w2 a = w a) : Counted s w2 Z := by
  constructor
  intro a c hc hz
  rw [hw a c hc]
  exact h.count a c hc hz

theorem link_store {s : State υ δ} {h : Nat} {c0 c1 : coro υ} (Z : Finset Nat) (g a : Nat)
    (hc : s.obj h = some c0) (hcaller : c1.caller = c0.caller) :
    link (s.store h c1) Z g a = link s Z g a := by
  unfold link
  rw [obj_store _ _ _ _ _ hc]
  by_cases hg : g = h
  · subst hg
    rw [if_pos rfl, hc]
    simp only [hcaller]
  · rw [if_neg hg]

theorem links_store {s : State υ δ} {h : Nat} {c0 c1 : coro υ} (Z : Finset Nat) (a : Nat)
    (hc : s.obj h = some c0) (hcaller : c1.caller = c0.caller) :
    links (s.store h c1) Z a = links s Z a :=
  links_congr a (Nat.le_refl _) (fun g => link_store Z g a hc hcaller)

/-- A store that keeps the caller link. -/
theorem counted_store {s : State υ δ} {w w2 : Held} {Z : Finset Nat} {h : Nat}
    {c0 c1 : coro υ} (hcnt : Counted s w Z) (hc : s.obj h = some c0)
    (hcaller : c1.caller = c0.caller) (hw : ∀ a, a ≠ h → w2 a = w a)
    (hh : h ∉ Z → 1 ≤ w2 h + links s Z h
      ∧ (c1.refcount : Int) = (w2 h + links s Z h) % (WORD : Int)) :
    Counted (s.store h c1) w2 Z := by
  constructor
  intro a c hca hz
  rw [links_store Z a hc hcaller]
  rw [obj_store _ _ _ _ _ hc] at hca
  by_cases ha : a = h
  · subst ha
    rw [if_pos rfl, Option.some.injEq] at hca
    subst hca
    exact hh hz
  · rw [if_neg ha] at hca
    rw [hw a ha]
    exact hcnt.count a c hca hz

theorem links_insert {s : State υ δ} {Z : Finset Nat} {h : Nat} {c0 : coro υ} (a : Nat)
    (hc : s.obj h = some c0) (hz : h ∉ Z) :
    links s (insert h Z) a = links s Z a - (if c0.caller = a then 1 else 0) := by
  rw [links_update (Z := Z) (Y := insert h Z) h a (Nat.le_refl _)]
  · rw [link_of_some Z a hc, link_of_some (insert h Z) a hc]
    simp [hz]
  · intro g hg
    unfold link
    cases s.obj g with
    | none => rfl
    | some c => simp [Finset.mem_insert, hg]

/-- When `h` starts being destroyed its caller link no longer counts; the
reference it stands for is held by `coro_dealloc` until the release. -/
theorem counted_zombify {s : State υ δ} {w : Held} {Z : Finset Nat} {h : Nat} {c0 : coro υ}
    (hcnt : Counted s w Z) (hc : s.obj h = some c0) (hz : h ∉ Z) :
    Counted s (Function.update w c0.caller (w c0.caller + 1)) (insert h Z) := by
  constructor
  intro a c hca hza
  rw [Finset.mem_insert, not_or] at hza
  have hcount := hcnt.count a c hca hza.2
  rw [links_insert a hc hz]
  by_cases hcc : c0.caller = a
  · subst hcc
    rw [Function.update_same, if_pos rfl]
    have e : w c0.caller + 1 + (links s Z c0.caller - 1) = w c0.caller + links s Z c0.caller := by
      ring
    rw [e]
    exact hcount
  · rw [Function.update_noteq (Ne.symm hcc), if_neg hcc, sub_zero]
    exact hcount

theorem obj_remove (s : State υ δ) (h a : Nat) (tr : List Nat) :
    ({ s with heap := Function.update s.heap h none, dealloc_trace := tr } : State υ δ).obj a
      = if a = h then none else s.obj a := by
  unfold State.obj
  by_cases ha : a = h
  · subst ha; simp
  · simp [ha, Function.update_noteq ha]

/-- The end of `coro_dealloc`: `free` of the stack and of the object. -/
theorem counted_remove {sa sb : State υ δ} {w : Held} {Z : Finset Nat} {h p : Nat}
    (hcnt : Counted sa w (insert h Z)) (hfr : free p sa = .ok sb) (tr : List Nat) :
    Counted { sb with heap := Function.update sb.heap h none, dealloc_trace := tr } w Z := by
  constructor
  intro a c hca hz
  rw [obj_remove] at hca
  by_cases ha : a = h
  · rw [if_pos ha] at hca; cases hca
  · rw [if_neg ha, free_obj hfr] at hca
    have hza : a ∉ insert h Z := by
      rw [Finset.mem_insert, not_or]; exact ⟨ha, hz⟩
    have hlinks : links ({ sb with heap := Function.update sb.heap h none, dealloc_trace := tr } :
        State υ δ) Z a = links sa (insert h Z) a := by
      refine links_congr (s := sa) (Z := insert h Z) a ?_ ?_
      · exact le_of_eq (free_ok hfr).2.1.symm
      intro g
      unfold link
      rw [obj_remove]
      by_cases hg : g = h
      · subst hg
        rw [if_pos rfl]
        cases sa.obj g <;> simp
      · rw [if_neg hg, free_obj hfr]
        cases sa.obj g with
        | none => rfl
        | some c => simp [Finset.mem_insert, hg]
    rw [hlinks]
    exact hcnt.count a c hca hza

theorem coro_release_fuel_zero_self (fuel : Nat) (s : State υ δ) :
    coro_release_fuel fuel 0 s = .ok s := by
  cases fuel <;> simp [coro_release_fuel]

theorem coro_release_fuel_ok {fuel h : Nat} {s s2 : State υ δ}
    (hok : coro_release_fuel fuel h s = .ok s2) (h0 : h ≠ 0) :
    ∃ n c, fuel = n + 1 ∧ s.obj h = some c ∧
      ((0 < (c.refcount + WORD - 1) % WORD
          ∧ s2 = s.store h { c with refcount := (c.refcount + WORD - 1) % WORD })
        ∨ ((c.refcount + WORD - 1) % WORD = 0
          ∧ coro_dealloc_with (coro_release_fuel n) h
              (s.store h { c with refcount := (c.refcount + WORD - 1) % WORD }) = .ok s2)) := by
  cases fuel with
  | zero =>
    unfold coro_release_fuel at hok
    rw [if_neg h0] at hok
    cases hok
  | succ n =>
    unfold coro_release_fuel at hok
    rw [if_neg h0] at hok
    cases hc : s.obj h with
    | none => simp [hc] at hok
    | some c =>
      simp only [hc] at hok
      refine ⟨n, c, rfl, rfl, ?_⟩
      split at hok
      · rename_i hr
        exact Or.inr ⟨by omega, hok⟩
      · rename_i hr
        cases hok
        exact Or.inl ⟨by omega, rfl⟩

theorem update_update_pred (w : Held) (a : Nat) :
    Function.update (Function.update w a (w a + 1)) a
      ((Function.update w a (w a + 1)) a - 1) = w := by
  funext b
  by_cases hb : b = a
  · subst hb
    rw [Function.update_same, Function.update_same]
    ring
  · rw [Function.update_noteq hb, Function.update_noteq hb]

/-- The counts stay the numbers of references across `coro_release(h)`,
which gives up one reference held from outside; `Z` are the coroutines whose
`coro_dealloc` is in progress. -/
theorem counted_release_fuel (fuel : Nat) :
    ∀ (h : Nat) (s s2 : State υ δ) (w : Held) (Z : Finset Nat),
      Counted s w Z → Zombies s Z → coro_release_fuel fuel h s = .ok s2 →
      Counted s2 (Function.update w h (w h - 1)) Z := by
  induction fuel with
  | zero =>
    intro h s s2 w Z hcnt _ hok
    unfold coro_release_fuel at hok
    split at hok
    · rename_i h0
      cases hok
      subst h0
      exact counted_held hcnt (fun a c hc => Function.update_noteq (obj_ne_zero hc) _ _)
    · cases hok
  | succ n ih =>
    intro h s s2 w Z hcnt hzo hok
    by_cases h0 : h = 0
    · subst h0
      rw [coro_release_fuel_zero_self] at hok
      cases hok
      exact counted_held hcnt (fun a c hc => Function.update_noteq (obj_ne_zero hc) _ _)
    · obtain ⟨n1, c0, hn, hc, hcase⟩ := coro_release_fuel_ok hok h0
      cases hn
      by_cases hzh : h ∈ Z
      · have hrc := hzo h c0 hc hzh
        rcases hcase with ⟨_, hs2⟩ | ⟨hr0, _⟩
        · subst hs2
          exact counted_store hcnt hc rfl (fun a ha => Function.update_noteq ha _ _)
            (fun hn => absurd hzh hn)
        · rw [hrc, word_literal] at hr0
          omega
      · obtain ⟨hge, hrc⟩ := hcnt.count h c0 hc hzh
        have hr := pred_count hrc
        rcases hcase with ⟨hpos, hs2⟩ | ⟨hr0, hd⟩
        · subst hs2
          refine counted_store hcnt hc rfl (fun a ha => Function.update_noteq ha _ _) ?_
          intro _
          rw [Function.update_same]
          have e : w h - 1 + links s Z h = w h + links s Z h - 1 := by ring
          rw [e]
          refine ⟨?_, hr⟩
          rw [word_literal] at hr hpos
          omega
        · obtain ⟨c', sa, c1, sb, hc', hrel, _, hfr, hs2⟩ := coro_dealloc_with_ok hd
          rw [obj_store_of_obj _ hc, Option.some.injEq] at hc'
          subst hc'
          have hmem : h ∈ insert h Z := Finset.mem_insert_self h Z
          have hs1 : Counted (s.store h { c0 with refcount := (c0.refcount + WORD - 1) % WORD })
              (Function.update w c0.caller (w c0.caller + 1)) (insert h Z) :=
            counted_store (counted_zombify hcnt hc hzh) hc rfl (fun _ _ => rfl)
              (fun hn => absurd hmem hn)
          have hzo1 : Zombies (s.store h { c0 with refcount := (c0.refcount + WORD - 1) % WORD })
              (insert h Z) := by
            intro a c hca hza
            rw [obj_store _ _ _ _ _ hc] at hca
            by_cases ha : a = h
            · rw [if_pos ha, Option.some.injEq] at hca
              subst hca
              exact hr0
            · rw [if_neg ha] at hca
              rw [Finset.mem_insert] at hza
              rcases hza with hza | hza
              · exact absurd hza ha
              · exact hzo a c hca hza
          have hsa := ih _ _ _ _ _ hs1 hzo1 hrel
          simp only at hsa
          rw [update_update_pred] at hsa
          subst hs2
          refine counted_held (counted_remove hsa hfr _) ?_
          intro a c hca
          rw [obj_remove] at hca
          by_cases ha : a = h
          · rw [if_pos ha] at hca; cases hca
          · exact Function.update_noteq ha _ _

/-! ## Bookkeeping of the allocator -/

theorem obj_congr {s s2 : State υ δ} (hheap : s2.heap = s.heap) (hbrk : s2.brk = s.brk)
    (a : Nat) : s2.obj a = s.obj a := by
  unfold State.obj
  rw [hheap, hbrk]

theorem tidy_congr {s s2 : State υ δ} (ht : Tidy s) (hheap : s2.heap = s.heap)
    (hbrk : s2.brk = s.brk) (ha : s2.alloc_trace = s.alloc_trace)
    (hd : s2.dealloc_trace = s.dealloc_trace) : Tidy s2 := by
  have hobj := obj_congr hheap hbrk
  constructor
  · intro a h; rw [hheap]; rw [hbrk] at h; exact ht.heap_above a h
  · rw [ha]; exact ht.alloc_nodup
  · rw [hd]; exact ht.dealloc_nodup
  · intro a h; rw [hd] at h; rw [ha, hobj]; exact ht.dealloc_dead a h
  · intro a c h; rw [hobj] at h; rw [ha]; exact ht.live_alloc a c h
  · intro a h hn; rw [ha] at h; rw [hobj] at hn; rw [hd]; exact ht.dead_dealloc a h hn
  · intro a h; rw [ha] at h; rw [hbrk]; exact ht.alloc_le a h
  · intro a c h; rw [hobj] at h; rw [hbrk]; exact ht.caller_le a c h

theorem tidy_free {s s2 : State υ δ} {p : Nat} (ht : Tidy s) (h : free p s = .ok s2) :
    Tidy s2 := by
  obtain ⟨h1, h2, h3, h4, _⟩ := free_ok h
  exact tidy_congr ht h1 h2 h3 h4

theorem tidy_store {s : State υ δ} {h : Nat} {c0 c1 : coro υ} (ht : Tidy s)
    (hc : s.obj h = some c0) (hcaller : c1.caller ≤ s.brk) : Tidy (s.store h c1) := by
  have hobj := fun b => obj_store s h b c1 c0 hc
  have hr := obj_range hc
  constructor
  · intro a ha
    rw [store_brk] at ha
    unfold State.store
    simp only
    rw [Function.update_noteq (by omega)]
    exact ht.heap_above a ha
  · exact ht.alloc_nodup
  · exact ht.dealloc_nodup
  · intro a ha
    obtain ⟨h1, h2⟩ := ht.dealloc_dead a ha
    refine ⟨h1, ?_⟩
    rw [hobj]
    by_cases hah : a = h
    · subst hah; rw [hc] at h2; cases h2
    · rw [if_neg hah]; exact h2
  · intro a c hca
    rw [hobj] at hca
    by_cases hah : a = h
    · subst hah; exact ht.live_alloc a c0 hc
    · rw [if_neg hah] at hca; exact ht.live_alloc a c hca
  · intro a ha hn
    rw [hobj] at hn
    by_cases hah : a = h
    · rw [if_pos hah] at hn; cases hn
    · rw [if_neg hah] at hn; exact ht.dead_dealloc a ha hn
  · exact ht.alloc_le
  · intro a c hca
    rw [hobj] at hca
    rw [store_brk]
    by_cases hah : a = h
    · rw [if_pos hah, Option.some.injEq] at hca
      subst hca
      exact hcaller
    · rw [if_neg hah] at hca; exact ht.caller_le a c hca

theorem tidy_remove {s : State υ δ} {h : Nat} {c1 : coro υ} (ht : Tidy s)
    (hc : s.obj h = some c1) :
    Tidy { s with heap := Function.update s.heap h none,
                  dealloc_trace := s.dealloc_trace ++ [h] } := by
  have hobj := fun b => obj_remove s h b (s.dealloc_trace ++ [h])
  have hnot : h ∉ s.dealloc_trace := by
    intro hmem
    have := (ht.dealloc_dead h hmem).2
    rw [hc] at this
    cases this
  constructor
  · intro a ha
    simp only at ha ⊢
    by_cases hah : a = h
    · subst hah; rw [Function.update_same]
    · rw [Function.update_noteq hah]; exact ht.heap_above a ha
  · exact ht.alloc_nodup
  · simp only
    rw [List.nodup_append]
    refine ⟨ht.dealloc_nodup, List.nodup_singleton h, ?_⟩
    intro a ha hb
    rw [List.mem_singleton] at hb
    subst hb
    exact hnot ha
  · intro a ha
    simp only at ha
    rw [hobj]
    rw [List.mem_append, List.mem_singleton] at ha
    rcases ha with ha | ha
    · obtain ⟨h1, h2⟩ := ht.dealloc_dead a ha
      refine ⟨h1, ?_⟩
      split
      · rfl
      · exact h2
    · subst ha
      exact ⟨ht.live_alloc a c1 hc, by rw [if_pos rfl]⟩
  · intro a c hca
    rw [hobj] at hca
    by_cases hah : a = h
    · rw [if_pos hah] at hca; cases hca
    · rw [if_neg hah] at hca; exact ht.live_alloc a c hca
  · intro a ha hn
    rw [hobj] at hn
    simp only at ha ⊢
    rw [List.mem_append, List.mem_singleton]
    by_cases hah : a = h
    · exact Or.inr hah
    · rw [if_neg hah] at hn; exact Or.inl (ht.dead_dealloc a ha hn)
  · exact ht.alloc_le
  · intro a c hca
    rw [hobj] at hca
    by_cases hah : a = h
    · rw [if_pos hah] at hca; cases hca
    · rw [if_neg hah] at hca; exact ht.caller_le a c hca

theorem tidy_release_fuel (fuel : Nat) :
    ∀ (h : Nat) (s s2 : State υ δ), Tidy s → coro_release_fuel fuel h s = .ok s2 → Tidy s2 := by
  induction fuel with
  | zero =>
    intro h s s2 ht hok
    unfold coro_release_fuel at hok
    split at hok
    · cases hok; exact ht
    · cases hok
  | succ n ih =>
    intro h s s2 ht hok
    by_cases h0 : h = 0
    · subst h0
      rw [coro_release_fuel_zero_self] at hok
      cases hok
      exact ht
    · obtain ⟨n1, c0, hn, hc, hcase⟩ := coro_release_fuel_ok hok h0
      cases hn
      have ht1 : Tidy (s.store h { c0 with refcount := (c0.refcount + WORD - 1) % WORD }) :=
        tidy_store ht hc (ht.caller_le h c0 hc)
      rcases hcase with ⟨_, hs2⟩ | ⟨_, hd⟩
      · subst hs2; exact ht1
      · obtain ⟨c', sa, c1, sb, _, hrel, hc1, hfr, hs2⟩ := coro_dealloc_with_ok hd
        have hta := ih _ _ _ ht1 hrel
        have htb := tidy_free hta hfr
        rw [← free_obj hfr] at hc1
        subst hs2
        exact tidy_remove htb hc1

/-! ## Creation -/

theorem obj_grow {s s1 : State υ δ} {cnew : coro υ} (ht : Tidy s)
    (hnew : s1.obj (s.brk + 1) = some cnew)
    (hheap : ∀ b, b ≠ s.brk + 1 → s1.heap b = s.heap b) (hbrk : s.brk < s1.brk) (b : Nat) :
    s1.obj b = if b = s.brk + 1 then some cnew else s.obj b := by
  by_cases hb : b = s.brk + 1
  · rw [if_pos hb, hb]; exact hnew
  · rw [if_neg hb]
    unfold State.obj
    rw [hheap b hb]
    by_cases h1 : 0 < b ∧ b ≤ s.brk
    · rw [if_pos h1, if_pos ⟨h1.1, by omega⟩]
    · rw [if_neg h1]
      split
      · exact ht.heap_above b (by omega)
      · rfl

theorem tidy_grow {s s1 : State υ δ} {cnew : coro υ} (ht : Tidy s)
    (hnew : s1.obj (s.brk + 1) = some cnew) (hcaller : cnew.caller = 0)
    (hheap : ∀ b, b ≠ s.brk + 1 → s1.heap b = s.heap b) (hbrk : s.brk < s1.brk)
    (halloc : s1.alloc_trace = s.alloc_trace ++ [s.brk + 1])
    (hdealloc : s1.dealloc_trace = s.dealloc_trace) : Tidy s1 := by
  have hobj := obj_grow ht hnew hheap hbrk
  have hfresh : s.brk + 1 ∉ s.alloc_trace := by
    intro hmem
    have := ht.alloc_le _ hmem
    omega
  have hdead : ∀ a, s.obj a = none → a ≠ s.brk + 1 → s1.obj a = none := by
    intro a ha hne
    rw [hobj, if_neg hne]; exact ha
  constructor
  · intro a ha
    rw [hheap a (by omega)]
    exact ht.heap_above a (by omega)
  · rw [halloc, List.nodup_append]
    refine ⟨ht.alloc_nodup, List.nodup_singleton _, ?_⟩
    intro a ha hb
    rw [List.mem_singleton] at hb
    subst hb
    exact hfresh ha
  · rw [hdealloc]; exact ht.dealloc_nodup
  · intro a ha
    rw [hdealloc] at ha
    obtain ⟨h1, h2⟩ := ht.dealloc_dead a ha
    rw [halloc]
    refine ⟨List.mem_append_left _ h1, hdead a h2 ?_⟩
    intro hne
    rw [hne] at h1
    exact hfresh h1
  · intro a c hca
    rw [halloc, List.mem_append, List.mem_singleton]
    rw [hobj] at hca
    by_cases hne : a = s.brk + 1
    · exact Or.inr hne
    · rw [if_neg hne] at hca; exact Or.inl (ht.live_alloc a c hca)
  · intro a ha hn
    rw [halloc, List.mem_append, List.mem_singleton] at ha
    rw [hdealloc]
    rw [hobj] at hn
    rcases ha with ha | ha
    · by_cases hne : a = s.brk + 1
      · rw [if_pos hne] at hn; cases hn
      · rw [if_neg hne] at hn; exact ht.dead_dealloc a ha hn
    · rw [if_pos ha] at hn; cases hn
  · intro a ha
    rw [halloc, List.mem_append, List.mem_singleton] at ha
    rcases ha with ha | ha
    · have := ht.alloc_le a ha; omega
    · omega
  · intro a c hca
    rw [hobj] at hca
    by_cases hne : a = s.brk + 1
    · rw [if_pos hne, Option.some.injEq] at hca
      subst hca
      rw [hcaller]; omega
    · rw [if_neg hne] at hca
      have := ht.caller_le a c hca
      omega

theorem counted_grow {s s1 : State υ δ} {w : Held} {cnew : coro υ} (ht : Tidy s)
    (hcnt : Counted s w ∅)
    (hnew : s1.obj (s.brk + 1) = some cnew) (hcaller : cnew.caller = 0)
    (hrc : cnew.refcount = 1)
    (hheap : ∀ b, b ≠ s.brk + 1 → s1.heap b = s.heap b) (hbrk : s.brk < s1.brk)
    (hw : w (s.brk + 1) = 0) :
    Counted s1 (Function.update w (s.brk + 1) (w (s.brk + 1) + 1)) ∅ := by
  have hobj := obj_grow ht hnew hheap hbrk
  have hlinks : ∀ a, a ≠ 0 → links s1 ∅ a = links s ∅ a := by
    intro a ha
    refine links_congr a (by omega) ?_
    intro g
    unfold link
    rw [hobj]
    by_cases hg : g = s.brk + 1
    · rw [if_pos hg, hg, obj_none_of_gt (by omega : s.brk < s.brk + 1)]
      simp only [hcaller]
      rw [if_neg]
      intro hh
      exact ha hh.2.symm
    · rw [if_neg hg]
  have hzero : links s ∅ (s.brk + 1) = 0 := by
    unfold links
    apply Finset.sum_eq_zero
    intro g _
    unfold link
    cases hc : s.obj g with
    | none => rfl
    | some c =>
      simp only
      rw [if_neg]
      intro hh
      have := ht.caller_le g c hc
      omega
  constructor
  intro a c hca hz
  rw [hobj] at hca
  rw [hlinks a (obj_ne_zero (by rw [hobj]; exact hca))]
  by_cases hne : a = s.brk + 1
  · rw [if_pos hne, Option.some.injEq] at hca
    subst hca
    rw [hne, Function.update_same, hzero, hw, hrc, word_literal]
    constructor <;> decide
  · rw [if_neg hne] at hca
    rw [Function.update_noteq hne]
    exact hcnt.count a c hca hz

theorem coro_new_no_start (P : Platform) (context : Nat) (s : State υ δ) :
    coro_new P 0 context s = coro_new P 0 0 s := by
  unfold coro_new
  simp

theorem owned_new {P : Platform} {s s1 : State υ δ} {w : Held} {start context a : Nat}
    (ho : Owned s w) (hnew : coro_new P start context s = .ok (a, s1)) :
    a = s.brk + 1 ∧ Owned s1 (Function.update w a (w a + 1)) := by
  have hfresh : s.brk + 1 ∉ s.alloc_trace := by
    intro hmem
    have := ho.tidy.alloc_le _ hmem
    omega
  have hw := ho.held_zero _ hfresh
  have hpos := P.sizeof_pos
  have key : ∀ cnew : coro υ, s1.obj (s.brk + 1) = some cnew → cnew.caller = 0 →
      cnew.refcount = 1 → (∀ b, b ≠ s.brk + 1 → s1.heap b = s.heap b) → s.brk < s1.brk →
      s1.alloc_trace = s.alloc_trace ++ [s.brk + 1] → s1.dealloc_trace = s.dealloc_trace →
      Owned s1 (Function.update w (s.brk + 1) (w (s.brk + 1) + 1)) := by
    intro cnew h1 h2 h3 h4 h5 h6 h7
    refine ⟨tidy_grow ho.tidy h1 h2 h4 h5 h6 h7, counted_grow ho.tidy ho.counted h1 h2 h3 h4 h5 hw,
      ?_⟩
    intro b hb
    rw [h6, List.mem_append, List.mem_singleton, not_or] at hb
    rw [Function.update_noteq hb.2]
    exact ho.held_zero b hb.1
  by_cases hstart : start = 0
  · subst hstart
    rw [coro_new_no_start] at hnew
    obtain ⟨s1', hnew', hobj, hheap, _, hbrk, _, halloc, hdealloc, _⟩ := coro_new_bare P s
    rw [hnew'] at hnew
    cases hnew
    exact ⟨rfl, key _ hobj rfl rfl hheap (by omega) halloc hdealloc⟩
  · obtain ⟨s1', hnew', hobj, hheap, _, hbrk, _, halloc, hdealloc, _⟩ :=
      coro_new_started P start context s hstart
    rw [hnew'] at hnew
    cases hnew
    exact ⟨rfl, key _ hobj rfl rfl hheap (by omega) halloc hdealloc⟩

/-! ## The operations keep the invariant -/

theorem owned_retain {s s1 : State υ δ} {w : Held} {h : Nat} (ho : Owned s w)
    (hret : coro_retain h s = .ok s1) :
    Owned s1 (if h = 0 then w else Function.update w h (w h + 1)) := by
  by_cases h0 : h = 0
  · subst h0
    unfold coro_retain at hret
    rw [if_pos rfl] at hret
    cases hret
    rw [if_pos rfl]
    exact ho
  · rw [if_neg h0]
    cases hc : s.obj h with
    | none =>
      unfold coro_retain at hret
      simp [h0, hc] at hret
    | some c =>
      rw [coro_retain_live hc] at hret
      cases hret
      refine ⟨tidy_store ho.tidy hc (ho.tidy.caller_le h c hc), ?_, ?_⟩
      · refine counted_store ho.counted hc rfl (fun a ha => Function.update_noteq ha _ _) ?_
        intro hz
        obtain ⟨hge, hrc⟩ := ho.counted.count h c hc hz
        rw [Function.update_same]
        have e : w h + 1 + links s ∅ h = w h + links s ∅ h + 1 := by ring
        rw [e]
        exact ⟨by omega, succ_count hrc⟩
      · intro b hb
        rw [store_alloc_trace] at hb
        have hne : b ≠ h := by
          intro hbh
          rw [hbh] at hb
          exact hb (ho.tidy.live_alloc h c hc)
        rw [Function.update_noteq hne]
        exact ho.held_zero b hb

theorem owned_release {s s1 : State υ δ} {w : Held} {h : Nat} (ho : Owned s w)
    (hrel : coro_release h s = .ok s1) :
    Owned s1 (if h = 0 then w else Function.update w h (w h - 1)) := by
  by_cases h0 : h = 0
  · subst h0
    rw [coro_release_null] at hrel
    cases hrel
    rw [if_pos rfl]
    exact ho
  · rw [if_neg h0]
    unfold coro_release at hrel
    obtain ⟨_, c, _, hc, _⟩ := coro_release_fuel_ok hrel h0
    have hoc := coro_release_fuel_only_counts _ _ _ _ hrel
    refine ⟨tidy_release_fuel _ _ _ _ ho.tidy hrel,
      counted_release_fuel _ _ _ _ _ _ ho.counted (fun _ _ _ hz => absurd hz (Finset.not_mem_empty _))
        hrel, ?_⟩
    intro b hb
    rw [hoc.2.1] at hb
    have hne : b ≠ h := by
      intro hbh
      rw [hbh] at hb
      exact hb (ho.tidy.live_alloc h c hc)
    rw [Function.update_noteq hne]
    exact ho.held_zero b hb

theorem held_relink (w : Held) (old new a : Nat) (hne : old ≠ new) (ha : a ≠ 0) :
    w a + (if new = a then 1 else 0)
      = Function.update (if old = 0 then w else Function.update w old (w old - 1)) new
          ((if old = 0 then w else Function.update w old (w old - 1)) new + 1) a
        + (if old = a then 1 else 0) := by
  by_cases h0 : old = 0
  · subst h0
    rw [if_pos rfl, if_neg (Ne.symm ha)]
    by_cases hn : new = a
    · subst hn
      rw [Function.update_same, if_pos rfl]
      ring
    · rw [Function.update_noteq (Ne.symm hn), if_neg hn]
  · rw [if_neg h0]
    by_cases hn : new = a
    · subst hn
      rw [Function.update_same, if_pos rfl, if_neg hne, Function.update_noteq (Ne.symm hne)]
      ring
    · rw [Function.update_noteq (Ne.symm hn), if_neg hn]
      by_cases ho : old = a
      · subst ho
        rw [Function.update_same, if_pos rfl]
        ring
      · rw [Function.update_noteq (Ne.symm ho), if_neg ho]

/-- A store that redirects the caller link of `g` from `old` to `new`. -/
theorem counted_relink {s : State υ δ} {w w2 : Held} {g new : Nat} {c0 c1 : coro υ}
    (hcnt : Counted s w ∅) (hc : s.obj g = some c0) (hcaller : c1.caller = new)
    (hrc : c1.refcount = c0.refcount)
    (hw : ∀ a, a ≠ 0 →
      w2 a + (if new = a then 1 else 0) = w a + (if c0.caller = a then 1 else 0)) :
    Counted (s.store g c1) w2 ∅ := by
  have hlinks : ∀ a, links (s.store g c1) ∅ a
      = links s ∅ a - (if c0.caller = a then 1 else 0) + (if new = a then 1 else 0) := by
    intro a
    rw [links_update (s := s) (t := s.store g c1) (Z := ∅) (Y := ∅) g a (Nat.le_refl _)]
    · rw [link_of_some ∅ a hc, link_of_some ∅ a (obj_store_of_obj c1 hc), hcaller]
      simp
    · intro b hb
      unfold link
      rw [obj_store_ne c1 hb]
  constructor
  intro a c hca hz
  rw [hlinks a]
  have e : w2 a + (links s ∅ a - (if c0.caller = a then 1 else 0) + (if new = a then 1 else 0))
      = w a + links s ∅ a := by
    have := hw a (obj_ne_zero hca)
    linarith
  rw [e]
  rw [obj_store _ _ _ _ _ hc] at hca
  by_cases ha : a = g
  · rw [if_pos ha, Option.some.injEq] at hca
    subst hca
    rw [hrc, ha]
    exact hcnt.count g c0 hc (Finset.not_mem_empty _)
  · rw [if_neg ha] at hca
    exact hcnt.count a c hca hz

theorem owned_set_caller {s s3 : State υ δ} {w : Held} {self caller : Nat}
    (ho : Owned s w) (hcaller : caller ≠ 0)
    (hset : coro_set_caller self caller s = .ok s3) : Owned s3 w := by
  by_cases hself : self = 0
  · subst hself
    unfold coro_set_caller at hset
    rw [if_pos rfl] at hset
    cases hset
    exact ho
  · cases hc : s.obj self with
    | none =>
      unfold coro_set_caller at hset
      simp [hself, hc] at hset
    | some c =>
      by_cases hsame : c.caller = caller
      · rw [coro_set_caller_same hc hsame] at hset
        cases hset
        exact ho
      · obtain ⟨s1, s2, c2, hrel, hret, h2, hs3⟩ := coro_set_caller_ok hc hsame hset
        have ho1 := owned_release ho hrel
        have ho2 := owned_retain ho1 hret
        rw [if_neg hcaller] at ho2
        have hoc := only_counts_trans (coro_release_only_counts hrel)
          (coro_retain_only_counts hret)
        obtain ⟨c', hc', hun⟩ := hoc.2.2.2 self c2 h2
        rw [hc] at hc'
        cases hc'
        have hcc : c2.caller = c.caller := by
          have := congrArg coro.caller hun
          simpa [coro.uncounted] using this
        cases hcl : s2.obj caller with
        | none =>
          unfold coro_retain at hret
          cases hcl1 : s1.obj caller with
          | none => simp [hcaller, hcl1] at hret
          | some cc1 =>
            simp only [hcaller, if_false, hcl1, Except.ok.injEq] at hret
            rw [← hret, obj_store_of_obj _ hcl1] at hcl
            cases hcl
        | some cc =>
          subst hs3
          refine ⟨tidy_store ho2.tidy h2 (obj_range hcl).2, ?_, ?_⟩
          · refine counted_relink ho2.counted h2 rfl rfl ?_
            intro a ha
            rw [hcc]
            exact held_relink w c.caller caller a hsame ha
          · intro b hb
            rw [store_alloc_trace, hoc.2.1] at hb
            exact ho.held_zero b hb

theorem owned_call {s : State υ δ} {w : Held} {self next : Nat} {k : Flow υ}
    {t : Transfer υ δ} (ho : Owned s w) (hcall : coro_call self next k s = .ok t) :
    Owned t.state w := by
  have hnext : next ≠ 0 := by
    intro h0
    subst h0
    unfold coro_call coro_yieldto_context at hcall
    simp at hcall
  have hself : self ≠ 0 := by
    intro h0
    subst h0
    unfold coro_call coro_yieldto_context swapcontext at hcall
    simp [hnext, State.obj] at hcall
  rw [coro_call_unfold k hself hnext] at hcall
  cases hset : coro_set_caller next self s with
  | error e => simp [hset] at hcall
  | ok s1 =>
    simp only [hset] at hcall
    have ho1 := owned_set_caller ho hself hset
    obtain ⟨cs, cn, hcs, _, ht⟩ := swapcontext_env_of_ok hcall
    subst ht
    refine ⟨tidy_store ho1.tidy hcs (ho1.tidy.caller_le self cs hcs), ?_, ho1.held_zero⟩
    refine counted_store ho1.counted hcs rfl (fun _ _ => rfl) ?_
    intro hz
    exact ho1.counted.count self cs hcs hz

theorem owned_exec_op {P : Platform} {op : Op υ} {s s1 : State υ δ} {w w1 : Held}
    (ho : Owned s w) (h : exec_op P op (s, w) = .ok (s1, w1)) : Owned s1 w1 := by
  cases op with
  | new start context =>
    unfold exec_op at h
    simp only at h
    cases hnew : coro_new P start context s with
    | error e => simp [hnew] at h
    | ok r =>
      obtain ⟨a, s2⟩ := r
      simp only [hnew, Except.ok.injEq, Prod.mk.injEq] at h
      obtain ⟨h1, h2⟩ := h
      subst h1 h2
      exact (owned_new ho hnew).2
  | retain x =>
    unfold exec_op at h
    simp only at h
    cases hret : coro_retain x s with
    | error e => simp [hret] at h
    | ok s2 =>
      simp only [hret, Except.ok.injEq, Prod.mk.injEq] at h
      obtain ⟨h1, h2⟩ := h
      subst h1 h2
      exact owned_retain ho hret
  | release x =>
    unfold exec_op at h
    simp only at h
    cases hrel : coro_release x s with
    | error e => simp [hrel] at h
    | ok s2 =>
      simp only [hrel, Except.ok.injEq, Prod.mk.injEq] at h
      obtain ⟨h1, h2⟩ := h
      subst h1 h2
      exact owned_release ho hrel
  | call self next k =>
    unfold exec_op at h
    simp only at h
    cases hcall : coro_call self next k s with
    | error e => simp [hcall] at h
    | ok t =>
      simp only [hcall, Except.ok.injEq, Prod.mk.injEq] at h
      obtain ⟨h1, h2⟩ := h
      subst h1 h2
      exact owned_call ho hcall
  | run next u =>
    unfold exec_op at h
    simp only at h
    cases hnew : coro_new P 0 0 s with
    | error e => simp [hnew] at h
    | ok r =>
      obtain ⟨a, s2⟩ := r
      simp only [hnew] at h
      cases hcall : coro_call a next (.in_coro_run a u) s2 with
      | error e => simp [hcall] at h
      | ok t =>
        simp only [hcall, Except.ok.injEq, Prod.mk.injEq] at h
        obtain ⟨h1, h2⟩ := h
        subst h1 h2
        exact owned_call (owned_new ho hnew).2 hcall

theorem owned_exec_ops {P : Platform} (ops : List (Op υ)) :
    ∀ {s s1 : State υ δ} {w w1 : Held}, Owned s w →
      exec_ops P ops (s, w) = .ok (s1, w1) → Owned s1 w1 := by
  induction ops with
  | nil =>
    intro s s1 w w1 ho h
    unfold exec_ops at h
    simp only [Except.ok.injEq, Prod.mk.injEq] at h
    obtain ⟨h1, h2⟩ := h
    subst h1 h2
    exact ho
  | cons op ops ih =>
    intro s s1 w w1 ho h
    unfold exec_ops at h
    cases hop : exec_op P op (s, w) with
    | error e => simp [hop] at h
    | ok m =>
      obtain ⟨s2, w2⟩ := m
      simp only [hop] at h
      exact ih (owned_exec_op ho hop) h

theorem owned_init (base : Nat) (d : δ) : Owned (State.init base d : State υ δ) (fun _ => 0) := by
  have hobj : ∀ a, (State.init base d : State υ δ).obj a = none := by
    intro a
    unfold State.obj State.init
    simp
  refine ⟨⟨?_, ?_, ?_, ?_, ?_, ?_, ?_, ?_⟩, ⟨?_⟩, ?_⟩
  · intro a _; rfl
  · exact List.nodup_nil
  · exact List.nodup_nil
  · intro a ha; cases ha
  · intro a c hc; rw [hobj] at hc; cases hc
  · intro a ha; cases ha
  · intro a ha; cases ha
  · intro a c hc; rw [hobj] at hc; cases hc
  · intro a c hc; rw [hobj] at hc; cases hc
  · intro a _; rfl

/-! ## The bound of the embedding is never reached -/

theorem coro_retain_ne_out_of_fuel (self : Nat) (s : State υ δ) :
    coro_retain self s ≠ .error .out_of_fuel := by
  intro h
  unfold coro_retain at h
  split at h
  · cases h
  · split at h <;> cases h

theorem coro_setup_ne_out_of_fuel (P : Platform) (self : Nat) (s : State υ δ) :
    coro_setup P self s ≠ .error .out_of_fuel := by
  intro h
  unfold coro_setup at h
  split at h
  · cases h
  · split at h <;> cases h

theorem coro_new_ne_out_of_fuel (P : Platform) (start context : Nat) (s : State υ δ) :
    coro_new P start context s ≠ .error .out_of_fuel := by
  intro h
  unfold coro_new at h
  simp only at h
  split at h
  · cases h
  · split at h
    · split at h
      · cases h
      · split at h
        · rename_i e hsetup
          cases h
          exact coro_setup_ne_out_of_fuel P _ _ hsetup
        · cases h
    · cases h

theorem coro_set_caller_ne_out_of_fuel (self caller : Nat) (s : State υ δ) :
    coro_set_caller self caller s ≠ .error .out_of_fuel := by
  intro h
  unfold coro_set_caller at h
  split at h
  · cases h
  · cases hc : s.obj self with
    | none => simp [hc] at h
    | some c =>
      simp only [hc] at h
      split at h
      · cases hrel : coro_release c.caller s with
        | error e =>
          simp only [hrel] at h
          cases h
          exact coro_release_ne_out_of_fuel _ _ hrel
        | ok s1 =>
          simp only [hrel] at h
          cases hret : coro_retain caller s1 with
          | error e =>
            simp only [hret] at h
            cases h
            exact coro_retain_ne_out_of_fuel _ _ hret
          | ok s2 =>
            simp only [hret] at h
            split at h <;> cases h
      · cases h

theorem swapcontext_ne_out_of_fuel (context : CtxLoc) (next : Nat) (k : Flow υ)
    (s : State υ δ) : swapcontext context next k s ≠ .error .out_of_fuel := by
  intro h
  unfold swapcontext at h
  cases context with
  | env_of self =>
    simp only at h
    cases hs : s.obj self with
    | none => simp [hs] at h
    | some c =>
      simp only [hs] at h
      split at h <;> cases h
  | automatic =>
    simp only at h
    split at h <;> cases h

theorem coro_call_ne_out_of_fuel (self next : Nat) (k : Flow υ) (s : State υ δ) :
    coro_call self next k s ≠ .error .out_of_fuel := by
  intro h
  unfold coro_call coro_yieldto_context at h
  by_cases hn : next = 0
  · rw [if_pos hn] at h
    cases h
  · rw [if_neg hn] at h
    by_cases hs : self = 0
    · subst hs
      simp only [ne_eq, not_true_eq_false, if_false] at h
      exact swapcontext_ne_out_of_fuel _ _ _ _ h
    · simp only [ne_eq, hs, not_false_eq_true, if_true] at h
      cases hset : coro_set_caller next self s with
      | error e =>
        simp only [hset] at h
        cases h
        exact coro_set_caller_ne_out_of_fuel _ _ _ hset
      | ok s1 =>
        simp only [hset] at h
        exact swapcontext_ne_out_of_fuel _ _ _ _ h

theorem exec_op_ne_out_of_fuel (P : Platform) (op : Op υ) (m : State υ δ × Held) :
    exec_op P op m ≠ .error .out_of_fuel := by
  intro h
  cases op with
  | new start context =>
    unfold exec_op at h
    simp only at h
    cases hnew : coro_new P start context m.1 with
    | error e =>
      simp only [hnew] at h
      cases h
      exact coro_new_ne_out_of_fuel _ _ _ _ hnew
    | ok r => simp [hnew] at h
  | retain x =>
    unfold exec_op at h
    simp only at h
    cases hret : coro_retain x m.1 with
    | error e =>
      simp only [hret] at h
      cases h
      exact coro_retain_ne_out_of_fuel _ _ hret
    | ok r => simp [hret] at h
  | release x =>
    unfold exec_op at h
    simp only at h
    cases hrel : coro_release x m.1 with
    | error e =>
      simp only [hrel] at h
      cases h
      exact coro_release_ne_out_of_fuel _ _ hrel
    | ok r => simp [hrel] at h
  | call self next k =>
    unfold exec_op at h
    simp only at h
    cases hcall : coro_call self next k m.1 with
    | error e =>
      simp only [hcall] at h
      cases h
      exact coro_call_ne_out_of_fuel _ _ _ _ hcall
    | ok r => simp [hcall] at h
  | run next u =>
    unfold exec_op at h
    simp only at h
    cases hnew : coro_new P 0 0 m.1 with
    | error e =>
      simp only [hnew] at h
      cases h
      exact coro_new_ne_out_of_fuel _ _ _ _ hnew
    | ok r =>
      obtain ⟨a, s1⟩ := r
      simp only [hnew] at h
      cases hcall : coro_call a next (.in_coro_run a u) s1 with
      | error e =>
        simp only [hcall] at h
        cases h
        exact coro_call_ne_out_of_fuel _ _ _ _ hcall
      | ok r => simp [hcall] at h

theorem exec_ops_ne_out_of_fuel (P : Platform) (ops : List (Op υ)) :
    ∀ m : State υ δ × Held, exec_ops P ops m ≠ .error .out_of_fuel := by
  induction ops with
  | nil =>
    intro m h
    unfold exec_ops at h
    cases h
  | cons op ops ih =>
    intro m h
    unfold exec_ops at h
    cases hop : exec_op P op m with
    | error e =>
      simp only [hop] at h
      cases h
      exact exec_op_ne_out_of_fuel _ _ _ hop
    | ok m1 =>
      simp only [hop] at h
      exact ih m1 h

/-! ## After the last release -/

theorem owned_all_dead {s : State υ δ} {w : Held} (ho : Owned s w)
    (hw : ∀ a ∈ s.alloc_trace, w a = 0) (hac : s.acyclic) : ∀ a, s.obj a = none := by
  intro a0
  by_contra hne
  have hlive : ∀ k, ∃ g c, s.obj g = some c ∧ chain_ends s k g = false := by
    intro k
    induction k with
    | zero =>
      cases hc : s.obj a0 with
      | none => exact absurd hc hne
      | some c => exact ⟨a0, c, hc, rfl⟩
    | succ k ih =>
      obtain ⟨g0, c0, hc0, hch⟩ := ih
      have hcount := (ho.counted.count g0 c0 hc0 (Finset.not_mem_empty _)).1
      rw [hw g0 (ho.tidy.live_alloc g0 c0 hc0), zero_add] at hcount
      obtain ⟨g, c, hc, _, hcaller⟩ := exists_link_of_pos hcount
      refine ⟨g, c, hc, ?_⟩
      unfold chain_ends
      rw [hc]
      simp only
      rw [hcaller]
      exact hch
  obtain ⟨g, c, hc, hch⟩ := hlive (s.alloc_trace.length + 1)
  have := hac g (ho.tidy.live_alloc g c hc)
  rw [hch] at this
  cases this

theorem owned_balanced {s : State υ δ} {w : Held} (ho : Owned s w)
    (hdead : ∀ a, s.obj a = none) :
    s.dealloc_trace.Perm s.alloc_trace ∧ s.alloc_trace.Nodup
      ∧ (∀ a ∈ s.alloc_trace, s.dealloc_trace.count a = 1)
      ∧ s.dealloc_trace.length = s.alloc_trace.length := by
  have hperm : s.dealloc_trace.Perm s.alloc_trace :=
    (List.perm_ext_iff_of_nodup ho.tidy.dealloc_nodup ho.tidy.alloc_nodup).2
      (fun a => ⟨fun h => (ho.tidy.dealloc_dead a h).1,
        fun h => ho.tidy.dead_dealloc a h (hdead a)⟩)
  refine ⟨hperm, ho.tidy.alloc_nodup, ?_, hperm.length_eq⟩
  intro a ha
  exact List.count_eq_one_of_mem ho.tidy.dealloc_nodup (hperm.mem_iff.2 ha)

theorem free_total {p : Nat} {s : State υ δ} (h : p = 0 ∨ s.bufs p ≠ none) :
    ∃ sb, free p s = .ok sb := by
  unfold free
  by_cases h0 : p = 0
  · exact ⟨s, by rw [if_pos h0]⟩
  · rw [if_neg h0]
    rcases h with h | h
    · exact absurd h h0
    · cases hb : s.bufs p with
      | none => exact absurd hb h
      | some n => exact ⟨_, rfl⟩

/-- `coro_release` of a coroutine without caller whose count is one. -/
theorem coro_release_sole {s : State υ δ} {a : Nat} {c : coro υ}
    (h : s.obj a = some c) (hr : c.refcount = 1) (hcaller : c.caller = 0)
    (hstack : c.stack = 0 ∨ s.bufs c.stack ≠ none) :
    ∃ s2, coro_release a s = .ok s2 ∧ s2.obj a = none
      ∧ s2.alloc_trace = s.alloc_trace
      ∧ s2.dealloc_trace = s.dealloc_trace ++ [a] := by
  have h0 : (c.refcount + WORD - 1) % WORD = 0 := by rw [hr]; decide
  obtain ⟨sb, hfr⟩ := free_total (s := s.store a { c with refcount := 0 }) hstack
  obtain ⟨_, _, h3, h4, _⟩ := free_ok hfr
  refine ⟨{ sb with heap := Function.update sb.heap a none
                    dealloc_trace := sb.dealloc_trace ++ [a] }, ?_, ?_, ?_, ?_⟩
  · rw [coro_release_unfold h, h0, if_pos (Nat.le_refl 0)]
    unfold coro_dealloc coro_dealloc_with
    simp only [hcaller] at hfr
    simp only [obj_store_of_obj _ h, hcaller, coro_release_null, hfr]
  · rw [obj_remove, if_pos rfl]
  · exact h3
  · simp only
    rw [h4]
    rfl

/-- `coro_new` followed immediately by `coro_release`. -/
theorem coro_new_release (P : Platform) (start context : Nat) (s : State υ δ) :
    ∃ a s1 s2, coro_new P start context s = .ok (a, s1) ∧ coro_release a s1 = .ok s2
      ∧ s2.alloc_trace = s.alloc_trace ++ [a]
      ∧ s2.dealloc_trace = s.dealloc_trace ++ [a]
      ∧ s2.obj a = none := by
  by_cases hstart : start = 0
  · subst hstart
    obtain ⟨s1, hnew, hobj, _, _, _, _, halloc, hdealloc, _⟩ := coro_new_bare P s
    obtain ⟨s2, hrel, hnone, ha, hd⟩ := coro_release_sole hobj rfl rfl (Or.inl rfl)
    refine ⟨s.brk + 1, s1, s2, ?_, hrel, ?_, ?_, hnone⟩
    · rw [coro_new_no_start]; exact hnew
    · rw [ha, halloc]
    · rw [hd, hdealloc]
  · obtain ⟨s1, hnew, hobj, _, _, _, hbufs, halloc, hdealloc, _⟩ :=
      coro_new_started P start context s hstart
    obtain ⟨s2, hrel, hnone, ha, hd⟩ := coro_release_sole hobj rfl rfl
      (Or.inr (by simp only; rw [hbufs, Function.update_same]; exact Option.some_ne_none _))
    refine ⟨s.brk + 1, s1, s2, hnew, hrel, ?_, ?_, hnone⟩
    · rw [ha, halloc]
    · rw [hd, hdealloc]

set_option maxRecDepth 8000 in
theorem main_run_all_dead :
    (run linux_x86_64 tests_c downward 39 (boot 0x602000)).mem.map
      (fun m => main_allocs.all (fun a => (m.obj a).isNone)) = some true := by
  decide

theorem main_ops_ok :
    exec_ops linux_x86_64 main_ops (main_start, fun _ => 0)
      = .ok (main_final.1, main_final.2) := by
  rfl

theorem main_final_acyclic : main_final.1.acyclic := by
  unfold State.acyclic
  decide

/-- C5: `coro_new` followed immediately by `coro_release` performs one
allocation and one deallocation, of the same object, for a bare and for a
non-bare coroutine.  For every sequence of `coro_new`, `coro_retain`,
`coro_release`, `coro_call` and `coro_run` operations that runs without
fault from a memory without coroutines: when every creation and every retain
has been matched by a release (no reference is held from outside any more)
and the caller graph is acyclic, no coroutine is left, the deallocations are
a permutation of the allocations, every address that was allocated was
deallocated exactly once, and the two numbers are equal.  A sequence never
stops because of the bound the embedding puts on the recursion of
`coro_release`.  The operations of the test program are such a sequence: they run without fault, leave no
reference held and an acyclic graph, and perform the 18 allocations and the
18 deallocations of the run of `main`, in the same order; when `main`
returns, none of the 18 coroutines is left. -/
theorem ownership_spec :
    (∀ (υ δ : Type) (P : Platform) (start context : Nat) (s : State υ δ),
      ∃ a s1 s2, coro_new P start context s = .ok (a, s1) ∧ coro_release a s1 = .ok s2
        ∧ s2.alloc_trace = s.alloc_trace ++ [a]
        ∧ s2.dealloc_trace = s.dealloc_trace ++ [a]
        ∧ s2.obj a = none)
    ∧ (∀ (υ δ : Type) (P : Platform) (base : Nat) (d : δ) (ops : List (Op υ))
        (s : State υ δ) (w : Held),
      exec_ops P ops (State.init base d, fun _ => 0) = .ok (s, w) →
      (∀ a ∈ s.alloc_trace, w a = 0) → s.acyclic →
      (∀ a, s.obj a = none)
        ∧ s.dealloc_trace.Perm s.alloc_trace ∧ s.alloc_trace.Nodup
        ∧ (∀ a ∈ s.alloc_trace, s.dealloc_trace.count a = 1)
        ∧ s.dealloc_trace.length = s.alloc_trace.length)
    ∧ (∀ (υ δ : Type) (P : Platform) (ops : List (Op υ)) (m : State υ δ × Held),
      exec_ops P ops m ≠ .error .out_of_fuel)
    ∧ (exec_ops linux_x86_64 main_ops (main_start, fun _ => 0)
          = .ok (main_final.1, main_final.2)
        ∧ (∀ a ∈ main_final.1.alloc_trace, main_final.2 a = 0)
        ∧ main_final.1.acyclic
        ∧ main_final.1.alloc_trace = main_allocs
        ∧ main_final.1.dealloc_trace = main_deallocs
        ∧ (run linux_x86_64 tests_c downward 39 (boot 0x602000)).has_exited = true
        ∧ (run linux_x86_64 tests_c downward 39 (boot 0x602000)).mem.map
            (fun m => m.alloc_trace) = some main_allocs
        ∧ (run linux_x86_64 tests_c downward 39 (boot 0x602000)).mem.map
            (fun m => m.dealloc_trace) = some main_deallocs
        ∧ (run linux_x86_64 tests_c downward 39 (boot 0x602000)).mem.map
            (fun m => main_allocs.all (fun a => (m.obj a).isNone)) = some true
        ∧ main_deallocs.Perm main_allocs
        ∧ main_allocs.length = 18 ∧ main_deallocs.length = 18) := by
  refine ⟨fun υ δ => coro_new_release, ?_, fun υ δ P ops m => exec_ops_ne_out_of_fuel P ops m,
    main_ops_ok, by decide, main_final_acyclic,
    by decide, by decide, by decide, by decide, by decide, main_run_all_dead, by decide,
    rfl, rfl⟩
  intro υ δ P base d ops s w hexec hw hac
  have ho := owned_exec_ops ops (owned_init base d) hexec
  have hdead := owned_all_dead ho hw hac
  exact ⟨hdead, owned_balanced ho hdead⟩

/-- Instance of `ownership_spec`: the operations of the test program. -/
theorem ownership_spec_witness :
    exec_ops linux_x86_64 main_ops (main_start, fun _ => 0) = .ok (main_final.1, main_final.2)
    ∧ (∀ a ∈ main_final.1.alloc_trace, main_final.2 a = 0)
    ∧ main_final.1.acyclic
    ∧ ((∀ a, main_final.1.obj a = none)
      ∧ main_final.1.dealloc_trace.Perm main_final.1.alloc_trace
      ∧ main_final.1.alloc_trace.Nodup
      ∧ (∀ a ∈ main_final.1.alloc_trace, main_final.1.dealloc_trace.count a = 1)
      ∧ main_final.1.dealloc_trace.length = main_final.1.alloc_trace.length) :=
  ⟨main_ops_ok, by decide, main_final_acyclic,
    ownership_spec.2.1 Pt TestData linux_x86_64 0x602000
      { number := 0, context := ⟨0, 0, 0⟩, out := [] } main_ops main_final.1 main_final.2
      main_ops_ok (by decide) main_final_acyclic⟩

/-! ## Instances -/

/-- Instance of `coro_call_spec`: in the alternating test `A` calls `B`,
which has a stack and no caller; the count of `A` goes from 1 to 2, and
`coro_return(B)` would resume `A`. -/
theorem coro_call_spec_witness :
    ∃ t, coro_call 6299649 6300633 (.user (.main_called_first 6299649))
        (alternate_state linux_x86_64) = .ok t
      ∧ t.state.refcount_at 6299649 = some ((example_A.refcount + 1) % WORD)
      ∧ t.state.caller_at 6300633 = some 6299649
      ∧ (∀ k2, ∃ t2, coro_yield 6300633 k2 t.state = .ok t2 ∧ t2.target = 6299649)
      ∧ (∀ k2, ∃ t2, coro_return linux_x86_64 6300633 k2 t.state = .ok t2
          ∧ t2.target = 6299649) :=
  let h := coro_call_spec linux_x86_64 (alternate_state linux_x86_64) 6299649 6300633
    example_A example_B (.user (.main_called_first 6299649)) (by decide) (by decide)
  let ⟨t, ht, hcount⟩ := h.2.2.1 (by decide) (Or.inl rfl)
  let ⟨_, _, hcaller, _, _, _, hyield, hret, _⟩ := h.1 t ht
  ⟨t, ht, hcount, hcaller,
    fun k2 => let ⟨t2, h1, h2, _⟩ := hyield k2; ⟨t2, h1, h2⟩,
    fun k2 => let ⟨t2, h1, h2, _⟩ := hret (by decide) k2; ⟨t2, h1, h2⟩⟩

/-- Instance of `coro_yieldto_spec`: in `chain_state`, `X` (48) yields to
`Z` (16), which has no caller. -/
theorem coro_yieldto_spec_witness :
    ∃ t, coro_yieldto 48 16 (.user ()) chain_state = .ok t
      ∧ t.target = 16
      ∧ (∀ a, t.state.caller_at a = chain_state.caller_at a)
      ∧ (∀ a, t.state.refcount_at a = chain_state.refcount_at a)
      ∧ (∀ k2, coro_yield 16 k2 t.state = .error (.yield_error t.state)) :=
  let ⟨t, h1, h2, _, _, h5, h6, h7⟩ :=
    coro_yieldto_spec chain_state 48 16 (bare 1 32) (bare 2 0) (.user ())
      (by decide) (by decide)
  ⟨t, h1, h2, h5, h6, (h7 rfl).2⟩

/-- Instance of `coro_stack_remaining_spec`: `first_coro` of the alternating
test on a stack that grows toward lower addresses, 160 bytes used. -/
theorem coro_stack_remaining_spec_witness :
    ∃ r : Nat, coro_stack_remaining 6432529 6432481 6300633 (alternate_state linux_x86_64)
        = .ok r
      ∧ r ≤ example_B.stack_size :=
  let ⟨r, h1, _, h3, _⟩ :=
    ((coro_stack_remaining_spec (alternate_state linux_x86_64) 6300633 example_B
      6432529 6432481 (by decide) (by decide)).2.2.1 (by decide) (by decide)).2
  ⟨r, h1, h3⟩

/-- Instance of `coro_release_spec`: in `chain_state` the count of `Z` (16)
is 2; the release stores 1. -/
theorem coro_release_spec_witness :
    coro_release 16 chain_state
      = .ok (chain_state.store 16
          { (bare 2 0) with refcount := ((bare 2 0).refcount + WORD - 1) % WORD }) :=
  (coro_release_spec chain_state 16 (bare 2 0) (by decide) (by decide)).2.1 (by decide)

end Coro
